import Mathlib

/-!
The flow-shop instance generator `fspgen` and its lower bounds: a shallow embedding of
`Raw/generator/fspgen.cc` and the properties proved about it.

Modelling conventions.

* The global matrix `int FSP[MAX_MACHINES][MAX_JOBS]` is a function from a machine index
  and a job index to an integer; a routine that writes `FSP` maps the old matrix to the
  new one.
* `int` arithmetic is arithmetic modulo `2^32` with results in `[INT_MIN, INT_MAX]`
  (`wrapInt`), which is what the compiled program computes; signed overflow is undefined
  behaviour in C++, and the theorems state the bounds under which none occurs. The
  arguments of a routine (`int` parameters, options, matrix entries) are integers, and
  the theorems that depend on it assume them in `[INT_MIN, INT_MAX]`.
* `long` values are mathematical integers, `long` being 64 bits wide: the seed arithmetic
  of `unifZeroOne` and, for `int` entries and at most `MAX_MACHINES` machines and
  `MAX_JOBS` jobs, the sums of `taillardLowerBound` stay within that range. Where the code
  depends on the width (the `LONG_MAX` sentinels), the constant is written out.
* `double` values are the rationals they denote, and `toDouble` rounds the exact result of
  one operation to the nearest `double` (ties to even, 53 significant bits, gradual
  underflow; a result beyond the largest `double` is kept, and converts to `int` as
  infinity does). The arithmetic that decides an integer result (`unifSupplied`, the
  effective interval width, the cells of the mixed-correlated generator) is rounded
  operation by operation. `unifZeroOne` itself returns the exact quotient `seed/m`, of
  which the `double` of the code is the rounding, and `normal` computes with exact
  values; the library part `r ↦ sqrt(-2.0*log(r)/r)` of `normal` is a parameter `fac`,
  and its rejection loop runs for at most `fuel` rounds.
* The conversion of a `double` with an integer value to `int` (`toInt`) gives the value
  when it is in `[INT_MIN, INT_MAX]` and `INT_MIN` otherwise, the result of the
  conversion instruction of x86-64 (the conversion is undefined in C++ there).
* The library function `rint` rounds to the nearest integer, ties to even (the default
  rounding mode).
* A failing `assert` and an out-of-range subscript make the routine return `none`.
* The option store `GBL_OptionalParameterValueMap` is the record `OptionalParameters` of
  the values `optionAsInteger` and `optionAsDouble` return, `none` for an absent option.
* `for (int i = 0; i < n; i++)` is `forLoop n`, which runs the body for `0, 1, …, n-1` in
  that order.
-/

namespace FspGen

/-! ## Loops and the instance matrix -/

/-- The loop `for (int i = 0; i < n; i++) s = body i s`. -/
def forLoop {σ : Type} : Nat → (Nat → σ → σ) → σ → σ
  | 0, _, s => s
  | n + 1, body, s => body n (forLoop n body s)

/-- The loop `for (int k = lo; k < hi; k++) s = body k s`. -/
def forRange {σ : Type} (lo hi : Nat) (body : Nat → σ → σ) (s : σ) : σ :=
  forLoop (hi - lo) (fun t acc => body (lo + t) acc) s

/-- The size `MAX_JOBS` of the second dimension of `FSP`. -/
def MAX_JOBS : Nat := 500

/-- The size `MAX_MACHINES` of the first dimension of `FSP`. -/
def MAX_MACHINES : Nat := 100

/-- The value of `INT_MAX`. -/
def INT_MAX : Int := 2147483647

/-- The value of `LONG_MAX` for a 64-bit `long`. -/
def LONG_MAX : Int := 9223372036854775807

/-- The operation durations `FSP[machine][job]`. -/
abbrev Matrix := Nat → Nat → Int

/-- The assignment `FSP[i][j] = v`. -/
def setCell (FSP : Matrix) (i j : Nat) (v : Int) : Matrix :=
  fun a b => if a = i ∧ b = j then v else FSP a b

/-- A matrix given by its rows (one row per machine); cells outside the rows are `0`. -/
def ofRows (rows : List (List Int)) : Matrix :=
  fun i j => (rows.getD i []).getD j 0

/-! ## Duration corrector -/

/-- The body of the inner loop of `verifyAndCorrectDurations` for cell `(i, j)`. -/
def correctCell (durationLB durationUB : Int) (j i : Nat) (FSP : Matrix) : Matrix :=
  let currentDuration := FSP i j
  let currentDuration :=
    if currentDuration < durationLB then durationLB
    else if currentDuration > durationUB then durationUB
    else currentDuration
  setCell FSP i j currentDuration

/-- `verifyAndCorrectDurations(numJobs, numMachines)` with the globals `GBL_DurationLB`,
`GBL_DurationUB` and `FSP` passed in; the result is the matrix after the call. -/
def verifyAndCorrectDurations (durationLB durationUB : Int) (numJobs numMachines : Nat)
    (FSP : Matrix) : Matrix :=
  forLoop numJobs
    (fun j FSP => forLoop numMachines (fun i FSP => correctCell durationLB durationUB j i FSP) FSP)
    FSP

/-! ## Machine arithmetic -/

/-- The value of `INT_MIN`. -/
def INT_MIN : Int := -2147483648

/-- The result of an `int` operation whose exact value is `x`: the integer of
`[INT_MIN, INT_MAX]` congruent to `x` modulo `2^32`. -/
def wrapInt (x : Int) : Int :=
  (x + 2147483648) % 4294967296 - 2147483648

/-- The conversion `int(x)` of a `double` `x` whose value is the integer `t`: `t` when it
is in the range of `int`, and `INT_MIN` otherwise. -/
def toInt (t : Int) : Int :=
  if INT_MIN ≤ t ∧ t ≤ INT_MAX then t else INT_MIN

/-- The C library function `rint` in the default rounding mode, on exact values: the
nearest integer, and the even one of the two when the argument lies halfway between two
integers. -/
def rint (x : ℚ) : Int :=
  let f := Int.floor x
  let d := x - (f : ℚ)
  if d < 1 / 2 then f
  else if d > 1 / 2 then f + 1
  else if f % 2 = 0 then f
  else f + 1

/-- The `double` that a floating-point operation with exact result `x` returns: `x`
rounded to the nearest multiple of `2^(e-52)`, ties to the even multiple, where `e` is
the exponent of `x` (`2^e ≤ |x| < 2^(e+1)`), and at least `-1022`. -/
def toDouble (x : ℚ) : ℚ :=
  if x = 0 then 0
  else
    let e := max (Int.log 2 |x|) (-1022)
    let ulp : ℚ := 2 ^ (e - 52)
    (rint (x / ulp) : ℚ) * ulp

/-! ## Random number generators -/

/-- The state of the random number generators: the global `GBL_RandNumSeed` and the two
static variables `iset` and `gset` of `normal`. -/
structure RNG where
  /-- The global `GBL_RandNumSeed`. -/
  seed : Int
  /-- The static `iset` of `normal`: nonzero when `gset` holds a spare deviate. -/
  iset : Int
  /-- The static `gset` of `normal`. -/
  gset : ℚ
deriving DecidableEq

/-- The state at program start: `GBL_RandNumSeed=0`, `iset=0` and the zero-initialised
static `gset`. -/
def freshRNG : RNG := ⟨0, 0, 0⟩

/-- `setSeed(newSeed)`: `none` when `assert(newSeed>0)` fails. -/
def setSeed (st : RNG) (newSeed : Int) : Option RNG :=
  if newSeed > 0 then some { st with seed := newSeed } else none

/-- The update of `GBL_RandNumSeed` in `unifZeroOne`, with `m=2147483647`, `a=16807`,
`b=127773`, `c=2836`; `/` and `%` of C++ truncate toward zero. -/
def seedUpdate (seed : Int) : Int :=
  let k := Int.tdiv seed 127773
  let seed := 16807 * (Int.tmod seed 127773) - k * 2836
  if seed < 0 then seed + 2147483647 else seed

/-- `unifZeroOne()`: the value returned and the new state; `none` when
`assert((value_0_1>=0.0)&&(value_0_1<1.0))` fails. The value is the exact quotient of the
new seed by `m`; the `double` that the code returns is `toDouble` of it. -/
def unifZeroOne (st : RNG) : Option (ℚ × RNG) :=
  let newSeed := seedUpdate st.seed
  let value_0_1 : ℚ := (newSeed : ℚ) / (2147483647 : ℚ)
  if value_0_1 ≥ 0 ∧ value_0_1 < 1 then some (value_0_1, { st with seed := newSeed })
  else none

/-- `unifSupplied(low, high)`: the value returned and the new state; `none` when
`assert(low<=high)`, the assertion of `unifZeroOne` or
`assert((result>=low)&&(result<=high))` fails. The `double` `value_0_1` is the rounded
quotient, its product with `double(high - low + 1)` is rounded, and `high - low + 1` and
the sum `low + …` are `int` operations. -/
def unifSupplied (st : RNG) (low high : Int) : Option (Int × RNG) :=
  if low ≤ high then
    match unifZeroOne st with
    | none => none
    | some (value_0_1, st) =>
      let value_0_1 := toDouble value_0_1
      let span := wrapInt (wrapInt (high - low) + 1)
      let result := wrapInt (low + toInt (Int.floor (toDouble (value_0_1 * (span : ℚ)))))
      if result ≥ low ∧ result ≤ high then some (result, st) else none
  else none

/-- The integer `(int)(floor(value_0_1 * double(span)))` that `unifSupplied` adds to `low`,
as a function of the seed `newSeed` that the draw leaves and of `span = high - low + 1`:
the quotient `newSeed/m` is rounded to a `double`, and so is its product with `span`. -/
def scaledFloor (newSeed span : Int) : Int :=
  Int.floor (toDouble (toDouble ((newSeed : ℚ) / 2147483647) * (span : ℚ)))

/-- The `do … while(r>=1.0)` loop of `normal`, run for at most `fuel` rounds: the accepted
`v1`, `v2`, `r` and the state after the draws; `none` when no pair was accepted within
`fuel` rounds or an assertion of `unifZeroOne` failed. -/
def normalPair : Nat → RNG → Option (ℚ × ℚ × ℚ × RNG)
  | 0, _ => none
  | fuel + 1, st =>
    match unifZeroOne st with
    | none => none
    | some (u1, st1) =>
      let v1 := 2 * u1 - 1
      match unifZeroOne st1 with
      | none => none
      | some (u2, st2) =>
        let v2 := 2 * u2 - 1
        let r := v1 * v1 + v2 * v2
        if r ≥ 1 then normalPair fuel st2 else some (v1, v2, r, st2)

/-- `normal(mean, stdDev)`: the value returned and the new state. The library part
`r ↦ sqrt(-2.0*log(r)/r)` is the parameter `fac`; `fuel` bounds the rounds of the
rejection loop. -/
def normal (fac : ℚ → ℚ) (fuel : Nat) (st : RNG) (mean stdDev : ℚ) : Option (ℚ × RNG) :=
  if st.iset = 0 then
    match normalPair fuel st with
    | none => none
    | some (v1, v2, r, st) =>
      let f := fac r
      some ((v2 * f) * stdDev + mean, { st with gset := v1 * f, iset := 1 })
  else
    some (st.gset * stdDev + mean, { st with iset := 0 })

/-- A call of one of the three samplers, with its arguments. -/
inductive Call where
  | unifZeroOne
  | unifSupplied (low high : Int)
  | normal (mean stdDev : ℚ)
deriving DecidableEq

/-- A value returned by a sampler: a `double` or an `int`. -/
inductive Draw where
  | real (x : ℚ)
  | int (n : Int)
deriving DecidableEq

/-- One sampler call: the value returned and the new state. -/
def runCall (fac : ℚ → ℚ) (fuel : Nat) (st : RNG) : Call → Option (Draw × RNG)
  | Call.unifZeroOne => (unifZeroOne st).map fun p => (Draw.real p.1, p.2)
  | Call.unifSupplied low high => (unifSupplied st low high).map fun p => (Draw.int p.1, p.2)
  | Call.normal mean stdDev => (normal fac fuel st mean stdDev).map fun p => (Draw.real p.1, p.2)

/-- A sequence of sampler calls made one after the other: the values returned, in order;
`none` when one of the calls does not return. -/
def runCalls (fac : ℚ → ℚ) (fuel : Nat) : RNG → List Call → Option (List Draw)
  | _, [] => some []
  | st, c :: cs =>
    match runCall fac fuel st c with
    | none => none
    | some (d, st) => (runCalls fac fuel st cs).map fun ds => d :: ds

/-- The values returned by a sequence of sampler calls made after `setSeed(s)`. -/
def drawsAfterSetSeed (fac : ℚ → ℚ) (fuel : Nat) (st : RNG) (s : Int) (calls : List Call) :
    Option (List Draw) :=
  match setSeed st s with
  | none => none
  | some st => runCalls fac fuel st calls

/-! ## Lower bounds -/

/-- The vectors `b`, `a` and `t` of `taillardLowerBound`. -/
structure TaillardVectors where
  /-- The vector `b` of the `Bi`. -/
  b : Nat → Int
  /-- The vector `a` of the `Ai`. -/
  a : Nat → Int
  /-- The vector `t` of the `Ti`. -/
  t : Nat → Int

/-- The body of the first loop of `taillardLowerBound` for machine `i`: it stores `b[i]`,
`a[i]` and `t[i]`. -/
def taillardMachine (FSP : Matrix) (numJobs numMachines : Nat) (i : Nat)
    (v : TaillardVectors) : TaillardVectors :=
  let minSoFar := forLoop numJobs
    (fun j minSoFar =>
      let thisMin := forLoop i (fun k thisMin => thisMin + FSP k j) 0
      min minSoFar thisMin) LONG_MAX
  let b := Function.update v.b i minSoFar
  let minSoFar := forLoop numJobs
    (fun j minSoFar =>
      let thisMin := forRange (i + 1) numMachines (fun k thisMin => thisMin + FSP k j) 0
      min minSoFar thisMin) LONG_MAX
  let a := Function.update v.a i minSoFar
  let t := Function.update v.t i (forLoop numJobs (fun j ti => ti + FSP i j) (v.t i))
  ⟨b, a, t⟩

/-- `taillardLowerBound(numJobs, numMachines)` on the matrix `FSP`. -/
def taillardLowerBound (FSP : Matrix) (numJobs numMachines : Nat) : Int :=
  let v := forLoop numMachines (taillardMachine FSP numJobs numMachines)
    ⟨fun _ => LONG_MAX, fun _ => LONG_MAX, fun _ => 0⟩
  let maxDur := forLoop numJobs
    (fun j maxDur =>
      let sum := forLoop numMachines (fun k sum => sum + FSP k j) 0
      max maxDur sum) 0
  let maxCompTime := forLoop numMachines
    (fun k maxCompTime => max maxCompTime (v.a k + v.b k + v.t k)) 0
  max maxCompTime maxDur

/-- The first loop of `proportionateLowerBound`: the vector `minOps`, which starts filled
with `INT_MAX`. -/
def minOpsVector (FSP : Matrix) (numJobs numMachines : Nat) : Nat → Int :=
  forLoop numJobs
    (fun i minOps => Function.update minOps i (min (FSP 0 i) (FSP (numMachines - 1) i)))
    (fun _ => INT_MAX)

/-- The second loop of `proportionateLowerBound`: the pair `(largestDuration, omega)` it
leaves, from `largestDuration=0`, `omega=-1`; `duration` is an `int`. -/
def largestJob (FSP : Matrix) (numJobs numMachines : Nat) : Int × Int :=
  forLoop numJobs
    (fun i s =>
      let duration := forLoop numMachines (fun j duration => wrapInt (duration + FSP j i)) 0
      if duration > s.1 then (duration, (i : Int)) else s) (0, -1)

/-- `proportionateLowerBound(numJobs, numMachines)` on the matrix `FSP`; `none` when a
subscript is out of range: `FSP[numMachines-1]` for `numMachines = 0`, or `minOps[omega]`
for an `omega` outside `[0, numJobs)`. The sum `accumulate(…, 0)` and the expression
returned are computed in `int` and then converted to `long`. -/
def proportionateLowerBound (FSP : Matrix) (numJobs numMachines : Nat) : Option Int :=
  if numMachines = 0 ∧ 0 < numJobs then none
  else
    let minOps := minOpsVector FSP numJobs numMachines
    let s := largestJob FSP numJobs numMachines
    let largestDuration := s.1
    let omega := s.2
    let accumulate := forLoop numJobs (fun i acc => wrapInt (acc + minOps i)) 0
    if 0 ≤ omega ∧ omega < (numJobs : Int) then
      some (wrapInt (wrapInt (accumulate - minOps omega.toNat) + largestDuration))
    else none

/-! ## The lower bounds in the words of the specification -/

/-- The total duration of job `j` across all machines. -/
def specJobTotal (d : Matrix) (numMachines j : Nat) : Int :=
  ∑ k ∈ Finset.range numMachines, d k j

/-- `B[i]`: the minimum over jobs `j` of the sum of the durations of job `j` on the
machines `0..i-1`. -/
def specB (d : Matrix) (numJobs : Nat) (hJ : 0 < numJobs) (i : Nat) : Int :=
  (Finset.range numJobs).inf' (Finset.nonempty_range_iff.mpr (Nat.pos_iff_ne_zero.mp hJ))
    (fun j => ∑ k ∈ Finset.range i, d k j)

/-- `A[i]`: the minimum over jobs `j` of the sum of the durations of job `j` on the
machines `i+1..last`. -/
def specA (d : Matrix) (numJobs numMachines : Nat) (hJ : 0 < numJobs) (i : Nat) : Int :=
  (Finset.range numJobs).inf' (Finset.nonempty_range_iff.mpr (Nat.pos_iff_ne_zero.mp hJ))
    (fun j => ∑ k ∈ Finset.Ico (i + 1) numMachines, d k j)

/-- `T[i]`: the sum over jobs of `duration[i][j]`. -/
def specT (d : Matrix) (numJobs i : Nat) : Int :=
  ∑ j ∈ Finset.range numJobs, d i j

/-- `maxJobSum`: the maximum over jobs of the total duration of the job. -/
def specMaxJobSum (d : Matrix) (numJobs numMachines : Nat) (hJ : 0 < numJobs) : Int :=
  (Finset.range numJobs).sup' (Finset.nonempty_range_iff.mpr (Nat.pos_iff_ne_zero.mp hJ))
    (fun j => specJobTotal d numMachines j)

/-- The Taillard bound `max( max over i of (A[i]+B[i]+T[i]), maxJobSum )`. -/
def specTaillard (d : Matrix) (numJobs numMachines : Nat) (hJ : 0 < numJobs)
    (hM : 0 < numMachines) : Int :=
  max
    ((Finset.range numMachines).sup'
      (Finset.nonempty_range_iff.mpr (Nat.pos_iff_ne_zero.mp hM))
      (fun i => specA d numJobs numMachines hJ i + specB d numJobs hJ i + specT d numJobs i))
    (specMaxJobSum d numJobs numMachines hJ)

/-- `minOps[j] = min(duration[firstMachine][j], duration[lastMachine][j])`. -/
def specMinOps (d : Matrix) (numMachines j : Nat) : Int :=
  min (d 0 j) (d (numMachines - 1) j)

/-- Job `ω` has the maximum total duration and is the lowest-index such job. -/
def IsOmega (d : Matrix) (numJobs numMachines ω : Nat) : Prop :=
  ω < numJobs ∧
    (∀ j, j < numJobs → specJobTotal d numMachines j ≤ specJobTotal d numMachines ω) ∧
    (∀ j, j < ω → specJobTotal d numMachines j < specJobTotal d numMachines ω)

instance (d : Matrix) (numJobs numMachines ω : Nat) :
    Decidable (IsOmega d numJobs numMachines ω) := by
  unfold IsOmega
  infer_instance

/-- The proportionate bound for the job `ω`:
`(sum over all jobs of minOps[j]) - minOps[ω] + totalDuration[ω]`. -/
def specProportionate (d : Matrix) (numJobs numMachines ω : Nat) : Int :=
  (∑ j ∈ Finset.range numJobs, specMinOps d numMachines j) - specMinOps d numMachines ω
    + specJobTotal d numMachines ω

/-! ## Correlated generators -/

/-- The loop `for (int i = 0; i < n; i++) s = body i s` whose body can abort the program
(a failing `assert`): `none` as soon as one round aborts. -/
def forLoopOpt {σ : Type} : Nat → (Nat → σ → Option σ) → σ → Option σ
  | 0, _, s => some s
  | n + 1, body, s =>
    match forLoopOpt n body s with
    | none => none
    | some s => body n s

/-- Rounding to the nearest integer with ties away from zero, the rule the specification
names. -/
def roundHalfAway (x : ℚ) : Int :=
  if 0 ≤ x then Int.floor (x + 1 / 2) else Int.ceil (x - 1 / 2)

/-- The optional command-line parameters the correlated generators look up in
`GBL_OptionalParameterValueMap`, as `optionAsInteger` and `optionAsDouble` return them;
`none` when the option is not present. -/
structure OptionalParameters where
  /-- The option `distHalfWidthLB`. -/
  distHalfWidthLB : Option Int
  /-- The option `distHalfWidthUB`. -/
  distHalfWidthUB : Option Int
  /-- The option `alpha`. -/
  alpha : Option ℚ
  /-- The option `durationNoise`. -/
  durationNoise : Option Int

/-- The local `effectiveIntervalWidth` of the correlated generators:
`int(rint(alpha*double(actualIntervalWidth)))` with the `int`
`actualIntervalWidth=GBL_DurationUB-GBL_DurationLB`; the product is rounded to a `double`
before `rint` is applied. -/
def effectiveIntervalWidth (durationLB durationUB : Int) (alpha : ℚ) : Int :=
  let actualIntervalWidth := wrapInt (durationUB - durationLB)
  toInt (rint (toDouble (alpha * (actualIntervalWidth : ℚ))))

/-- The loop `for (i < n) vec[i] = unifSupplied(low, high)` on a vector that starts filled
with `0`: the vector and the state after it. -/
def drawVector (n : Nat) (low high : Int) (st : RNG) : Option ((Nat → Int) × RNG) :=
  forLoopOpt n
    (fun i p =>
      match unifSupplied p.2 low high with
      | none => none
      | some (x, st) => some (Function.update p.1 i x, st))
    (fun _ => 0, st)

/-- The nested loop `for (i < numMachines) for (j < numJobs)
FSP[i][j] = unifSupplied(low i j, high i j)`: the matrix and the state after it. -/
def drawMatrix (numMachines numJobs : Nat) (low high : Nat → Nat → Int) (st : RNG)
    (FSP : Matrix) : Option (Matrix × RNG) :=
  forLoopOpt numMachines
    (fun i p =>
      forLoopOpt numJobs
        (fun j p =>
          match unifSupplied p.2 (low i j) (high i j) with
          | none => none
          | some (x, st) => some (setCell p.1 i j x, st))
        p)
    (FSP, st)

/-- `generateJobCorrelatedFlowShop(numJobs, numMachines)`: `none` when an assertion fails,
otherwise the value returned, the state of the generators and the matrix. The bounds of
the windows are `int` expressions. -/
def generateJobCorrelatedFlowShop (opts : OptionalParameters) (durationLB durationUB : Int)
    (numJobs numMachines : Nat) (st : RNG) (FSP : Matrix) : Option (Bool × RNG × Matrix) :=
  let distHWLB := opts.distHalfWidthLB.getD 1
  let distHWUB := opts.distHalfWidthUB.getD 5
  if distHWLB > distHWUB ∨ distHWLB ≤ 0 ∨ distHWUB ≤ 0 then some (false, st, FSP)
  else
    let alpha := opts.alpha.getD (1 / 2)
    if alpha < 0 then some (false, st, FSP)
    else
      let effectiveIntervalWidth := effectiveIntervalWidth durationLB durationUB alpha
      match unifSupplied st durationLB (wrapInt (durationUB - effectiveIntervalWidth)) with
      | none => none
      | some (startPoint, st) =>
        match drawVector numJobs startPoint (wrapInt (startPoint + effectiveIntervalWidth))
            st with
        | none => none
        | some (distributionMeans, st) =>
          match drawVector numJobs distHWLB distHWUB st with
          | none => none
          | some (distributionHalfWidths, st) =>
            match drawMatrix numMachines numJobs
                (fun _ j => wrapInt (distributionMeans j - distributionHalfWidths j))
                (fun _ j => wrapInt (distributionMeans j + distributionHalfWidths j))
                st FSP with
            | none => none
            | some (FSP, st) => some (true, st, FSP)

/-- `generateMachineCorrelatedFlowShop(numJobs, numMachines)`: `none` when an assertion
fails, otherwise the value returned, the state of the generators and the matrix. The
bounds of the windows are `int` expressions. -/
def generateMachineCorrelatedFlowShop (opts : OptionalParameters)
    (durationLB durationUB : Int) (numJobs numMachines : Nat) (st : RNG) (FSP : Matrix) :
    Option (Bool × RNG × Matrix) :=
  let distHWLB := opts.distHalfWidthLB.getD 1
  let distHWUB := opts.distHalfWidthUB.getD 5
  if distHWLB > distHWUB ∨ distHWLB ≤ 0 ∨ distHWUB ≤ 0 then some (false, st, FSP)
  else
    let alpha := opts.alpha.getD (1 / 2)
    if alpha < 0 then some (false, st, FSP)
    else
      let effectiveIntervalWidth := effectiveIntervalWidth durationLB durationUB alpha
      match unifSupplied st durationLB (wrapInt (durationUB - effectiveIntervalWidth)) with
      | none => none
      | some (startPoint, st) =>
        match drawVector numMachines startPoint
            (wrapInt (startPoint + effectiveIntervalWidth)) st with
        | none => none
        | some (distributionMeans, st) =>
          match drawVector numMachines distHWLB distHWUB st with
          | none => none
          | some (distributionHalfWidths, st) =>
            match drawMatrix numMachines numJobs
                (fun i _ => wrapInt (distributionMeans i - distributionHalfWidths i))
                (fun i _ => wrapInt (distributionMeans i + distributionHalfWidths i))
                st FSP with
            | none => none
            | some (FSP, st) => some (true, st, FSP)

/-- The loop `for (i < n) relativeJobOrder[i] = unifZeroOne()` on a vector that starts
filled with `0.0`: the vector of the `double` values returned and the state after it. -/
def drawRanks (n : Nat) (st : RNG) : Option ((Nat → ℚ) × RNG) :=
  forLoopOpt n
    (fun i p =>
      match unifZeroOne p.2 with
      | none => none
      | some (u, st) => some (Function.update p.1 i (toDouble u), st))
    (fun _ => 0, st)

/-- The body of the last loop of `generateMixedCorrelatedFlowShop` for the cell `(i, j)`;
the product `relativeJobOrder[j]*double(distWidth)` is rounded to a `double` before `rint`
is applied, and the other operations are `int` operations. -/
def mixedCell (distributionMeans distributionHalfWidths : Nat → Int)
    (relativeJobOrder : Nat → ℚ) (durationNoise : Int) (i j : Nat) (p : Matrix × RNG) :
    Option (Matrix × RNG) :=
  let distLowerBound := wrapInt (distributionMeans i - distributionHalfWidths i)
  let distUpperBound := wrapInt (distributionMeans i + distributionHalfWidths i)
  let distWidth := wrapInt (distUpperBound - distLowerBound)
  let thisJobMean :=
    wrapInt (toInt (rint (toDouble (relativeJobOrder j * (distWidth : ℚ)))) + distLowerBound)
  match unifSupplied p.2 (wrapInt (-durationNoise)) durationNoise with
  | none => none
  | some (sampleError, st) =>
    let thisDuration := wrapInt (thisJobMean + sampleError)
    some (setCell p.1 i j thisDuration, st)

/-- `generateMixedCorrelatedFlowShop(numJobs, numMachines)`: `none` when an assertion
fails, otherwise the value returned, the state of the generators and the matrix. -/
def generateMixedCorrelatedFlowShop (opts : OptionalParameters)
    (durationLB durationUB : Int) (numJobs numMachines : Nat) (st : RNG) (FSP : Matrix) :
    Option (Bool × RNG × Matrix) :=
  let distHWLB := opts.distHalfWidthLB.getD 1
  let distHWUB := opts.distHalfWidthUB.getD 5
  if distHWLB > distHWUB ∨ distHWLB ≤ 0 ∨ distHWUB ≤ 0 then some (false, st, FSP)
  else
    let alpha := opts.alpha.getD (1 / 2)
    if alpha < 0 then some (false, st, FSP)
    else
      let durationNoise := opts.durationNoise.getD 0
      if durationNoise < 0 then some (false, st, FSP)
      else
        let effectiveIntervalWidth := effectiveIntervalWidth durationLB durationUB alpha
        match unifSupplied st durationLB (wrapInt (durationUB - effectiveIntervalWidth)) with
        | none => none
        | some (startPoint, st) =>
          match drawVector numMachines startPoint
              (wrapInt (startPoint + effectiveIntervalWidth)) st with
          | none => none
          | some (distributionMeans, st) =>
            match drawVector numMachines distHWLB distHWUB st with
            | none => none
            | some (distributionHalfWidths, st) =>
              match drawRanks numJobs st with
              | none => none
              | some (relativeJobOrder, st) =>
                match forLoopOpt numMachines
                    (fun i p =>
                      forLoopOpt numJobs
                        (fun j p =>
                          mixedCell distributionMeans distributionHalfWidths
                            relativeJobOrder durationNoise i j p)
                        p)
                    (FSP, st) with
                | none => none
                | some (FSP, st) => some (true, st, FSP)

/-! ## Taillard generator -/

/-- `generateTaillardFlowShop(numJobs, numMachines)`: the loop over the machines `i` and,
inside it, over the jobs `j`, with `FSP[i][j]=unifSupplied(GBL_DurationLB,GBL_DurationUB)`;
`none` when an assertion fails, otherwise the value returned (always `true`), the state
of the generators and the matrix. -/
def generateTaillardFlowShop (durationLB durationUB : Int) (numJobs numMachines : Nat)
    (st : RNG) (FSP : Matrix) : Option (Bool × RNG × Matrix) :=
  match drawMatrix numMachines numJobs (fun _ _ => durationLB) (fun _ _ => durationUB)
      st FSP with
  | none => none
  | some (FSP, st) => some (true, st, FSP)

/-! ## The Lehmer generator in the words of the specification -/

/-- The Lehmer step `seed ↦ (16807 * seed) mod 2147483647`. -/
def lehmerStep (seed : Int) : Int :=
  (16807 * seed) % 2147483647

/-- The state of the generators after `k` further uniform draws: the seed has been updated
`k` times and the state of `normal` is unchanged. -/
def afterDraws (st : RNG) (k : Nat) : RNG :=
  { st with seed := seedUpdate^[k] st.seed }

/-- Modular exponentiation by repeated squaring, `acc * b ^ e mod m`, run for at most
`fuel` binary digits of `e`; used to evaluate powers of `16807` modulo `2147483647`. -/
def powModAux (m : Nat) : Nat → Nat → Nat → Nat → Nat
  | 0, _, _, acc => acc
  | fuel + 1, b, e, acc =>
    if e = 0 then acc
    else powModAux m fuel (b * b % m) (e / 2) (if e % 2 = 1 then acc * b % m else acc)

/-- The value `r = v1*v1 + v2*v2` of the pair of uniform draws that the rejection loop of
`normal` makes in its round `k` (counted from `0`) when it starts from `seed`: the draws
are the seeds after `2k+1` and `2k+2` updates, divided by `2147483647`. -/
def pairRadius (seed : Int) (k : Nat) : ℚ :=
  (2 * ((seedUpdate^[2 * k + 1] seed : Int) / 2147483647 : ℚ) - 1) *
      (2 * ((seedUpdate^[2 * k + 1] seed : Int) / 2147483647 : ℚ) - 1) +
    (2 * ((seedUpdate^[2 * k + 2] seed : Int) / 2147483647 : ℚ) - 1) *
      (2 * ((seedUpdate^[2 * k + 2] seed : Int) / 2147483647 : ℚ) - 1)

/-! ## Relations between sampler states -/

/-- Two states that the samplers cannot tell apart: the same seed, the same flag of
`normal`, and the same cached deviate when the flag is set. -/
def Agree (a b : RNG) : Prop :=
  a.seed = b.seed ∧ a.iset = b.iset ∧ (a.iset ≠ 0 → a.gset = b.gset)

instance (a b : RNG) : Decidable (Agree a b) := by
  unfold Agree
  infer_instance

/-- Two sampler calls that both fail, or return the same value and leave states that
agree. -/
def SameOutcome {α : Type} : Option (α × RNG) → Option (α × RNG) → Prop
  | none, none => True
  | some (u, a), some (v, b) => u = v ∧ Agree a b
  | _, _ => False

/-! ## Lemmas on the corrector -/

theorem forLoop_succ {σ : Type} (n : Nat) (body : Nat → σ → σ) (s : σ) :
    forLoop (n + 1) body s = body n (forLoop n body s) := rfl

theorem forLoop_zero {σ : Type} (body : Nat → σ → σ) (s : σ) :
    forLoop 0 body s = s := rfl

theorem correctCell_apply (lb ub : Int) (j i : Nat) (G : Matrix) (a b : Nat) :
    correctCell lb ub j i G a b =
      if a = i ∧ b = j then
        (if G i j < lb then lb else if G i j > ub then ub else G i j)
      else G a b := rfl

theorem correct_inner (lb ub : Int) (j : Nat) (F : Matrix) (n a b : Nat) :
    forLoop n (fun i G => correctCell lb ub j i G) F a b =
      if a < n ∧ b = j then
        (if F a b < lb then lb else if F a b > ub then ub else F a b)
      else F a b := by
  induction n generalizing a b with
  | zero => simp [forLoop_zero]
  | succ n ih =>
    rw [forLoop_succ, correctCell_apply]
    by_cases h1 : a = n ∧ b = j
    · obtain ⟨rfl, rfl⟩ := h1
      simp [ih]
    · rw [if_neg h1, ih]
      by_cases h2 : a < n ∧ b = j
      · have : a < n + 1 ∧ b = j := ⟨by omega, h2.2⟩
        rw [if_pos h2, if_pos this]
      · have : ¬ (a < n + 1 ∧ b = j) := by
          rintro ⟨h3, h4⟩
          rcases Nat.lt_succ_iff_lt_or_eq.mp h3 with h5 | h5
          · exact h2 ⟨h5, h4⟩
          · exact h1 ⟨h5, h4⟩
        rw [if_neg h2, if_neg this]

theorem correct_cell_eq (lb ub : Int) (numJobs numMachines : Nat) (F : Matrix) (a b : Nat) :
    verifyAndCorrectDurations lb ub numJobs numMachines F a b =
      if a < numMachines ∧ b < numJobs then
        (if F a b < lb then lb else if F a b > ub then ub else F a b)
      else F a b := by
  unfold verifyAndCorrectDurations
  induction numJobs with
  | zero => simp [forLoop_zero]
  | succ n ih =>
    rw [forLoop_succ, correct_inner, ih]
    by_cases hb : b = n
    · subst hb
      by_cases ha : a < numMachines
      · simp [ha]
      · simp [ha]
    · by_cases h2 : a < numMachines ∧ b < n
      · have : a < numMachines ∧ b < n + 1 := ⟨h2.1, by omega⟩
        simp [hb, h2, this]
      · have : ¬ (a < numMachines ∧ b < n + 1) := by
          rintro ⟨h3, h4⟩
          exact h2 ⟨h3, by omega⟩
        simp [hb, h2, this]

/-! ## Theorems on the corrector -/

/-- C1: with `durationLB ≤ durationUB`, after `verifyAndCorrectDurations(numJobs,
numMachines)` every cell `FSP[i][j]` with `i < numMachines` and `j < numJobs` lies in
`[durationLB, durationUB]`, whatever the matrix was before. -/
theorem verifyAndCorrectDurations_range (durationLB durationUB : Int)
    (numJobs numMachines : Nat) (FSP : Matrix) (hb : durationLB ≤ durationUB)
    (i j : Nat) (hi : i < numMachines) (hj : j < numJobs) :
    durationLB ≤ verifyAndCorrectDurations durationLB durationUB numJobs numMachines FSP i j ∧
      verifyAndCorrectDurations durationLB durationUB numJobs numMachines FSP i j
        ≤ durationUB := by
  rw [correct_cell_eq, if_pos ⟨hi, hj⟩]
  split_ifs with h1 h2
  · exact ⟨le_refl _, hb⟩
  · exact ⟨hb, le_refl _⟩
  · exact ⟨not_lt.mp h1, not_lt.mp h2⟩

/-- Witness for C1: a 2 × 2 matrix with entries `-4, 250, 7, 99` and bounds `[1, 99]`,
at cell `(0, 1)`. -/
theorem verifyAndCorrectDurations_range_witness :
    (1 : Int) ≤ 99 ∧ 0 < 2 ∧ 1 < 2 ∧
      ((1 : Int) ≤ verifyAndCorrectDurations 1 99 2 2 (ofRows [[-4, 250], [7, 99]]) 0 1 ∧
        verifyAndCorrectDurations 1 99 2 2 (ofRows [[-4, 250], [7, 99]]) 0 1 ≤ 99) :=
  ⟨by decide, by decide, by decide,
    verifyAndCorrectDurations_range 1 99 2 2 (ofRows [[-4, 250], [7, 99]]) (by decide) 0 1
      (by decide) (by decide)⟩

/-- C2: `verifyAndCorrectDurations` is a pointwise clamp for bounds
`durationLB ≤ durationUB`. A cell inside the `numMachines × numJobs` window becomes
`durationLB` if it was below `durationLB`, `durationUB` if it was above `durationUB`, and
keeps its value if it was within the bounds; a cell outside the window keeps its value. -/
theorem verifyAndCorrectDurations_clamp (durationLB durationUB : Int)
    (numJobs numMachines : Nat) (FSP : Matrix) (hb : durationLB ≤ durationUB) (i j : Nat) :
    ((i < numMachines ∧ j < numJobs) →
      (FSP i j < durationLB →
        verifyAndCorrectDurations durationLB durationUB numJobs numMachines FSP i j
          = durationLB) ∧
      (durationUB < FSP i j →
        verifyAndCorrectDurations durationLB durationUB numJobs numMachines FSP i j
          = durationUB) ∧
      (durationLB ≤ FSP i j → FSP i j ≤ durationUB →
        verifyAndCorrectDurations durationLB durationUB numJobs numMachines FSP i j
          = FSP i j)) ∧
    (¬ (i < numMachines ∧ j < numJobs) →
      verifyAndCorrectDurations durationLB durationUB numJobs numMachines FSP i j
        = FSP i j) := by
  constructor
  · intro hw
    rw [correct_cell_eq, if_pos hw]
    refine ⟨fun h => by rw [if_pos h], fun h => ?_, fun h1 h2 => ?_⟩
    · rw [if_neg (by omega), if_pos (by omega)]
    · rw [if_neg (by omega), if_neg (by omega)]
  · intro hw
    rw [correct_cell_eq, if_neg hw]

/-- Witness for C2: the matrix with rows `[-4, 250, 50]` and `[120, 3, 8]`, bounds
`[1, 99]` and a window of one machine and three jobs: `-4` becomes `1`, `250` becomes `99`,
`50` stays, and `120`, outside the window, stays. -/
theorem verifyAndCorrectDurations_clamp_witness :
    (1 : Int) ≤ 99 ∧
      verifyAndCorrectDurations 1 99 3 1 (ofRows [[-4, 250, 50], [120, 3, 8]]) 0 0 = 1 ∧
      verifyAndCorrectDurations 1 99 3 1 (ofRows [[-4, 250, 50], [120, 3, 8]]) 0 1 = 99 ∧
      verifyAndCorrectDurations 1 99 3 1 (ofRows [[-4, 250, 50], [120, 3, 8]]) 0 2 = 50 ∧
      verifyAndCorrectDurations 1 99 3 1 (ofRows [[-4, 250, 50], [120, 3, 8]]) 1 0 = 120 :=
  ⟨by decide,
    ((verifyAndCorrectDurations_clamp 1 99 3 1 (ofRows [[-4, 250, 50], [120, 3, 8]])
      (by decide) 0 0).1 ⟨by decide, by decide⟩).1 (by decide),
    ((verifyAndCorrectDurations_clamp 1 99 3 1 (ofRows [[-4, 250, 50], [120, 3, 8]])
      (by decide) 0 1).1 ⟨by decide, by decide⟩).2.1 (by decide),
    ((verifyAndCorrectDurations_clamp 1 99 3 1 (ofRows [[-4, 250, 50], [120, 3, 8]])
      (by decide) 0 2).1 ⟨by decide, by decide⟩).2.2 (by decide) (by decide),
    (verifyAndCorrectDurations_clamp 1 99 3 1 (ofRows [[-4, 250, 50], [120, 3, 8]])
      (by decide) 1 0).2 (by decide)⟩

/-! ## Lemmas on machine arithmetic -/

theorem rint_near (x : ℚ) : (rint x : ℚ) - 1 / 2 ≤ x ∧ x ≤ (rint x : ℚ) + 1 / 2 := by
  have h1 := Int.floor_le x
  have h2 := Int.lt_floor_add_one x
  unfold rint
  dsimp only
  split_ifs with ha hb hc
  · constructor <;> linarith
  · push_cast
    constructor <;> linarith
  · constructor <;> linarith
  · push_cast
    constructor <;> linarith

theorem rint_tie_even (x : ℚ)
    (h : x - (rint x : ℚ) = 1 / 2 ∨ (rint x : ℚ) - x = 1 / 2) : rint x % 2 = 0 := by
  have h1 := Int.floor_le x
  have h2 := Int.lt_floor_add_one x
  unfold rint at h ⊢
  dsimp only at h ⊢
  split_ifs at h ⊢ with ha hb hc
  · rcases h with h | h <;> linarith
  · push_cast at h
    rcases h with h | h <;> linarith
  · exact hc
  · omega

theorem rint_nonneg (x : ℚ) (hx : 0 ≤ x) : 0 ≤ rint x := by
  have h0 : 0 ≤ Int.floor x := Int.floor_nonneg.mpr hx
  unfold rint
  dsimp only
  split_ifs <;> omega

theorem rint_le_of_le_int (x : ℚ) (n : Int) (hx : x ≤ (n : ℚ)) : rint x ≤ n := by
  have h1 : Int.floor x ≤ n := Int.floor_le_iff.mpr (by linarith)
  have h3 := Int.floor_le x
  have h4 := Int.lt_floor_add_one x
  rcases lt_or_eq_of_le h1 with hlt | heq
  · unfold rint
    dsimp only
    split_ifs <;> omega
  · have hxn : x = (n : ℚ) := by
      rw [heq] at h3
      exact le_antisymm hx h3
    unfold rint
    dsimp only
    rw [hxn, Int.floor_intCast, sub_self, if_pos (by norm_num)]

theorem rint_intCast (k : Int) : rint (k : ℚ) = k := by
  unfold rint
  dsimp only
  rw [Int.floor_intCast, sub_self, if_pos (by norm_num)]

/-- A value less than `1/2` away from an integer rounds to it. -/
theorem rint_eq_of_abs_lt (x : ℚ) (k : Int) (h : |x - (k : ℚ)| < 1 / 2) : rint x = k := by
  have hn := rint_near x
  rw [abs_lt] at h
  have h1 : ((rint x - k : Int) : ℚ) < 1 := by push_cast; linarith [hn.1, hn.2, h.1, h.2]
  have h2 : (-1 : ℚ) < ((rint x - k : Int) : ℚ) := by push_cast; linarith [hn.1, hn.2, h.1, h.2]
  have h3 : rint x - k < 1 := by exact_mod_cast h1
  have h4 : -1 < rint x - k := by exact_mod_cast h2
  omega

theorem wrapInt_eq (x : Int) (h0 : INT_MIN ≤ x) (h1 : x ≤ INT_MAX) : wrapInt x = x := by
  unfold INT_MIN at h0
  unfold INT_MAX at h1
  unfold wrapInt
  omega

theorem wrapInt_range (x : Int) : INT_MIN ≤ wrapInt x ∧ wrapInt x ≤ INT_MAX := by
  unfold INT_MIN INT_MAX wrapInt
  omega

theorem toInt_eq (t : Int) (h0 : INT_MIN ≤ t) (h1 : t ≤ INT_MAX) : toInt t = t := by
  unfold toInt
  rw [if_pos ⟨h0, h1⟩]

theorem toDouble_zero : toDouble 0 = 0 := by
  unfold toDouble
  rw [if_pos rfl]

/-- The value of `toDouble` from the binade of the argument. -/
theorem toDouble_of_bounds (x : ℚ) (e : Int) (hlo : (2 : ℚ) ^ e ≤ |x|)
    (hhi : |x| < (2 : ℚ) ^ (e + 1)) (he : -1022 ≤ e) :
    toDouble x = (rint (x / (2 : ℚ) ^ (e - 52)) : ℚ) * (2 : ℚ) ^ (e - 52) := by
  have hpos : 0 < |x| := lt_of_lt_of_le (by positivity) hlo
  have hx : x ≠ 0 := abs_pos.mp hpos
  have hlog : Int.log 2 |x| = e := by
    apply le_antisymm
    · have := (Int.lt_zpow_iff_log_lt (b := 2) (by norm_num) hpos (x := e + 1)).mp
        (by exact_mod_cast hhi)
      omega
    · exact (Int.zpow_le_iff_le_log (b := 2) (by norm_num) hpos).mp (by exact_mod_cast hlo)
  unfold toDouble
  rw [if_neg hx]
  dsimp only
  rw [hlog, max_eq_left he]

/-- The unit in the last place used for an argument: at most `|x| * 2^-52` for a normal
argument. -/
theorem toDouble_error (x : ℚ) (hx : (2 : ℚ) ^ (-1022 : Int) ≤ |x|) :
    |toDouble x - x| ≤ |x| * (2 : ℚ) ^ (-53 : Int) := by
  have hpos : 0 < |x| := lt_of_lt_of_le (by positivity) hx
  have h1 : (2 : ℚ) ^ Int.log 2 |x| ≤ |x| := by
    exact_mod_cast Int.zpow_log_le_self (b := 2) (by norm_num) hpos
  have h2 : |x| < (2 : ℚ) ^ (Int.log 2 |x| + 1) := by
    exact_mod_cast Int.lt_zpow_succ_log_self (b := 2) (by norm_num) |x|
  have he : -1022 ≤ Int.log 2 |x| :=
    (Int.zpow_le_iff_le_log (b := 2) (by norm_num) hpos).mp (by exact_mod_cast hx)
  rw [toDouble_of_bounds x _ h1 h2 he]
  set e := Int.log 2 |x| with hedef
  have hu : (0 : ℚ) < (2 : ℚ) ^ (e - 52) := by positivity
  have hn := rint_near (x / (2 : ℚ) ^ (e - 52))
  have hsplit : (2 : ℚ) ^ (e - 52) = (2 : ℚ) ^ e * (2 : ℚ) ^ (-52 : Int) := by
    rw [← zpow_add₀ (by norm_num : (2 : ℚ) ≠ 0)]
    congr 1
  have hx' : x = x / (2 : ℚ) ^ (e - 52) * (2 : ℚ) ^ (e - 52) := by
    field_simp
  have hd : |(rint (x / (2 : ℚ) ^ (e - 52)) : ℚ) * (2 : ℚ) ^ (e - 52) - x|
      ≤ 1 / 2 * (2 : ℚ) ^ (e - 52) := by
    have : (rint (x / (2 : ℚ) ^ (e - 52)) : ℚ) * (2 : ℚ) ^ (e - 52) - x
        = ((rint (x / (2 : ℚ) ^ (e - 52)) : ℚ) - x / (2 : ℚ) ^ (e - 52)) * (2 : ℚ) ^ (e - 52) := by
      field_simp
    rw [this, abs_mul, abs_of_pos hu]
    apply mul_le_mul_of_nonneg_right _ hu.le
    rw [abs_le]
    constructor <;> linarith [hn.1, hn.2]
  calc |(rint (x / (2 : ℚ) ^ (e - 52)) : ℚ) * (2 : ℚ) ^ (e - 52) - x|
      ≤ 1 / 2 * (2 : ℚ) ^ (e - 52) := hd
    _ = (2 : ℚ) ^ e * (2 : ℚ) ^ (-53 : Int) := by
        rw [hsplit]
        norm_num
        ring
    _ ≤ |x| * (2 : ℚ) ^ (-53 : Int) := mul_le_mul_of_nonneg_right h1 (by positivity)

theorem toDouble_nonneg (x : ℚ) (hx : 0 ≤ x) : 0 ≤ toDouble x := by
  unfold toDouble
  split_ifs with h
  · exact le_refl 0
  · dsimp only
    apply mul_nonneg _ (by positivity)
    exact_mod_cast rint_nonneg _ (div_nonneg hx (by positivity))

/-- A value `k * 2^j` with `|k| < 2^53` and `j ≥ -1074` is a double. -/
theorem toDouble_exact (k j : Int) (hk : |k| < 2 ^ 53) (hj : -1074 ≤ j) :
    toDouble ((k : ℚ) * (2 : ℚ) ^ j) = (k : ℚ) * (2 : ℚ) ^ j := by
  by_cases hk0 : k = 0
  · subst hk0
    simp [toDouble_zero]
  have hx : (k : ℚ) * (2 : ℚ) ^ j ≠ 0 := by
    apply mul_ne_zero
    · exact_mod_cast hk0
    · positivity
  have hpos : 0 < |(k : ℚ) * (2 : ℚ) ^ j| := abs_pos.mpr hx
  have habs : |(k : ℚ) * (2 : ℚ) ^ j| = (|k| : ℚ) * (2 : ℚ) ^ j := by
    rw [abs_mul, abs_of_pos (by positivity : (0 : ℚ) < (2 : ℚ) ^ j)]
  have hlt : |(k : ℚ) * (2 : ℚ) ^ j| < (2 : ℚ) ^ (52 + j + 1) := by
    rw [habs]
    have h53 : ((|k| : Int) : ℚ) < (2 : ℚ) ^ (53 : Int) := by exact_mod_cast hk
    have : (2 : ℚ) ^ (52 + j + 1) = (2 : ℚ) ^ (53 : Int) * (2 : ℚ) ^ j := by
      rw [← zpow_add₀ (by norm_num : (2 : ℚ) ≠ 0)]
      congr 1
      ring
    rw [this]
    push_cast at h53
    exact mul_lt_mul_of_pos_right h53 (by positivity)
  have hlog : Int.log 2 |(k : ℚ) * (2 : ℚ) ^ j| ≤ 52 + j := by
    have := (Int.lt_zpow_iff_log_lt (b := 2) (by norm_num) hpos (x := 52 + j + 1)).mp
      (by exact_mod_cast hlt)
    omega
  unfold toDouble
  rw [if_neg hx]
  dsimp only
  set e := max (Int.log 2 |(k : ℚ) * (2 : ℚ) ^ j|) (-1022) with hedef
  have he : e ≤ 52 + j := max_le hlog (by omega)
  obtain ⟨t, ht⟩ : ∃ t : Nat, j - (e - 52) = (t : Int) := ⟨(j - (e - 52)).toNat, by omega⟩
  have hq : (k : ℚ) * (2 : ℚ) ^ j / (2 : ℚ) ^ (e - 52) = ((k * 2 ^ t : Int) : ℚ) := by
    rw [mul_div_assoc, ← zpow_sub₀ (by norm_num : (2 : ℚ) ≠ 0), ht]
    push_cast
    rw [zpow_natCast]
  rw [hq, rint_intCast]
  push_cast
  rw [mul_assoc, ← zpow_natCast, ← ht, ← zpow_add₀ (by norm_num : (2 : ℚ) ≠ 0)]
  congr 2
  ring

theorem toDouble_intCast (k : Int) (hk : |k| < 2 ^ 53) : toDouble (k : ℚ) = (k : ℚ) := by
  have := toDouble_exact k 0 hk (by norm_num)
  simpa using this

theorem rint_le_of_lt_half (x : ℚ) (k : Int) (h : x < (k : ℚ) + 1 / 2) : rint x ≤ k := by
  have hn := rint_near x
  have h1 : ((rint x : Int) : ℚ) < ((k + 1 : Int) : ℚ) := by
    push_cast
    linarith [hn.1]
  have h2 : rint x < k + 1 := by exact_mod_cast h1
  omega

/-- A value halfway between `k` and `k + 1` rounds to the even one of the two. -/
theorem rint_tie (k : Int) : rint ((k : ℚ) + 1 / 2) = if k % 2 = 0 then k else k + 1 := by
  have hf : Int.floor ((k : ℚ) + 1 / 2) = k := by
    rw [Int.floor_eq_iff]
    constructor <;> linarith
  unfold rint
  dsimp only
  rw [hf]
  have hd : (k : ℚ) + 1 / 2 - (k : ℚ) = 1 / 2 := by ring
  rw [hd, if_neg (lt_irrefl _), if_neg (lt_irrefl _)]

/-- The rounding error of `toDouble`: half a unit in the last place, which is at most
`|x| * 2^-53` for a normal argument and `2^-1075` below the normal range. -/
theorem toDouble_abs_error (x : ℚ) :
    |toDouble x - x| ≤ |x| * (2 : ℚ) ^ (-53 : Int) + (2 : ℚ) ^ (-1075 : Int) := by
  by_cases hx0 : x = 0
  · subst hx0
    rw [toDouble_zero]
    simp
    positivity
  have hpos : 0 < |x| := abs_pos.mpr hx0
  by_cases hn : (2 : ℚ) ^ (-1022 : Int) ≤ |x|
  · have := toDouble_error x hn
    have h2 : (0 : ℚ) ≤ (2 : ℚ) ^ (-1075 : Int) := by positivity
    linarith
  · have hlog : Int.log 2 |x| < -1022 :=
      (Int.lt_zpow_iff_log_lt (b := 2) (by norm_num) hpos).mp (by exact_mod_cast not_le.mp hn)
    unfold toDouble
    rw [if_neg hx0]
    dsimp only
    rw [max_eq_right (by omega)]
    have hu : (0 : ℚ) < (2 : ℚ) ^ ((-1022 : Int) - 52) := by positivity
    have hr := rint_near (x / (2 : ℚ) ^ ((-1022 : Int) - 52))
    have heq : (rint (x / (2 : ℚ) ^ ((-1022 : Int) - 52)) : ℚ) * (2 : ℚ) ^ ((-1022 : Int) - 52) - x
        = ((rint (x / (2 : ℚ) ^ ((-1022 : Int) - 52)) : ℚ) - x / (2 : ℚ) ^ ((-1022 : Int) - 52))
          * (2 : ℚ) ^ ((-1022 : Int) - 52) := by
      field_simp
    have hhalf : (1 / 2 : ℚ) * (2 : ℚ) ^ ((-1022 : Int) - 52) = (2 : ℚ) ^ (-1075 : Int) := by
      have : (1 / 2 : ℚ) = (2 : ℚ) ^ (-1 : Int) := by norm_num
      rw [this, ← zpow_add₀ (by norm_num : (2 : ℚ) ≠ 0)]
      norm_num
    rw [heq, abs_mul, abs_of_pos hu]
    have h3 : |(rint (x / (2 : ℚ) ^ ((-1022 : Int) - 52)) : ℚ) - x / (2 : ℚ) ^ ((-1022 : Int) - 52)|
        ≤ 1 / 2 := by
      rw [abs_le]
      constructor <;> linarith [hr.1, hr.2]
    have h4 := mul_le_mul_of_nonneg_right h3 hu.le
    rw [hhalf] at h4
    have h5 : (0 : ℚ) ≤ |x| * (2 : ℚ) ^ (-53 : Int) := by positivity
    linarith

theorem pow_tiny : (2 : ℚ) ^ (-1075 : Int) ≤ 1 / 9007199254740992 := by
  have h1 : (2 : ℚ) ^ (-1075 : Int) ≤ (2 : ℚ) ^ (-53 : Int) :=
    zpow_le_zpow_right₀ (by norm_num) (by norm_num)
  have h2 : (2 : ℚ) ^ (-53 : Int) = 1 / 9007199254740992 := by
    rw [zpow_neg]
    norm_num
  exact le_trans h1 h2.le

/-- For `0 ≤ x ≤ n` with `n` an integer below `2^31`, the nearest integer to the `double`
nearest to `x` is in `[0, n]`. -/
theorem rint_toDouble_range (x : ℚ) (n : Int) (hx0 : 0 ≤ x) (hxn : x ≤ (n : ℚ))
    (hn : n ≤ 2147483647) : 0 ≤ rint (toDouble x) ∧ rint (toDouble x) ≤ n := by
  constructor
  · exact rint_nonneg _ (toDouble_nonneg x hx0)
  · apply rint_le_of_lt_half
    have he := toDouble_abs_error x
    rw [abs_of_nonneg hx0, abs_le] at he
    have h53 : (2 : ℚ) ^ (-53 : Int) = 1 / 9007199254740992 := by
      rw [zpow_neg]
      norm_num
    rw [h53] at he
    have ht := pow_tiny
    have hnq : (n : ℚ) ≤ 2147483647 := by exact_mod_cast hn
    have h1 : x * (1 / 9007199254740992) ≤ 2147483647 * (1 / 9007199254740992) :=
      mul_le_mul_of_nonneg_right (le_trans hxn hnq) (by norm_num)
    have h2 : (2147483647 * (1 / 9007199254740992) : ℚ) + 1 / 9007199254740992 < 1 / 2 := by
      norm_num
    linarith [he.2]

/-! ## Lemmas on the random number generators -/

theorem seedUpdate_nonneg_eq (seed : Int) (h : 0 ≤ seed) :
    seedUpdate seed =
      if 16807 * (seed % 127773) - seed / 127773 * 2836 < 0 then
        16807 * (seed % 127773) - seed / 127773 * 2836 + 2147483647
      else 16807 * (seed % 127773) - seed / 127773 * 2836 := by
  unfold seedUpdate
  rw [Int.tdiv_eq_ediv h (by norm_num), Int.tmod_eq_emod h (by norm_num)]

theorem seedUpdate_range (seed : Int) (h0 : 0 ≤ seed) (h1 : seed ≤ 2147483647) :
    0 ≤ seedUpdate seed ∧ seedUpdate seed < 2147483647 := by
  rw [seedUpdate_nonneg_eq seed h0]
  split_ifs with h <;> omega

theorem unifZeroOne_eq (st : RNG) (h0 : 0 ≤ st.seed) (h1 : st.seed ≤ 2147483647) :
    unifZeroOne st =
      some ((seedUpdate st.seed : ℚ) / 2147483647, { st with seed := seedUpdate st.seed }) := by
  obtain ⟨ha, hb⟩ := seedUpdate_range st.seed h0 h1
  unfold unifZeroOne
  have hq0 : (0 : ℚ) ≤ (seedUpdate st.seed : ℚ) := by exact_mod_cast ha
  have hq1 : (seedUpdate st.seed : ℚ) < 2147483647 := by exact_mod_cast hb
  have h2 : ((seedUpdate st.seed : ℚ) / 2147483647 ≥ 0 ∧
      (seedUpdate st.seed : ℚ) / 2147483647 < 1) := by
    constructor
    · positivity
    · rw [div_lt_one (by norm_num)]
      exact hq1
  simp only [h2, and_self, if_true]

theorem floor_scaled (s n : Int) :
    Int.floor (((s : ℚ) / 2147483647) * (n : ℚ)) = s * n / 2147483647 := by
  have h : ((s : ℚ) / 2147483647) * (n : ℚ) = (((s * n : Int)) : ℚ) / ((2147483647 : ℕ) : ℚ) := by
    push_cast
    ring
  rw [h, Rat.floor_intCast_div_natCast]
  norm_num

/-! ## Lemmas on determinism -/

theorem sameOutcome_cases {α : Type} (x y : Option (α × RNG)) (h : SameOutcome x y) :
    (x = none ∧ y = none) ∨
      ∃ u a b, x = some (u, a) ∧ y = some (u, b) ∧ Agree a b := by
  cases x with
  | none =>
    cases y with
    | none => exact Or.inl ⟨rfl, rfl⟩
    | some q => exact h.elim
  | some p =>
    cases y with
    | none => exact h.elim
    | some q =>
      obtain ⟨u, a⟩ := p
      obtain ⟨v, b⟩ := q
      obtain ⟨huv, hab⟩ := h
      subst huv
      exact Or.inr ⟨u, a, b, rfl, rfl, hab⟩

theorem sameOutcome_none {α : Type} : SameOutcome (none : Option (α × RNG)) none := trivial

theorem sameOutcome_some {α : Type} (u : α) (a b : RNG) (h : Agree a b) :
    SameOutcome (some (u, a)) (some (u, b)) := ⟨rfl, h⟩

theorem unifZeroOne_agree (a b : RNG) (h : Agree a b) :
    SameOutcome (unifZeroOne a) (unifZeroOne b) := by
  obtain ⟨hs, hi, hg⟩ := h
  unfold unifZeroOne
  rw [hs]
  dsimp only
  split_ifs with hc
  · exact sameOutcome_some _ _ _ ⟨rfl, hi, hg⟩
  · exact sameOutcome_none

theorem unifSupplied_agree (a b : RNG) (low high : Int) (h : Agree a b) :
    SameOutcome (unifSupplied a low high) (unifSupplied b low high) := by
  unfold unifSupplied
  split_ifs with hlh
  · rcases sameOutcome_cases _ _ (unifZeroOne_agree a b h) with ⟨ha, hb⟩ | ⟨u, a1, b1, ha, hb, hab⟩
    · rw [ha, hb]
      exact sameOutcome_none
    · rw [ha, hb]
      dsimp only
      split_ifs with hc
      · exact sameOutcome_some _ _ _ hab
      · exact sameOutcome_none
  · exact sameOutcome_none

theorem normalPair_agree (fuel : Nat) (a b : RNG) (h : Agree a b) :
    (normalPair fuel a = none ∧ normalPair fuel b = none) ∨
      ∃ v1 v2 r a1 b1, normalPair fuel a = some (v1, v2, r, a1) ∧
        normalPair fuel b = some (v1, v2, r, b1) ∧ a1.seed = b1.seed := by
  induction fuel generalizing a b with
  | zero => exact Or.inl ⟨rfl, rfl⟩
  | succ n ih =>
    unfold normalPair
    rcases sameOutcome_cases _ _ (unifZeroOne_agree a b h) with ⟨ha, hb⟩ | ⟨u, a1, b1, ha, hb, hab⟩
    · rw [ha, hb]
      exact Or.inl ⟨rfl, rfl⟩
    · rw [ha, hb]
      dsimp only
      rcases sameOutcome_cases _ _ (unifZeroOne_agree a1 b1 hab) with
        ⟨ha2, hb2⟩ | ⟨u2, a2, b2, ha2, hb2, hab2⟩
      · rw [ha2, hb2]
        exact Or.inl ⟨rfl, rfl⟩
      · rw [ha2, hb2]
        dsimp only
        split_ifs with hc
        · exact ih a2 b2 hab2
        · exact Or.inr ⟨_, _, _, a2, b2, rfl, rfl, hab2.1⟩

theorem normal_agree (fac : ℚ → ℚ) (fuel : Nat) (a b : RNG) (mean stdDev : ℚ)
    (h : Agree a b) :
    SameOutcome (normal fac fuel a mean stdDev) (normal fac fuel b mean stdDev) := by
  have hp := normalPair_agree fuel a b h
  obtain ⟨hs, hi, hg⟩ := h
  unfold normal
  by_cases h0 : a.iset = 0
  · have h0b : b.iset = 0 := hi ▸ h0
    rw [if_pos h0, if_pos h0b]
    rcases hp with ⟨ha, hb⟩ | ⟨v1, v2, r, a1, b1, ha, hb, hab⟩
    · rw [ha, hb]
      exact sameOutcome_none
    · rw [ha, hb]
      exact sameOutcome_some _ _ _ ⟨hab, rfl, fun _ => rfl⟩
  · have h0b : ¬ b.iset = 0 := hi ▸ h0
    rw [if_neg h0, if_neg h0b, hg h0]
    exact sameOutcome_some _ _ _ ⟨hs, rfl, fun hne => absurd rfl hne⟩

theorem sameOutcome_map {α β : Type} (f : α → β) (x y : Option (α × RNG))
    (h : SameOutcome x y) :
    SameOutcome (x.map fun p => (f p.1, p.2)) (y.map fun p => (f p.1, p.2)) := by
  rcases sameOutcome_cases _ _ h with ⟨ha, hb⟩ | ⟨u, a1, b1, ha, hb, hab⟩
  · rw [ha, hb]
    exact sameOutcome_none
  · rw [ha, hb]
    exact sameOutcome_some _ _ _ hab

theorem runCall_agree (fac : ℚ → ℚ) (fuel : Nat) (a b : RNG) (c : Call) (h : Agree a b) :
    SameOutcome (runCall fac fuel a c) (runCall fac fuel b c) := by
  cases c with
  | unifZeroOne => exact sameOutcome_map Draw.real _ _ (unifZeroOne_agree a b h)
  | unifSupplied low high =>
    exact sameOutcome_map Draw.int _ _ (unifSupplied_agree a b low high h)
  | normal mean stdDev =>
    exact sameOutcome_map Draw.real _ _ (normal_agree fac fuel a b mean stdDev h)

theorem runCalls_agree (fac : ℚ → ℚ) (fuel : Nat) (calls : List Call) (a b : RNG)
    (h : Agree a b) : runCalls fac fuel a calls = runCalls fac fuel b calls := by
  induction calls generalizing a b with
  | nil => rfl
  | cons c cs ih =>
    unfold runCalls
    rcases sameOutcome_cases _ _ (runCall_agree fac fuel a b c h) with
      ⟨ha, hb⟩ | ⟨d, a1, b1, ha, hb, hab⟩
    · rw [ha, hb]
    · rw [ha, hb]
      dsimp only
      rw [ih a1 b1 hab]

/-! ## Theorems on the random number generators -/

/-- C3: evaluation of the code at a seed that `setSeed` accepts and for which the range
assertion of `unifZeroOne` fails. `setSeed(1000000000000)` succeeds; the next
`unifZeroOne` sets the seed to `16807*76033 - 7826379*2836 + 2147483647 = -18770240566`,
the value `-18770240566/2147483647` is negative and the assertion fails. -/
theorem unifZeroOne_assert_fails_after_large_seed :
    setSeed freshRNG 1000000000000 = some ⟨1000000000000, 0, 0⟩ ∧
      seedUpdate 1000000000000 = -18770240566 ∧
      unifZeroOne ⟨1000000000000, 0, 0⟩ = none := by
  refine ⟨by decide, by decide, ?_⟩
  have h : seedUpdate 1000000000000 = -18770240566 := by decide
  unfold unifZeroOne
  simp only [h]
  norm_num

/-! ## Lemmas on loops -/

theorem forLoop_sum (f : Nat → Int) (c : Int) (n : Nat) :
    forLoop n (fun k acc => acc + f k) c = c + ∑ k ∈ Finset.range n, f k := by
  induction n with
  | zero => simp [forLoop_zero]
  | succ n ih => rw [forLoop_succ, ih, Finset.sum_range_succ]; ring

theorem forRange_sum (f : Nat → Int) (lo hi : Nat) :
    forRange lo hi (fun k acc => acc + f k) 0 = ∑ k ∈ Finset.Ico lo hi, f k := by
  unfold forRange
  rw [forLoop_sum (fun t => f (lo + t)) 0 (hi - lo), Finset.sum_Ico_eq_sum_range, zero_add]

theorem forLoop_min_le_init (f : Nat → Int) (c : Int) (n : Nat) :
    forLoop n (fun j m => min m (f j)) c ≤ c := by
  induction n with
  | zero => exact le_refl _
  | succ n ih => rw [forLoop_succ]; exact le_trans (min_le_left _ _) ih

theorem forLoop_min_le (f : Nat → Int) (c : Int) (n j : Nat) (hj : j < n) :
    forLoop n (fun j m => min m (f j)) c ≤ f j := by
  induction n with
  | zero => omega
  | succ n ih =>
    rw [forLoop_succ]
    rcases Nat.lt_succ_iff_lt_or_eq.mp hj with h | h
    · exact le_trans (min_le_left _ _) (ih h)
    · subst h; exact min_le_right _ _

theorem forLoop_min_attained (f : Nat → Int) (c : Int) (n : Nat) :
    forLoop n (fun j m => min m (f j)) c = c ∨
      ∃ j, j < n ∧ forLoop n (fun j m => min m (f j)) c = f j := by
  induction n with
  | zero => exact Or.inl rfl
  | succ n ih =>
    rw [forLoop_succ]
    rcases le_total (forLoop n (fun j m => min m (f j)) c) (f n) with h | h
    · rw [min_eq_left h]
      rcases ih with h1 | ⟨j, hj, h1⟩
      · exact Or.inl h1
      · exact Or.inr ⟨j, by omega, h1⟩
    · rw [min_eq_right h]
      exact Or.inr ⟨n, by omega, rfl⟩

theorem forLoop_min_eq (f : Nat → Int) (c : Int) (n : Nat) (hn : 0 < n) :
    forLoop n (fun j m => min m (f j)) c =
      min c ((Finset.range n).inf' (Finset.nonempty_range_iff.mpr (Nat.pos_iff_ne_zero.mp hn)) f) := by
  apply le_antisymm
  · apply le_min (forLoop_min_le_init f c n)
    rw [Finset.le_inf'_iff]
    intro j hj
    exact forLoop_min_le f c n j (Finset.mem_range.mp hj)
  · rcases forLoop_min_attained f c n with h | ⟨j, hj, h⟩
    · rw [h]; exact min_le_left _ _
    · rw [h]
      exact le_trans (min_le_right _ _) (Finset.inf'_le f (Finset.mem_range.mpr hj))

theorem forLoop_max_ge_init (f : Nat → Int) (c : Int) (n : Nat) :
    c ≤ forLoop n (fun j m => max m (f j)) c := by
  induction n with
  | zero => exact le_refl _
  | succ n ih => rw [forLoop_succ]; exact le_trans ih (le_max_left _ _)

theorem forLoop_max_ge (f : Nat → Int) (c : Int) (n j : Nat) (hj : j < n) :
    f j ≤ forLoop n (fun j m => max m (f j)) c := by
  induction n with
  | zero => omega
  | succ n ih =>
    rw [forLoop_succ]
    rcases Nat.lt_succ_iff_lt_or_eq.mp hj with h | h
    · exact le_trans (ih h) (le_max_left _ _)
    · subst h; exact le_max_right _ _

theorem forLoop_max_attained (f : Nat → Int) (c : Int) (n : Nat) :
    forLoop n (fun j m => max m (f j)) c = c ∨
      ∃ j, j < n ∧ forLoop n (fun j m => max m (f j)) c = f j := by
  induction n with
  | zero => exact Or.inl rfl
  | succ n ih =>
    rw [forLoop_succ]
    rcases le_total (forLoop n (fun j m => max m (f j)) c) (f n) with h | h
    · rw [max_eq_right h]
      exact Or.inr ⟨n, by omega, rfl⟩
    · rw [max_eq_left h]
      rcases ih with h1 | ⟨j, hj, h1⟩
      · exact Or.inl h1
      · exact Or.inr ⟨j, by omega, h1⟩

theorem forLoop_max_eq (f : Nat → Int) (c : Int) (n : Nat) (hn : 0 < n) :
    forLoop n (fun j m => max m (f j)) c =
      max c ((Finset.range n).sup' (Finset.nonempty_range_iff.mpr (Nat.pos_iff_ne_zero.mp hn)) f) := by
  apply le_antisymm
  · rcases forLoop_max_attained f c n with h | ⟨j, hj, h⟩
    · rw [h]; exact le_max_left _ _
    · rw [h]
      exact le_trans (Finset.le_sup' f (Finset.mem_range.mpr hj)) (le_max_right _ _)
  · apply max_le (forLoop_max_ge_init f c n)
    rw [Finset.sup'_le_iff]
    intro j hj
    exact forLoop_max_ge f c n j (Finset.mem_range.mp hj)

theorem forLoop_congr {σ : Type} (n : Nat) (f g : Nat → σ → σ) (s : σ)
    (h : ∀ i, i < n → ∀ x, f i x = g i x) : forLoop n f s = forLoop n g s := by
  induction n with
  | zero => rfl
  | succ n ih =>
    rw [forLoop_succ, forLoop_succ, ih (fun i hi x => h i (by omega) x), h n (by omega)]

theorem forLoop_rel {σ τ : Type} (R : σ → τ → Prop) (n : Nat) (f : Nat → σ → σ)
    (g : Nat → τ → τ) (c : σ) (d : τ) (h : ∀ i x y, i < n → R x y → R (f i x) (g i y))
    (h0 : R c d) : R (forLoop n f c) (forLoop n g d) := by
  induction n with
  | zero => exact h0
  | succ n ih =>
    rw [forLoop_succ, forLoop_succ]
    exact h n _ _ (by omega) (ih (fun i x y hi hxy => h i x y (by omega) hxy))

theorem forLoop_sum_mono (f g : Nat → Int) (n : Nat) (c d : Int) (hcd : c ≤ d)
    (h : ∀ k, f k ≤ g k) :
    forLoop n (fun k acc => acc + f k) c ≤ forLoop n (fun k acc => acc + g k) d :=
  forLoop_rel (fun x y : Int => x ≤ y) n _ _ c d
    (fun k _ _ _ hxy => add_le_add hxy (h k)) hcd

theorem forLoop_min_mono (f g : Nat → Int) (n : Nat) (c : Int) (h : ∀ k, f k ≤ g k) :
    forLoop n (fun k m => min m (f k)) c ≤ forLoop n (fun k m => min m (g k)) c :=
  forLoop_rel (fun x y : Int => x ≤ y) n _ _ c c
    (fun k _ _ _ hxy => min_le_min hxy (h k)) (le_refl c)

theorem forLoop_max_mono (f g : Nat → Int) (n : Nat) (c : Int) (h : ∀ k, f k ≤ g k) :
    forLoop n (fun k m => max m (f k)) c ≤ forLoop n (fun k m => max m (g k)) c :=
  forLoop_rel (fun x y : Int => x ≤ y) n _ _ c c
    (fun k _ _ _ hxy => max_le_max hxy (h k)) (le_refl c)

/-! ## Lemmas on the Taillard bound -/

theorem taillardMachine_b (F : Matrix) (nJ nM i : Nat) (v : TaillardVectors) (hJ : 0 < nJ) :
    (taillardMachine F nJ nM i v).b = Function.update v.b i (min LONG_MAX (specB F nJ hJ i)) := by
  show Function.update v.b i
    (forLoop nJ (fun j m => min m (forLoop i (fun k acc => acc + F k j) 0)) LONG_MAX) = _
  rw [forLoop_min_eq _ _ _ hJ]
  simp only [forLoop_sum, zero_add]
  rfl

theorem taillardMachine_a (F : Matrix) (nJ nM i : Nat) (v : TaillardVectors) (hJ : 0 < nJ) :
    (taillardMachine F nJ nM i v).a =
      Function.update v.a i (min LONG_MAX (specA F nJ nM hJ i)) := by
  show Function.update v.a i
    (forLoop nJ (fun j m => min m (forRange (i + 1) nM (fun k acc => acc + F k j) 0))
      LONG_MAX) = _
  rw [forLoop_min_eq _ _ _ hJ]
  simp only [forRange_sum]
  rfl

theorem taillardMachine_t (F : Matrix) (nJ nM i : Nat) (v : TaillardVectors) :
    (taillardMachine F nJ nM i v).t = Function.update v.t i (v.t i + specT F nJ i) := by
  show Function.update v.t i (forLoop nJ (fun j ti => ti + F i j) (v.t i)) = _
  rw [forLoop_sum]
  rfl

theorem taillard_vectors_aux (F : Matrix) (nJ nM : Nat) (n : Nat) :
    ∀ i, n ≤ i → (forLoop n (taillardMachine F nJ nM)
        ⟨fun _ => LONG_MAX, fun _ => LONG_MAX, fun _ => 0⟩).t i = 0 := by
  induction n with
  | zero => intro i _; rfl
  | succ n ih =>
    intro i hi
    rw [forLoop_succ, taillardMachine_t, Function.update_noteq (by omega)]
    exact ih i (by omega)

theorem taillard_vectors (F : Matrix) (nJ nM : Nat) (hJ : 0 < nJ) (n i : Nat) :
    (forLoop n (taillardMachine F nJ nM)
        ⟨fun _ => LONG_MAX, fun _ => LONG_MAX, fun _ => 0⟩).b i =
        (if i < n then min LONG_MAX (specB F nJ hJ i) else LONG_MAX) ∧
      (forLoop n (taillardMachine F nJ nM)
        ⟨fun _ => LONG_MAX, fun _ => LONG_MAX, fun _ => 0⟩).a i =
        (if i < n then min LONG_MAX (specA F nJ nM hJ i) else LONG_MAX) ∧
      (forLoop n (taillardMachine F nJ nM)
        ⟨fun _ => LONG_MAX, fun _ => LONG_MAX, fun _ => 0⟩).t i =
        (if i < n then specT F nJ i else 0) := by
  induction n with
  | zero => exact ⟨rfl, rfl, rfl⟩
  | succ n ih =>
    obtain ⟨hb, ha, ht⟩ := ih
    rw [forLoop_succ, taillardMachine_b F nJ nM n _ hJ, taillardMachine_a F nJ nM n _ hJ,
      taillardMachine_t]
    by_cases hin : i = n
    · subst hin
      have ht0 := taillard_vectors_aux F nJ nM i i (le_refl _)
      simp only [Function.update_same, Nat.lt_succ_self, if_true]
      refine ⟨trivial, trivial, ?_⟩
      rw [ht0, zero_add]
    · have h1 : (i < n + 1) = (i < n) := by
        apply propext
        constructor
        · intro h; omega
        · intro h; omega
      simp only [Function.update_noteq hin, h1]
      exact ⟨hb, ha, ht⟩

theorem sum_le_long_max (F : Matrix) (nM j : Nat) (s : Finset Nat)
    (hs : ∀ k, k ∈ s → k < nM) (hint : ∀ k, k < nM → F k j ≤ INT_MAX)
    (hcap : nM ≤ MAX_MACHINES) : ∑ k ∈ s, F k j ≤ LONG_MAX := by
  have h1 : ∑ k ∈ s, F k j ≤ s.card • INT_MAX :=
    Finset.sum_le_card_nsmul s _ _ (fun k hk => hint k (hs k hk))
  have h2 : s.card ≤ nM := by
    have h3 : s ⊆ Finset.range nM := fun k hk => Finset.mem_range.mpr (hs k hk)
    have h4 := Finset.card_le_card h3
    rwa [Finset.card_range] at h4
  have h5 : (s.card : Int) ≤ 100 := by
    have : s.card ≤ 100 := le_trans h2 hcap
    exact_mod_cast this
  rw [nsmul_eq_mul] at h1
  unfold INT_MAX at h1
  unfold LONG_MAX
  nlinarith

theorem specB_le_long_max (F : Matrix) (nJ nM i : Nat) (hJ : 0 < nJ) (hi : i < nM)
    (hint : ∀ k j, k < nM → j < nJ → F k j ≤ INT_MAX) (hcap : nM ≤ MAX_MACHINES) :
    specB F nJ hJ i ≤ LONG_MAX := by
  refine le_trans (Finset.inf'_le _ (Finset.mem_range.mpr hJ)) ?_
  exact sum_le_long_max F nM 0 _ (fun k hk => by have := Finset.mem_range.mp hk; omega)
    (fun k hk => hint k 0 hk hJ) hcap

theorem specA_le_long_max (F : Matrix) (nJ nM i : Nat) (hJ : 0 < nJ)
    (hint : ∀ k j, k < nM → j < nJ → F k j ≤ INT_MAX) (hcap : nM ≤ MAX_MACHINES) :
    specA F nJ nM hJ i ≤ LONG_MAX := by
  refine le_trans (Finset.inf'_le _ (Finset.mem_range.mpr hJ)) ?_
  exact sum_le_long_max F nM 0 _ (fun k hk => (Finset.mem_Ico.mp hk).2)
    (fun k hk => hint k 0 hk hJ) hcap

theorem forLoop_jobTotal (F : Matrix) (nM j : Nat) :
    forLoop nM (fun k sum => sum + F k j) 0 = specJobTotal F nM j := by
  rw [forLoop_sum, zero_add]
  rfl

theorem taillardLowerBound_eq_max (F : Matrix) (nJ nM : Nat) (hJ : 0 < nJ) (hM : 0 < nM)
    (hint : ∀ k j, k < nM → j < nJ → F k j ≤ INT_MAX) (hcap : nM ≤ MAX_MACHINES) :
    taillardLowerBound F nJ nM =
      max (max 0 ((Finset.range nM).sup'
          (Finset.nonempty_range_iff.mpr (Nat.pos_iff_ne_zero.mp hM))
          (fun i => specA F nJ nM hJ i + specB F nJ hJ i + specT F nJ i)))
        (max 0 (specMaxJobSum F nJ nM hJ)) := by
  unfold taillardLowerBound
  dsimp only
  have h1 : forLoop nM (fun k maxCompTime => max maxCompTime
      ((forLoop nM (taillardMachine F nJ nM)
          ⟨fun _ => LONG_MAX, fun _ => LONG_MAX, fun _ => 0⟩).a k +
        (forLoop nM (taillardMachine F nJ nM)
          ⟨fun _ => LONG_MAX, fun _ => LONG_MAX, fun _ => 0⟩).b k +
        (forLoop nM (taillardMachine F nJ nM)
          ⟨fun _ => LONG_MAX, fun _ => LONG_MAX, fun _ => 0⟩).t k)) 0 =
      forLoop nM (fun k maxCompTime => max maxCompTime
        (specA F nJ nM hJ k + specB F nJ hJ k + specT F nJ k)) 0 := by
    apply forLoop_congr
    intro k hk x
    obtain ⟨hb, ha, ht⟩ := taillard_vectors F nJ nM hJ nM k
    rw [hb, ha, ht, if_pos hk, if_pos hk, if_pos hk,
      min_eq_right (specB_le_long_max F nJ nM k hJ hk hint hcap),
      min_eq_right (specA_le_long_max F nJ nM k hJ hint hcap)]
  rw [h1, forLoop_max_eq _ _ _ hM]
  have h2 : forLoop nJ (fun j maxDur => max maxDur (forLoop nM (fun k sum => sum + F k j) 0)) 0
      = forLoop nJ (fun j maxDur => max maxDur (specJobTotal F nM j)) 0 := by
    apply forLoop_congr
    intro j _ x
    rw [forLoop_jobTotal]
  rw [h2, forLoop_max_eq _ _ _ hJ]
  rfl

theorem specJobTotal_pos (F : Matrix) (nJ nM j : Nat) (hM : 0 < nM) (hj : j < nJ)
    (hpos : ∀ k j, k < nM → j < nJ → 0 < F k j) : 0 < specJobTotal F nM j := by
  unfold specJobTotal
  apply Finset.sum_pos
  · intro k hk
    exact hpos k j (Finset.mem_range.mp hk) hj
  · exact Finset.nonempty_range_iff.mpr (Nat.pos_iff_ne_zero.mp hM)

/-! ## Theorems on the Taillard bound -/

/-- C6: for an instance of positive `int` durations with `numMachines ≥ 1` and
`numJobs ≥ 1` (and `numMachines` within the first dimension of `FSP`),
`taillardLowerBound` returns `max( max over machines i of (A[i]+B[i]+T[i]), maxJobSum )`,
where `B[i]` is the minimum over jobs of the job's durations summed over the machines
before `i`, `A[i]` the minimum over jobs of the job's durations summed over the machines
after `i`, `T[i]` the sum of the durations on machine `i`, and `maxJobSum` the maximum
over jobs of the job's total duration. -/
theorem taillardLowerBound_spec (FSP : Matrix) (numJobs numMachines : Nat)
    (hJ : 1 ≤ numJobs) (hM : 1 ≤ numMachines)
    (hpos : ∀ i j, i < numMachines → j < numJobs → 0 < FSP i j)
    (hint : ∀ i j, i < numMachines → j < numJobs → FSP i j ≤ INT_MAX)
    (hcap : numMachines ≤ MAX_MACHINES) :
    taillardLowerBound FSP numJobs numMachines = specTaillard FSP numJobs numMachines hJ hM := by
  rw [taillardLowerBound_eq_max FSP numJobs numMachines hJ hM hint hcap]
  have h0 : 0 ≤ specMaxJobSum FSP numJobs numMachines hJ := by
    have h1 := specJobTotal_pos FSP numJobs numMachines 0 hM hJ hpos
    have h2 : specJobTotal FSP numMachines 0 ≤ specMaxJobSum FSP numJobs numMachines hJ :=
      Finset.le_sup' (fun j => specJobTotal FSP numMachines j) (Finset.mem_range.mpr hJ)
    omega
  unfold specTaillard
  rw [max_eq_right h0]
  rcases le_total 0 ((Finset.range numMachines).sup'
      (Finset.nonempty_range_iff.mpr (Nat.pos_iff_ne_zero.mp hM))
      (fun i => specA FSP numJobs numMachines hJ i + specB FSP numJobs hJ i
        + specT FSP numJobs i)) with h | h
  · rw [max_eq_right h]
  · rw [max_eq_left h, max_eq_right h0, max_eq_right (le_trans h h0)]

/-! ## Monotonicity of the Taillard bound -/

theorem taillardMachine_mono (F G : Matrix) (nJ nM i : Nat) (v w : TaillardVectors)
    (hFG : ∀ a b, F a b ≤ G a b)
    (hvw : ∀ k, v.b k ≤ w.b k ∧ v.a k ≤ w.a k ∧ v.t k ≤ w.t k) :
    ∀ k, (taillardMachine F nJ nM i v).b k ≤ (taillardMachine G nJ nM i w).b k ∧
      (taillardMachine F nJ nM i v).a k ≤ (taillardMachine G nJ nM i w).a k ∧
      (taillardMachine F nJ nM i v).t k ≤ (taillardMachine G nJ nM i w).t k := by
  intro k
  have hb : forLoop nJ (fun j m => min m (forLoop i (fun k acc => acc + F k j) 0)) LONG_MAX ≤
      forLoop nJ (fun j m => min m (forLoop i (fun k acc => acc + G k j) 0)) LONG_MAX :=
    forLoop_min_mono _ _ nJ LONG_MAX
      (fun j => forLoop_sum_mono _ _ i 0 0 (le_refl 0) (fun k => hFG k j))
  have ha : forLoop nJ (fun j m => min m (forRange (i + 1) nM (fun k acc => acc + F k j) 0))
      LONG_MAX ≤
      forLoop nJ (fun j m => min m (forRange (i + 1) nM (fun k acc => acc + G k j) 0))
        LONG_MAX :=
    forLoop_min_mono _ _ nJ LONG_MAX
      (fun j => forLoop_sum_mono (fun t => F (i + 1 + t) j) (fun t => G (i + 1 + t) j)
        (nM - (i + 1)) 0 0 (le_refl 0) (fun t => hFG (i + 1 + t) j))
  have ht : forLoop nJ (fun j ti => ti + F i j) (v.t i) ≤
      forLoop nJ (fun j ti => ti + G i j) (w.t i) :=
    forLoop_sum_mono _ _ nJ _ _ (hvw i).2.2 (fun j => hFG i j)
  show Function.update v.b i _ k ≤ Function.update w.b i _ k ∧
    Function.update v.a i _ k ≤ Function.update w.a i _ k ∧
    Function.update v.t i _ k ≤ Function.update w.t i _ k
  by_cases hk : k = i
  · subst hk
    simp only [Function.update_same]
    exact ⟨hb, ha, ht⟩
  · simp only [Function.update_noteq hk]
    exact hvw k

theorem taillardLowerBound_mono_pointwise (F G : Matrix) (nJ nM : Nat)
    (hFG : ∀ a b, F a b ≤ G a b) : taillardLowerBound F nJ nM ≤ taillardLowerBound G nJ nM := by
  have hv : ∀ k,
      (forLoop nM (taillardMachine F nJ nM)
          ⟨fun _ => LONG_MAX, fun _ => LONG_MAX, fun _ => 0⟩).b k ≤
        (forLoop nM (taillardMachine G nJ nM)
          ⟨fun _ => LONG_MAX, fun _ => LONG_MAX, fun _ => 0⟩).b k ∧
      (forLoop nM (taillardMachine F nJ nM)
          ⟨fun _ => LONG_MAX, fun _ => LONG_MAX, fun _ => 0⟩).a k ≤
        (forLoop nM (taillardMachine G nJ nM)
          ⟨fun _ => LONG_MAX, fun _ => LONG_MAX, fun _ => 0⟩).a k ∧
      (forLoop nM (taillardMachine F nJ nM)
          ⟨fun _ => LONG_MAX, fun _ => LONG_MAX, fun _ => 0⟩).t k ≤
        (forLoop nM (taillardMachine G nJ nM)
          ⟨fun _ => LONG_MAX, fun _ => LONG_MAX, fun _ => 0⟩).t k :=
    forLoop_rel
      (fun v w : TaillardVectors => ∀ k, v.b k ≤ w.b k ∧ v.a k ≤ w.a k ∧ v.t k ≤ w.t k)
      nM _ _ _ _
      (fun i v w _ hvw => taillardMachine_mono F G nJ nM i v w hFG hvw)
      (fun _ => ⟨le_refl _, le_refl _, le_refl _⟩)
  unfold taillardLowerBound
  dsimp only
  apply max_le_max
  · exact forLoop_max_mono _ _ nM 0
      (fun k => add_le_add (add_le_add (hv k).2.1 (hv k).1) (hv k).2.2)
  · exact forLoop_max_mono _ _ nJ 0
      (fun j => forLoop_sum_mono _ _ nM 0 0 (le_refl 0) (fun k => hFG k j))

theorem setCell_increase (F : Matrix) (i j : Nat) (k : Int) (hk : 0 ≤ k) (a b : Nat) :
    F a b ≤ setCell F i j (F i j + k) a b := by
  unfold setCell
  split_ifs with h
  · obtain ⟨rfl, rfl⟩ := h
    omega
  · exact le_refl _

/-- C9: `taillardLowerBound` is monotone: for every matrix, every `numJobs` and
`numMachines`, every cell `(i, j)` and every `k ≥ 0`, the Taillard bound of the matrix with
`FSP[i][j]` increased by `k` is at least the Taillard bound of the matrix. -/
theorem taillardLowerBound_monotone (FSP : Matrix) (numJobs numMachines i j : Nat) (k : Int)
    (hk : 0 ≤ k) :
    taillardLowerBound FSP numJobs numMachines ≤
      taillardLowerBound (setCell FSP i j (FSP i j + k)) numJobs numMachines :=
  taillardLowerBound_mono_pointwise FSP _ numJobs numMachines
    (setCell_increase FSP i j k hk)

/-! ## Lemmas on the proportionate bound -/

theorem minOpsVector_eq (F : Matrix) (nJ nM i : Nat) :
    minOpsVector F nJ nM i = if i < nJ then specMinOps F nM i else INT_MAX := by
  unfold minOpsVector
  induction nJ with
  | zero => rfl
  | succ n ih =>
    rw [forLoop_succ]
    by_cases h : i = n
    · subst h
      simp only [Function.update_same, Nat.lt_succ_self, if_true]
      rfl
    · rw [Function.update_noteq h, ih]
      by_cases h2 : i < n
      · rw [if_pos h2, if_pos (by omega)]
      · rw [if_neg h2, if_neg (by omega)]

/-- A sum of non-negative terms accumulated in an `int` is the exact sum when that is at
most `INT_MAX`. -/
theorem forLoop_wrap_sum (f : Nat → Int) (n : Nat) (h0 : ∀ k, k < n → 0 ≤ f k)
    (h1 : ∑ k ∈ Finset.range n, f k ≤ INT_MAX) :
    forLoop n (fun k acc => wrapInt (acc + f k)) 0 = ∑ k ∈ Finset.range n, f k := by
  induction n with
  | zero => simp [forLoop_zero]
  | succ n ih =>
    rw [Finset.sum_range_succ] at h1
    have hn : 0 ≤ f n := h0 n (Nat.lt_succ_self n)
    have hs : 0 ≤ ∑ k ∈ Finset.range n, f k :=
      Finset.sum_nonneg (fun k hk => h0 k (Nat.lt_succ_of_lt (Finset.mem_range.mp hk)))
    rw [forLoop_succ, ih (fun k hk => h0 k (Nat.lt_succ_of_lt hk)) (by omega),
      Finset.sum_range_succ]
    apply wrapInt_eq
    · unfold INT_MIN
      omega
    · exact h1

theorem forLoop_jobTotal_int (F : Matrix) (nM j : Nat) (h0 : ∀ k, k < nM → 0 ≤ F k j)
    (h1 : specJobTotal F nM j ≤ INT_MAX) :
    forLoop nM (fun k duration => wrapInt (duration + F k j)) 0 = specJobTotal F nM j :=
  forLoop_wrap_sum (fun k => F k j) nM h0 h1

theorem specMinOps_nonneg (F : Matrix) (nJ nM j : Nat) (hM : 0 < nM) (hj : j < nJ)
    (hpos : ∀ k j, k < nM → j < nJ → 0 < F k j) : 0 < specMinOps F nM j := by
  unfold specMinOps
  exact lt_min (hpos 0 j hM hj) (hpos (nM - 1) j (by omega) hj)

theorem accumulate_eq (F : Matrix) (nJ nM : Nat) (hM : 0 < nM)
    (hpos : ∀ k j, k < nM → j < nJ → 0 < F k j)
    (hacc : ∑ j ∈ Finset.range nJ, specMinOps F nM j ≤ INT_MAX) :
    forLoop nJ (fun i acc => wrapInt (acc + minOpsVector F nJ nM i)) 0 =
      ∑ j ∈ Finset.range nJ, specMinOps F nM j := by
  have hsum : ∑ j ∈ Finset.range nJ, minOpsVector F nJ nM j
      = ∑ j ∈ Finset.range nJ, specMinOps F nM j := by
    apply Finset.sum_congr rfl
    intro j hj
    rw [minOpsVector_eq, if_pos (Finset.mem_range.mp hj)]
  rw [forLoop_wrap_sum (minOpsVector F nJ nM) nJ _ (by rw [hsum]; exact hacc), hsum]
  intro k hk
  rw [minOpsVector_eq, if_pos hk]
  exact (specMinOps_nonneg F nJ nM k hM hk hpos).le

/-- The state of the second loop of `proportionateLowerBound` after the jobs below `n`:
either no job had a positive total and the state is still `(0, -1)`, or `omega` is the
lowest-index job of maximum total among them and `largestDuration` is its total. -/
theorem largestJob_invariant (F : Matrix) (nM n : Nat)
    (hnn : ∀ k j, k < nM → j < n → 0 ≤ F k j)
    (hfit : ∀ j, j < n → specJobTotal F nM j ≤ INT_MAX) :
    ((largestJob F n nM).1 = 0 ∧ (largestJob F n nM).2 = -1 ∧
        ∀ j, j < n → specJobTotal F nM j ≤ 0) ∨
      ∃ w : Nat, (largestJob F n nM).2 = (w : Int) ∧ w < n ∧
        (largestJob F n nM).1 = specJobTotal F nM w ∧ 0 < specJobTotal F nM w ∧
        (∀ j, j < n → specJobTotal F nM j ≤ specJobTotal F nM w) ∧
        (∀ j, j < w → specJobTotal F nM j < specJobTotal F nM w) := by
  induction n with
  | zero => exact Or.inl ⟨rfl, rfl, fun j hj => absurd hj (Nat.not_lt_zero j)⟩
  | succ n ih =>
    have ih := ih (fun k j hk hj => hnn k j hk (Nat.lt_succ_of_lt hj))
      (fun j hj => hfit j (Nat.lt_succ_of_lt hj))
    have hstep : largestJob F (n + 1) nM =
        if specJobTotal F nM n > (largestJob F n nM).1 then (specJobTotal F nM n, (n : Int))
        else largestJob F n nM := by
      unfold largestJob
      rw [forLoop_succ]
      dsimp only
      rw [forLoop_jobTotal_int F nM n (fun k hk => hnn k n hk (Nat.lt_succ_self n))
        (hfit n (Nat.lt_succ_self n))]
    rw [hstep]
    by_cases hgt : specJobTotal F nM n > (largestJob F n nM).1
    · rw [if_pos hgt]
      right
      rcases ih with ⟨h1, _, h3⟩ | ⟨w, _, hw2, hw3, hw4, hw5, _⟩
      · rw [h1] at hgt
        refine ⟨n, rfl, by omega, rfl, hgt, ?_, ?_⟩
        · intro j hj
          rcases Nat.lt_succ_iff_lt_or_eq.mp hj with h | h
          · have := h3 j h; omega
          · subst h; exact le_refl _
        · intro j hj
          have := h3 j hj; omega
      · rw [hw3] at hgt
        refine ⟨n, rfl, by omega, rfl, by omega, ?_, ?_⟩
        · intro j hj
          rcases Nat.lt_succ_iff_lt_or_eq.mp hj with h | h
          · have := hw5 j h; omega
          · subst h; exact le_refl _
        · intro j hj
          have := hw5 j hj; omega
    · rw [if_neg hgt]
      rcases ih with ⟨h1, h2, h3⟩ | ⟨w, hw1, hw2, hw3, hw4, hw5, hw6⟩
      · left
        refine ⟨h1, h2, ?_⟩
        intro j hj
        rcases Nat.lt_succ_iff_lt_or_eq.mp hj with h | h
        · exact h3 j h
        · subst h; rw [h1] at hgt; omega
      · right
        refine ⟨w, hw1, by omega, hw3, hw4, ?_, hw6⟩
        intro j hj
        rcases Nat.lt_succ_iff_lt_or_eq.mp hj with h | h
        · exact hw5 j h
        · subst h; rw [hw3] at hgt; omega

theorem largestJob_isOmega (F : Matrix) (nJ nM : Nat) (hJ : 0 < nJ) (hM : 0 < nM)
    (hpos : ∀ k j, k < nM → j < nJ → 0 < F k j)
    (hfit : ∀ j, j < nJ → specJobTotal F nM j ≤ INT_MAX) :
    ∃ w : Nat, (largestJob F nJ nM).2 = (w : Int) ∧
      (largestJob F nJ nM).1 = specJobTotal F nM w ∧ IsOmega F nJ nM w := by
  rcases largestJob_invariant F nM nJ (fun k j hk hj => (hpos k j hk hj).le) hfit with
    ⟨_, _, h3⟩ | ⟨w, hw1, hw2, hw3, _, hw5, hw6⟩
  · have h1 := specJobTotal_pos F nJ nM 0 hM hJ hpos
    have h2 := h3 0 hJ
    omega
  · exact ⟨w, hw1, hw3, hw2, hw5, hw6⟩

/-- For positive durations none of the `int` values of `proportionateLowerBound`
overflows when every job total, the sum of the `minOps` and the value of the
specification are at most `INT_MAX`; the routine then returns that value. -/
theorem proportionateLowerBound_eq (F : Matrix) (nJ nM : Nat) (hJ : 0 < nJ) (hM : 0 < nM)
    (hpos : ∀ k j, k < nM → j < nJ → 0 < F k j)
    (hfit : ∀ j, j < nJ → specJobTotal F nM j ≤ INT_MAX)
    (hacc : ∑ j ∈ Finset.range nJ, specMinOps F nM j ≤ INT_MAX)
    (hres : ∀ w, IsOmega F nJ nM w → specProportionate F nJ nM w ≤ INT_MAX) :
    ∃ w : Nat, IsOmega F nJ nM w ∧
      proportionateLowerBound F nJ nM = some (specProportionate F nJ nM w) := by
  obtain ⟨w, hw1, hw2, hw3⟩ := largestJob_isOmega F nJ nM hJ hM hpos hfit
  refine ⟨w, hw3, ?_⟩
  have hlt : w < nJ := hw3.1
  have hr := hres w hw3
  have hm0 := specMinOps_nonneg F nJ nM w hM hlt hpos
  have ht0 := specJobTotal_pos F nJ nM w hM hlt hpos
  have hle : specMinOps F nM w ≤ ∑ j ∈ Finset.range nJ, specMinOps F nM j :=
    Finset.single_le_sum (f := fun j => specMinOps F nM j)
      (fun j hj => (specMinOps_nonneg F nJ nM j hM (Finset.mem_range.mp hj) hpos).le)
      (Finset.mem_range.mpr hlt)
  unfold specProportionate at hr ⊢
  have hw4 : wrapInt ((∑ j ∈ Finset.range nJ, specMinOps F nM j) - specMinOps F nM w)
      = (∑ j ∈ Finset.range nJ, specMinOps F nM j) - specMinOps F nM w := by
    apply wrapInt_eq
    · unfold INT_MIN
      omega
    · omega
  have hw5 : wrapInt ((∑ j ∈ Finset.range nJ, specMinOps F nM j) - specMinOps F nM w
      + specJobTotal F nM w)
      = (∑ j ∈ Finset.range nJ, specMinOps F nM j) - specMinOps F nM w
        + specJobTotal F nM w := by
    apply wrapInt_eq
    · unfold INT_MIN
      omega
    · exact hr
  unfold proportionateLowerBound
  rw [if_neg (by omega)]
  dsimp only
  rw [hw1, hw2, if_pos ⟨by omega, by exact_mod_cast hlt⟩, accumulate_eq F nJ nM hM hpos hacc,
    Int.toNat_ofNat, minOpsVector_eq, if_pos hlt, hw4, hw5]

theorem isOmega_unique (F : Matrix) (nJ nM w w' : Nat) (h : IsOmega F nJ nM w)
    (h' : IsOmega F nJ nM w') : w = w' := by
  obtain ⟨h1, h2, h3⟩ := h
  obtain ⟨h1', h2', h3'⟩ := h'
  rcases Nat.lt_trichotomy w w' with hlt | heq | hgt
  · have := h3' w hlt
    have := h2 w' h1'
    omega
  · exact heq
  · have := h3 w' hgt
    have := h2' w h1
    omega

/-- Two machines and one job with both durations `2000000000`: the `int` total wraps to
`-294967296`, no total exceeds `largestDuration = 0`, `omega` keeps the value `-1` and the
routine reads `minOps[-1]`. -/
theorem proportionateLowerBound_overflow_example :
    largestJob (ofRows [[2000000000], [2000000000]]) 1 2 = (0, -1) ∧
      wrapInt (2000000000 + 2000000000) = -294967296 ∧
      proportionateLowerBound (ofRows [[2000000000], [2000000000]]) 1 2 = none := by
  decide

/-! ## Theorems on the proportionate bound -/

theorem setCell_le_add (F : Matrix) (i j : Nat) (k : Int) (hk : 0 ≤ k) (a b : Nat) :
    setCell F i j (F i j + k) a b ≤ F a b + k := by
  unfold setCell
  split_ifs with h
  · obtain ⟨rfl, rfl⟩ := h
    exact le_refl _
  · omega

theorem specMinOps_increase (F : Matrix) (nM i j : Nat) (k : Int) (hk : 0 ≤ k) (b : Nat) :
    specMinOps F nM b ≤ specMinOps (setCell F i j (F i j + k)) nM b :=
  min_le_min (setCell_increase F i j k hk 0 b) (setCell_increase F i j k hk (nM - 1) b)

theorem specMinOps_le_add (F : Matrix) (nM i j : Nat) (k : Int) (hk : 0 ≤ k) (b : Nat) :
    specMinOps (setCell F i j (F i j + k)) nM b ≤ specMinOps F nM b + k := by
  unfold specMinOps
  rw [← min_add_add_right]
  exact min_le_min (setCell_le_add F i j k hk 0 b) (setCell_le_add F i j k hk (nM - 1) b)

theorem specJobTotal_setCell_same (F : Matrix) (nM i j : Nat) (k : Int) (hi : i < nM) :
    specJobTotal (setCell F i j (F i j + k)) nM j = specJobTotal F nM j + k := by
  unfold specJobTotal
  have h : ∀ a, setCell F i j (F i j + k) a j = F a j + (if a = i then k else 0) := by
    intro a
    unfold setCell
    by_cases ha : a = i
    · subst ha
      simp
    · simp [ha]
  simp only [h]
  rw [Finset.sum_add_distrib, Finset.sum_ite_eq', if_pos (Finset.mem_range.mpr hi)]

theorem setCell_other (F : Matrix) (i j : Nat) (v : Int) (a b : Nat) (h : ¬ (a = i ∧ b = j)) :
    setCell F i j v a b = F a b := by
  unfold setCell
  rw [if_neg h]

theorem proportionate_gap_increase (F : Matrix) (nM i j : Nat) (k : Int) (hk : 0 ≤ k)
    (hM : 0 < nM) (w : Nat) :
    specJobTotal F nM w - specMinOps F nM w ≤
      specJobTotal (setCell F i j (F i j + k)) nM w
        - specMinOps (setCell F i j (F i j + k)) nM w := by
  by_cases h : j = w ∧ i < nM
  · obtain ⟨rfl, hi⟩ := h
    rw [specJobTotal_setCell_same F nM i j k hi]
    have := specMinOps_le_add F nM i j k hk j
    omega
  · have hcol : ∀ a, a < nM → setCell F i j (F i j + k) a w = F a w := by
      intro a ha
      apply setCell_other
      rintro ⟨rfl, rfl⟩
      exact h ⟨rfl, ha⟩
    have ht : specJobTotal (setCell F i j (F i j + k)) nM w = specJobTotal F nM w := by
      unfold specJobTotal
      apply Finset.sum_congr rfl
      intro a ha
      exact hcol a (Finset.mem_range.mp ha)
    have hm : specMinOps (setCell F i j (F i j + k)) nM w = specMinOps F nM w := by
      unfold specMinOps
      rw [hcol 0 hM, hcol (nM - 1) (by omega)]
    rw [ht, hm]

theorem specProportionate_increase (F : Matrix) (nJ nM i j : Nat) (k : Int) (hk : 0 ≤ k)
    (hM : 0 < nM) (w : Nat) :
    specProportionate F nJ nM w ≤ specProportionate (setCell F i j (F i j + k)) nJ nM w := by
  unfold specProportionate
  have h1 : ∑ b ∈ Finset.range nJ, specMinOps F nM b ≤
      ∑ b ∈ Finset.range nJ, specMinOps (setCell F i j (F i j + k)) nM b :=
    Finset.sum_le_sum (fun b _ => specMinOps_increase F nM i j k hk b)
  have h2 := proportionate_gap_increase F nM i j k hk hM w
  omega

/-- C10, counterexample: two machines, two jobs, job 0 with durations `10, 10` and job 1
with durations `1, 20`. The proportionate bound is `(10 + 1) - 1 + 21 = 31`; with
`FSP[0][0]` increased by `2` job 0 has the largest total and the bound is
`(10 + 1) - 10 + 22 = 23`. -/
theorem proportionateLowerBound_not_monotone :
    proportionateLowerBound (ofRows [[10, 1], [10, 20]]) 2 2 = some 31 ∧
      proportionateLowerBound
        (setCell (ofRows [[10, 1], [10, 20]]) 0 0 (ofRows [[10, 1], [10, 20]] 0 0 + 2)) 2 2
        = some 23 := by
  decide

/-- C10, amended: for an instance of positive durations with `numMachines ≥ 1` and
`numJobs ≥ 1`, a cell `(i, j)` and `k ≥ 0`, if the same job `ω` is the lowest-index job of
maximum total duration before and after `FSP[i][j]` is increased by `k`, and no `int`
value of the routine overflows on the increased instance (every job total, the sum of the
`minOps` and the value `(sum of minOps[j]) - minOps[ω] + totalDuration[ω]` are at most
`INT_MAX` there), then `proportionateLowerBound` returns a value on both matrices and the
value after the increase is at least the value before. -/
theorem proportionateLowerBound_monotone_same_omega (FSP : Matrix)
    (numJobs numMachines i j : Nat) (k : Int) (ω : Nat)
    (hJ : 1 ≤ numJobs) (hM : 1 ≤ numMachines)
    (hpos : ∀ a b, a < numMachines → b < numJobs → 0 < FSP a b) (hk : 0 ≤ k)
    (hω : IsOmega FSP numJobs numMachines ω)
    (hω2 : IsOmega (setCell FSP i j (FSP i j + k)) numJobs numMachines ω)
    (hfit : ∀ b, b < numJobs →
      specJobTotal (setCell FSP i j (FSP i j + k)) numMachines b ≤ INT_MAX)
    (hacc : ∑ b ∈ Finset.range numJobs,
      specMinOps (setCell FSP i j (FSP i j + k)) numMachines b ≤ INT_MAX)
    (hres : specProportionate (setCell FSP i j (FSP i j + k)) numJobs numMachines ω
      ≤ INT_MAX) :
    ∃ lb lb2 : Int,
      proportionateLowerBound FSP numJobs numMachines = some lb ∧
      proportionateLowerBound (setCell FSP i j (FSP i j + k)) numJobs numMachines = some lb2 ∧
      lb ≤ lb2 := by
  have hpos2 : ∀ a b, a < numMachines → b < numJobs →
      0 < setCell FSP i j (FSP i j + k) a b := by
    intro a b ha hb
    exact lt_of_lt_of_le (hpos a b ha hb) (setCell_increase FSP i j k hk a b)
  have hinc := specProportionate_increase FSP numJobs numMachines i j k hk hM ω
  have hfit1 : ∀ b, b < numJobs → specJobTotal FSP numMachines b ≤ INT_MAX := by
    intro b hb
    refine le_trans ?_ (hfit b hb)
    unfold specJobTotal
    exact Finset.sum_le_sum (fun a _ => setCell_increase FSP i j k hk a b)
  have hacc1 : ∑ b ∈ Finset.range numJobs, specMinOps FSP numMachines b ≤ INT_MAX :=
    le_trans (Finset.sum_le_sum (fun b _ => specMinOps_increase FSP numMachines i j k hk b))
      hacc
  have hres1 : ∀ w, IsOmega FSP numJobs numMachines w →
      specProportionate FSP numJobs numMachines w ≤ INT_MAX := by
    intro w hw
    rw [isOmega_unique _ _ _ _ _ hw hω]
    exact le_trans hinc hres
  have hres2 : ∀ w, IsOmega (setCell FSP i j (FSP i j + k)) numJobs numMachines w →
      specProportionate (setCell FSP i j (FSP i j + k)) numJobs numMachines w ≤ INT_MAX := by
    intro w hw
    rw [isOmega_unique _ _ _ _ _ hw hω2]
    exact hres
  obtain ⟨w, hw, he⟩ :=
    proportionateLowerBound_eq FSP numJobs numMachines hJ hM hpos hfit1 hacc1 hres1
  obtain ⟨w2, hw2, he2⟩ :=
    proportionateLowerBound_eq _ numJobs numMachines hJ hM hpos2 hfit hacc hres2
  have e1 : w = ω := isOmega_unique _ _ _ _ _ hw hω
  have e2 : w2 = ω := isOmega_unique _ _ _ _ _ hw2 hω2
  subst e1
  subst e2
  exact ⟨_, _, he, he2, hinc⟩

/-! ## Theorems on determinism after `setSeed` -/

/-- C5, counterexample: two states whose flag `iset` is set and whose cached deviates
`gset` are `1/2` and `-1/2`. After `setSeed(1)` on both, the call `normal(0, 1)` returns the
cached deviate, `1/2` in one run and `-1/2` in the other, whatever the library function
and the bound on the rejection loop. -/
theorem setSeed_keeps_normal_cache :
    (∀ (fac : ℚ → ℚ) (fuel : Nat),
        drawsAfterSetSeed fac fuel ⟨7, 1, 1 / 2⟩ 1 [Call.normal 0 1]
          = some [Draw.real (1 / 2)]) ∧
      (∀ (fac : ℚ → ℚ) (fuel : Nat),
        drawsAfterSetSeed fac fuel ⟨7, 1, -1 / 2⟩ 1 [Call.normal 0 1]
          = some [Draw.real (-1 / 2)]) ∧
      Draw.real (1 / 2) ≠ Draw.real (-1 / 2) := by
  refine ⟨?_, ?_, ?_⟩
  · intro fac fuel
    simp [drawsAfterSetSeed, setSeed, runCalls, runCall, normal]
  · intro fac fuel
    simp [drawsAfterSetSeed, setSeed, runCalls, runCall, normal]
  · intro h
    injection h with h1
    norm_num at h1

/-- C5, amended: for two states that agree on the flag `iset` of `normal`, and on the
cached deviate `gset` when the flag is set, `setSeed(s)` with the same `s > 0` succeeds on
both, and every sequence of `unifZeroOne`, `unifSupplied` and `normal` calls made after it
returns the same values in both runs. -/
theorem setSeed_deterministic (fac : ℚ → ℚ) (fuel : Nat) (st1 st2 : RNG) (s : Int)
    (hs : s > 0) (hflag : st1.iset = st2.iset) (hcache : st1.iset ≠ 0 → st1.gset = st2.gset)
    (calls : List Call) :
    setSeed st1 s = some { st1 with seed := s } ∧
      setSeed st2 s = some { st2 with seed := s } ∧
      drawsAfterSetSeed fac fuel st1 s calls = drawsAfterSetSeed fac fuel st2 s calls := by
  have h1 : setSeed st1 s = some { st1 with seed := s } := by
    unfold setSeed
    rw [if_pos hs]
  have h2 : setSeed st2 s = some { st2 with seed := s } := by
    unfold setSeed
    rw [if_pos hs]
  refine ⟨h1, h2, ?_⟩
  unfold drawsAfterSetSeed
  rw [h1, h2]
  exact runCalls_agree fac fuel calls _ _ ⟨rfl, hflag, hcache⟩

/-- Witness for C5, amended: two states with the flag clear, seeds `5` and `9` and cached
values `1/3` and `2/3`; `setSeed(1)`, then `unifZeroOne()`, `unifSupplied(1, 6)` and two
calls of `normal(0, 1)`. -/
theorem setSeed_deterministic_witness :
    (1 : Int) > 0 ∧ (RNG.mk 5 0 (1 / 3)).iset = (RNG.mk 9 0 (2 / 3)).iset ∧
      drawsAfterSetSeed (fun r => r) 10 (RNG.mk 5 0 (1 / 3)) 1
          [Call.unifZeroOne, Call.unifSupplied 1 6, Call.normal 0 1, Call.normal 0 1] =
        drawsAfterSetSeed (fun r => r) 10 (RNG.mk 9 0 (2 / 3)) 1
          [Call.unifZeroOne, Call.unifSupplied 1 6, Call.normal 0 1, Call.normal 0 1] :=
  ⟨by decide, rfl,
    (setSeed_deterministic (fun r => r) 10 (RNG.mk 5 0 (1 / 3)) (RNG.mk 9 0 (2 / 3)) 1
      (by decide) rfl (fun h => absurd rfl h)
      [Call.unifZeroOne, Call.unifSupplied 1 6, Call.normal 0 1, Call.normal 0 1]).2.2⟩

/-! ## Witnesses for the lower bounds -/

/-- Witness for C6: two machines and two jobs, job 0 with durations `10, 10` and job 1 with
durations `1, 20`; the bound is `31`. -/
theorem taillardLowerBound_spec_witness :
    taillardLowerBound (ofRows [[10, 1], [10, 20]]) 2 2 =
        specTaillard (ofRows [[10, 1], [10, 20]]) 2 2 (by decide) (by decide) ∧
      specTaillard (ofRows [[10, 1], [10, 20]]) 2 2 (by decide) (by decide) = 31 :=
  ⟨taillardLowerBound_spec (ofRows [[10, 1], [10, 20]]) 2 2 (by decide) (by decide)
      (by intro i j hi hj; interval_cases i <;> interval_cases j <;> decide)
      (by intro i j hi hj; interval_cases i <;> interval_cases j <;> decide)
      (by decide),
    by decide⟩

/-- Witness for C9: the same instance with `FSP[0][1]` increased by `4`; the bound goes
from `31` to `35`. -/
theorem taillardLowerBound_monotone_witness :
    (0 : Int) ≤ 4 ∧
      taillardLowerBound (ofRows [[10, 1], [10, 20]]) 2 2 ≤
        taillardLowerBound
          (setCell (ofRows [[10, 1], [10, 20]]) 0 1 (ofRows [[10, 1], [10, 20]] 0 1 + 4)) 2 2 ∧
      taillardLowerBound (ofRows [[10, 1], [10, 20]]) 2 2 = 31 ∧
      taillardLowerBound
          (setCell (ofRows [[10, 1], [10, 20]]) 0 1 (ofRows [[10, 1], [10, 20]] 0 1 + 4)) 2 2
        = 35 :=
  ⟨by decide, taillardLowerBound_monotone (ofRows [[10, 1], [10, 20]]) 2 2 0 1 4 (by decide),
    by decide, by decide⟩

/-- Witness for C10, amended: the same instance with `FSP[1][1]` increased by `5`; job 1
has the largest total before and after, and the bound goes from `31` to `36`. -/
theorem proportionateLowerBound_monotone_same_omega_witness :
    (∃ lb lb2 : Int,
        proportionateLowerBound (ofRows [[10, 1], [10, 20]]) 2 2 = some lb ∧
        proportionateLowerBound
          (setCell (ofRows [[10, 1], [10, 20]]) 1 1 (ofRows [[10, 1], [10, 20]] 1 1 + 5)) 2 2
          = some lb2 ∧
        lb ≤ lb2) ∧
      proportionateLowerBound (ofRows [[10, 1], [10, 20]]) 2 2 = some 31 ∧
      proportionateLowerBound
          (setCell (ofRows [[10, 1], [10, 20]]) 1 1 (ofRows [[10, 1], [10, 20]] 1 1 + 5)) 2 2
        = some 36 :=
  ⟨proportionateLowerBound_monotone_same_omega (ofRows [[10, 1], [10, 20]]) 2 2 1 1 5 1
      (by decide) (by decide)
      (by intro i j hi hj; interval_cases i <;> interval_cases j <;> decide) (by decide)
      (by decide) (by decide) (by intro b hb; interval_cases b <;> decide) (by decide)
      (by decide),
    by decide, by decide⟩


/-! ## Lemmas on the Lehmer step -/

theorem seedUpdate_eq_lehmerStep (seed : Int) (h0 : 0 ≤ seed) (h1 : seed < 2147483647) :
    seedUpdate seed = lehmerStep seed := by
  rw [seedUpdate_nonneg_eq seed h0]
  unfold lehmerStep
  split_ifs with h <;> omega

theorem lehmerStep_ne_zero (seed : Int) (h0 : 1 ≤ seed) (h1 : seed ≤ 2147483646) :
    lehmerStep seed ≠ 0 := by
  unfold lehmerStep
  intro h
  have hd : (2147483647 : Int) ∣ 16807 * seed := Int.dvd_of_emod_eq_zero h
  have hc : IsCoprime (2147483647 : Int) 16807 := by
    rw [Int.isCoprime_iff_gcd_eq_one]
    decide
  have hs : (2147483647 : Int) ∣ seed := hc.dvd_of_dvd_mul_left hd
  have := Int.le_of_dvd (by omega) hs
  omega

theorem seedUpdate_pos_range (seed : Int) (h0 : 1 ≤ seed) (h1 : seed ≤ 2147483646) :
    1 ≤ seedUpdate seed ∧ seedUpdate seed ≤ 2147483646 := by
  have h2 := seedUpdate_range seed (by omega) (by omega)
  have h3 := lehmerStep_ne_zero seed h0 h1
  rw [← seedUpdate_eq_lehmerStep seed (by omega) (by omega)] at h3
  omega

theorem seedUpdate_iterate_range (seed : Int) (h0 : 1 ≤ seed) (h1 : seed ≤ 2147483646)
    (n : Nat) : 1 ≤ seedUpdate^[n] seed ∧ seedUpdate^[n] seed ≤ 2147483646 := by
  induction n with
  | zero => exact ⟨h0, h1⟩
  | succ n ih =>
    rw [Function.iterate_succ_apply']
    exact seedUpdate_pos_range _ ih.1 ih.2

/-! ## Theorems on the Lehmer step -/

/-- C19: for every seed in `[1, 2147483646]`, the seed that `unifZeroOne` stores equals
`(16807 * seed) mod 2147483647` and lies in `[1, 2147483646]` again, and so does the seed
after any number of updates: it is never `0`. -/
theorem seedUpdate_is_lehmer (st : RNG) (h0 : 1 ≤ st.seed) (h1 : st.seed ≤ 2147483646) :
    (∃ u st2, unifZeroOne st = some (u, st2) ∧ st2.seed = lehmerStep st.seed) ∧
      seedUpdate st.seed = lehmerStep st.seed ∧
      (1 ≤ seedUpdate st.seed ∧ seedUpdate st.seed ≤ 2147483646) ∧
      ∀ n : Nat, 1 ≤ seedUpdate^[n] st.seed ∧ seedUpdate^[n] st.seed ≤ 2147483646 := by
  have he := seedUpdate_eq_lehmerStep st.seed (by omega) (by omega)
  refine ⟨⟨_, _, unifZeroOne_eq st (by omega) (by omega), he⟩, he,
    seedUpdate_pos_range st.seed h0 h1, seedUpdate_iterate_range st.seed h0 h1⟩

/-- Witness for C19: seed `1`; the next seed is `16807`. -/
theorem seedUpdate_is_lehmer_witness :
    (1 : Int) ≤ (RNG.mk 1 0 0).seed ∧ (RNG.mk 1 0 0).seed ≤ 2147483646 ∧
      seedUpdate (RNG.mk 1 0 0).seed = lehmerStep (RNG.mk 1 0 0).seed ∧
      lehmerStep 1 = 16807 :=
  ⟨by decide, by decide,
    (seedUpdate_is_lehmer (RNG.mk 1 0 0) (by decide) (by decide)).2.1, by decide⟩

/-! ## The modulus is prime and the multiplier is a primitive root -/

theorem powModAux_eq (m : Nat) (fuel : Nat) : ∀ b e acc, e < 2 ^ fuel →
    powModAux m fuel b e acc % m = acc * b ^ e % m := by
  induction fuel with
  | zero =>
    intro b e acc he
    have : e = 0 := by simpa using he
    subst this
    simp [powModAux]
  | succ n ih =>
    intro b e acc he
    unfold powModAux
    by_cases h0 : e = 0
    · subst h0; simp
    · rw [if_neg h0]
      have he2 : e / 2 < 2 ^ n := by
        rw [pow_succ] at he
        omega
      rw [ih _ _ _ he2]
      have hsplit : e = 2 * (e / 2) + e % 2 := (Nat.div_add_mod e 2).symm
      have hb : (b * b % m) ^ (e / 2) % m = b ^ (2 * (e / 2)) % m := by
        rw [← Nat.pow_mod, pow_mul, pow_two]
      by_cases h1 : e % 2 = 1
      · rw [if_pos h1]
        conv_rhs => rw [hsplit, h1, pow_add, pow_one]
        rw [Nat.mul_mod, Nat.mod_mod, hb, ← Nat.mul_mod]
        congr 1
        ring
      · rw [if_neg h1]
        have h2 : e % 2 = 0 := by omega
        conv_rhs => rw [hsplit, h2, add_zero]
        rw [Nat.mul_mod, hb, ← Nat.mul_mod]

theorem pow_zmod_of_powModAux (e r : Nat) (he : e < 2 ^ 32)
    (h : powModAux 2147483647 32 16807 e 1 % 2147483647 = r) :
    (16807 : ZMod 2147483647) ^ e = (r : ZMod 2147483647) := by
  rw [powModAux_eq 2147483647 32 16807 e 1 he, one_mul] at h
  have h2 : ((16807 ^ e : ℕ) : ZMod 2147483647) = ((r : ℕ) : ZMod 2147483647) := by
    rw [ZMod.natCast_eq_natCast_iff', ← h, Nat.mod_mod]
  simpa using h2

theorem prime_dvd_cases (q : Nat) (hq : q.Prime) (hd : q ∣ 2147483646) :
    q = 2 ∨ q = 3 ∨ q = 7 ∨ q = 11 ∨ q = 31 ∨ q = 151 ∨ q = 331 := by
  have hf : (2147483646 : Nat) = 2 * (3 * (3 * (7 * (11 * (31 * (151 * 331)))))) := by norm_num
  rw [hf] at hd
  have e2 : Nat.Prime 2 := by norm_num
  have e3 : Nat.Prime 3 := by norm_num
  have e7 : Nat.Prime 7 := by norm_num
  have e11 : Nat.Prime 11 := by norm_num
  have e31 : Nat.Prime 31 := by norm_num
  have e151 : Nat.Prime 151 := by norm_num
  have e331 : Nat.Prime 331 := by norm_num
  rcases (Nat.Prime.dvd_mul hq).mp hd with h | hd
  · exact Or.inl ((Nat.prime_dvd_prime_iff_eq hq e2).mp h)
  rcases (Nat.Prime.dvd_mul hq).mp hd with h | hd
  · exact Or.inr (Or.inl ((Nat.prime_dvd_prime_iff_eq hq e3).mp h))
  rcases (Nat.Prime.dvd_mul hq).mp hd with h | hd
  · exact Or.inr (Or.inl ((Nat.prime_dvd_prime_iff_eq hq e3).mp h))
  rcases (Nat.Prime.dvd_mul hq).mp hd with h | hd
  · exact Or.inr (Or.inr (Or.inl ((Nat.prime_dvd_prime_iff_eq hq e7).mp h)))
  rcases (Nat.Prime.dvd_mul hq).mp hd with h | hd
  · exact Or.inr (Or.inr (Or.inr (Or.inl ((Nat.prime_dvd_prime_iff_eq hq e11).mp h))))
  rcases (Nat.Prime.dvd_mul hq).mp hd with h | hd
  · exact Or.inr (Or.inr (Or.inr (Or.inr (Or.inl ((Nat.prime_dvd_prime_iff_eq hq e31).mp h)))))
  rcases (Nat.Prime.dvd_mul hq).mp hd with h | h
  · exact Or.inr (Or.inr (Or.inr (Or.inr (Or.inr (Or.inl
      ((Nat.prime_dvd_prime_iff_eq hq e151).mp h))))))
  · exact Or.inr (Or.inr (Or.inr (Or.inr (Or.inr (Or.inr
      ((Nat.prime_dvd_prime_iff_eq hq e331).mp h))))))

theorem natCast_ne_one (r : Nat) (h1 : r < 2147483647) (h2 : r ≠ 1) :
    (r : ZMod 2147483647) ≠ 1 := by
  intro h
  have h3 : ((r : ℕ) : ZMod 2147483647) = ((1 : ℕ) : ZMod 2147483647) := by simpa using h
  rw [ZMod.natCast_eq_natCast_iff'] at h3
  rw [Nat.mod_eq_of_lt h1] at h3
  exact h2 (by simpa using h3)

theorem pow_full : (16807 : ZMod 2147483647) ^ 2147483646 = 1 := by
  have h := pow_zmod_of_powModAux 2147483646 1 (by norm_num) (by decide)
  simpa using h

theorem pow_div_ne_one (q : Nat) (hq : q.Prime) (hd : q ∣ 2147483646) :
    (16807 : ZMod 2147483647) ^ (2147483646 / q) ≠ 1 := by
  rcases prime_dvd_cases q hq hd with h | h | h | h | h | h | h <;> subst h
  · rw [pow_zmod_of_powModAux (2147483646 / 2) _ (by norm_num) rfl]
    exact natCast_ne_one _ (by decide) (by decide)
  · rw [pow_zmod_of_powModAux (2147483646 / 3) _ (by norm_num) rfl]
    exact natCast_ne_one _ (by decide) (by decide)
  · rw [pow_zmod_of_powModAux (2147483646 / 7) _ (by norm_num) rfl]
    exact natCast_ne_one _ (by decide) (by decide)
  · rw [pow_zmod_of_powModAux (2147483646 / 11) _ (by norm_num) rfl]
    exact natCast_ne_one _ (by decide) (by decide)
  · rw [pow_zmod_of_powModAux (2147483646 / 31) _ (by norm_num) rfl]
    exact natCast_ne_one _ (by decide) (by decide)
  · rw [pow_zmod_of_powModAux (2147483646 / 151) _ (by norm_num) rfl]
    exact natCast_ne_one _ (by decide) (by decide)
  · rw [pow_zmod_of_powModAux (2147483646 / 331) _ (by norm_num) rfl]
    exact natCast_ne_one _ (by decide) (by decide)

theorem prime_modulus : Nat.Prime 2147483647 :=
  lucas_primality 2147483647 16807 pow_full (fun q hq hd => pow_div_ne_one q hq hd)

theorem orderOf_multiplier : orderOf (16807 : ZMod 2147483647) = 2147483646 :=
  orderOf_eq_of_pow_and_pow_div_prime (by norm_num) pow_full
    (fun q hq hd => pow_div_ne_one q hq hd)

theorem zmod_cast_inj (x y : Int) (hx0 : 0 ≤ x) (hx1 : x < 2147483647) (hy0 : 0 ≤ y)
    (hy1 : y < 2147483647) (h : (x : ZMod 2147483647) = (y : ZMod 2147483647)) : x = y := by
  rw [ZMod.intCast_eq_intCast_iff'] at h
  rw [Int.emod_eq_of_lt hx0 (by exact_mod_cast hx1),
    Int.emod_eq_of_lt hy0 (by exact_mod_cast hy1)] at h
  exact h

theorem zmod_cast_ne_zero (x : Int) (hx0 : 1 ≤ x) (hx1 : x ≤ 2147483646) :
    (x : ZMod 2147483647) ≠ 0 := by
  intro h
  have h2 : (x : ZMod 2147483647) = ((0 : Int) : ZMod 2147483647) := by simpa using h
  have := zmod_cast_inj x 0 (by omega) (by omega) (by omega) (by omega) h2
  omega

theorem seedUpdate_iterate_range0 (seed : Int) (h0 : 0 ≤ seed) (h1 : seed < 2147483647)
    (n : Nat) : 0 ≤ seedUpdate^[n] seed ∧ seedUpdate^[n] seed < 2147483647 := by
  induction n with
  | zero => exact ⟨h0, h1⟩
  | succ n ih =>
    rw [Function.iterate_succ_apply']
    exact seedUpdate_range _ ih.1 (by omega)

theorem seedUpdate_iterate_cast (seed : Int) (h0 : 0 ≤ seed) (h1 : seed < 2147483647)
    (n : Nat) :
    ((seedUpdate^[n] seed : Int) : ZMod 2147483647) =
      (16807 : ZMod 2147483647) ^ n * (seed : ZMod 2147483647) := by
  induction n with
  | zero => simp
  | succ n ih =>
    obtain ⟨ha, hb⟩ := seedUpdate_iterate_range0 seed h0 h1 n
    rw [Function.iterate_succ_apply', seedUpdate_eq_lehmerStep _ ha hb]
    unfold lehmerStep
    have hc : ((16807 * seedUpdate^[n] seed % 2147483647 : Int) : ZMod 2147483647) =
        ((16807 * seedUpdate^[n] seed : Int) : ZMod 2147483647) := by
      have := ZMod.intCast_mod (16807 * seedUpdate^[n] seed) 2147483647
      exact_mod_cast this
    rw [hc]
    push_cast
    rw [ih, pow_succ]
    ring

theorem iterate_eq_iff_pow (seed : Int) (h0 : 1 ≤ seed) (h1 : seed ≤ 2147483646)
    (a b : Nat) :
    seedUpdate^[a] seed = seedUpdate^[b] seed ↔
      (16807 : ZMod 2147483647) ^ a = (16807 : ZMod 2147483647) ^ b := by
  haveI : Fact (Nat.Prime 2147483647) := ⟨prime_modulus⟩
  have hs := zmod_cast_ne_zero seed h0 h1
  obtain ⟨ha0, ha1⟩ := seedUpdate_iterate_range0 seed (by omega) (by omega) a
  obtain ⟨hb0, hb1⟩ := seedUpdate_iterate_range0 seed (by omega) (by omega) b
  constructor
  · intro h
    have h2 := congrArg (fun x : Int => (x : ZMod 2147483647)) h
    simp only [seedUpdate_iterate_cast seed (by omega) (by omega)] at h2
    exact mul_right_cancel₀ hs h2
  · intro h
    apply zmod_cast_inj _ _ ha0 ha1 hb0 hb1
    rw [seedUpdate_iterate_cast seed (by omega) (by omega),
      seedUpdate_iterate_cast seed (by omega) (by omega), h]

theorem pow_eq_of_lt_order (a b : Nat) (ha : a < 2147483646) (hb : b < 2147483646)
    (h : (16807 : ZMod 2147483647) ^ a = (16807 : ZMod 2147483647) ^ b) : a = b := by
  have hinj := pow_injOn_Iio_orderOf (x := (16807 : ZMod 2147483647))
  rw [orderOf_multiplier] at hinj
  exact hinj (Set.mem_Iio.mpr ha) (Set.mem_Iio.mpr hb) h

theorem exists_pow_eq (u : ZMod 2147483647) (hu : u ≠ 0) :
    ∃ n, n < 2147483646 ∧ (16807 : ZMod 2147483647) ^ n = u := by
  haveI : Fact (Nat.Prime 2147483647) := ⟨prime_modulus⟩
  have hg0 : (16807 : ZMod 2147483647) ≠ 0 := by
    intro h
    have h2 := pow_full
    rw [h, zero_pow (by norm_num)] at h2
    exact zero_ne_one h2
  let f : Fin 2147483646 → (ZMod 2147483647)ˣ := fun n => (Units.mk0 16807 hg0) ^ (n : Nat)
  have hinj : Function.Injective f := by
    intro a b hab
    have h2 : ((Units.mk0 (16807 : ZMod 2147483647) hg0) ^ (a : Nat) : (ZMod 2147483647)ˣ).val
        = ((Units.mk0 (16807 : ZMod 2147483647) hg0) ^ (b : Nat) : (ZMod 2147483647)ˣ).val :=
      congrArg Units.val hab
    rw [Units.val_pow_eq_pow_val, Units.val_pow_eq_pow_val, Units.val_mk0] at h2
    exact Fin.ext (pow_eq_of_lt_order a b a.isLt b.isLt h2)
  have hcard : Fintype.card (Fin 2147483646) = Fintype.card (ZMod 2147483647)ˣ := by
    rw [ZMod.card_units, Fintype.card_fin]
  have hbij := (Fintype.bijective_iff_injective_and_card f).mpr ⟨hinj, hcard⟩
  obtain ⟨n, hn⟩ := hbij.2 (Units.mk0 u hu)
  refine ⟨n, n.isLt, ?_⟩
  have h3 := congrArg Units.val hn
  rw [Units.val_pow_eq_pow_val, Units.val_mk0, Units.val_mk0] at h3
  exact h3

theorem seedUpdate_reaches (s t : Int) (h0 : 1 ≤ s) (h1 : s ≤ 2147483646) (ht0 : 1 ≤ t)
    (ht1 : t ≤ 2147483646) : ∃ n : Nat, n < 2147483646 ∧ seedUpdate^[n] s = t := by
  haveI : Fact (Nat.Prime 2147483647) := ⟨prime_modulus⟩
  have hs := zmod_cast_ne_zero s h0 h1
  have htz := zmod_cast_ne_zero t ht0 ht1
  obtain ⟨n, hn, hp⟩ := exists_pow_eq ((t : ZMod 2147483647) * (s : ZMod 2147483647)⁻¹)
    (mul_ne_zero htz (inv_ne_zero hs))
  obtain ⟨ha0, ha1⟩ := seedUpdate_iterate_range0 s (by omega) (by omega) n
  refine ⟨n, hn, ?_⟩
  apply zmod_cast_inj _ _ ha0 ha1 (by omega) (by omega)
  rw [seedUpdate_iterate_cast s (by omega) (by omega), hp, mul_assoc,
    inv_mul_cancel₀ hs, mul_one]

/-! ## Theorems on the period of the generator -/

/-- C16: for every seed `s` in `[1, 2147483646]`, iterating the seed update of
`unifZeroOne` from `s` gives `s` again after `2147483646` steps and not after any smaller
positive number of steps, and every value in `[1, 2147483646]` is reached at exactly one
step count below `2147483646`. -/
theorem seedUpdate_full_period (s : Int) (h0 : 1 ≤ s) (h1 : s ≤ 2147483646) :
    seedUpdate^[2147483646] s = s ∧
      (∀ n : Nat, 0 < n → n < 2147483646 → seedUpdate^[n] s ≠ s) ∧
      (∀ t : Int, 1 ≤ t → t ≤ 2147483646 →
        ∃ n : Nat, (n < 2147483646 ∧ seedUpdate^[n] s = t) ∧
          ∀ n2 : Nat, n2 < 2147483646 ∧ seedUpdate^[n2] s = t → n2 = n) := by
  refine ⟨?_, ?_, ?_⟩
  · have h := (iterate_eq_iff_pow s h0 h1 2147483646 0).mpr (by rw [pow_full, pow_zero])
    exact h.trans (Function.iterate_zero_apply seedUpdate s)
  · intro n hn0 hn1 h
    have h2 : seedUpdate^[n] s = seedUpdate^[0] s :=
      h.trans (Function.iterate_zero_apply seedUpdate s).symm
    have h3 := (iterate_eq_iff_pow s h0 h1 n 0).mp h2
    have := pow_eq_of_lt_order n 0 hn1 (by norm_num) h3
    omega
  · intro t ht0 ht1
    obtain ⟨n, hn, hval⟩ := seedUpdate_reaches s t h0 h1 ht0 ht1
    refine ⟨n, ⟨hn, hval⟩, ?_⟩
    rintro n2 ⟨hn2, hval2⟩
    have h3 := (iterate_eq_iff_pow s h0 h1 n2 n).mp (hval2.trans hval.symm)
    exact pow_eq_of_lt_order n2 n hn2 hn h3

/-- Witness for C16: the seed `1`. -/
theorem seedUpdate_full_period_witness :
    (1 : Int) ≤ 1 ∧ (1 : Int) ≤ 2147483646 ∧ seedUpdate^[2147483646] (1 : Int) = 1 :=
  ⟨by decide, by decide, (seedUpdate_full_period 1 (by decide) (by decide)).1⟩

/-! ## Lemmas on `unifSupplied` -/

theorem eps_val : (2 : ℚ) ^ (-53 : Int) = 1 / 9007199254740992 := by
  rw [zpow_neg]
  norm_num

theorem tiny_le (x : ℚ) (hx : 1 / 4294967296 ≤ x) : (2 : ℚ) ^ (-1022 : Int) ≤ |x| := by
  have h0 : (0 : ℚ) ≤ x := le_trans (by norm_num) hx
  rw [abs_of_nonneg h0]
  have h1 : (2 : ℚ) ^ (-1022 : Int) ≤ (2 : ℚ) ^ (-32 : Int) :=
    zpow_le_zpow_right₀ (by norm_num) (by norm_num)
  have h2 : (2 : ℚ) ^ (-32 : Int) = 1 / 4294967296 := by
    rw [zpow_neg]
    norm_num
  exact le_trans h1 (le_trans h2.le hx)

/-- The two roundings of `unifSupplied` on a seed `s` in `[1, m-1]` and a span `n ≥ 1`: the
product computed lies within a factor `(1 ± 2^-53)^2` of the exact one. -/
theorem scaled_bounds (s n : Int) (hs0 : 1 ≤ s) (hn : 1 ≤ n) :
    (s : ℚ) * (n : ℚ) / 2147483647 * ((1 - 1 / 9007199254740992) * (1 - 1 / 9007199254740992))
        ≤ toDouble (toDouble ((s : ℚ) / 2147483647) * (n : ℚ)) ∧
      toDouble (toDouble ((s : ℚ) / 2147483647) * (n : ℚ))
        ≤ (s : ℚ) * (n : ℚ) / 2147483647
          * ((1 + 1 / 9007199254740992) * (1 + 1 / 9007199254740992)) := by
  have hsq : (1 : ℚ) ≤ (s : ℚ) := by exact_mod_cast hs0
  have hnq : (1 : ℚ) ≤ (n : ℚ) := by exact_mod_cast hn
  set x : ℚ := (s : ℚ) / 2147483647 with hx
  have hx1 : 1 / 2147483647 ≤ x := by
    rw [hx]
    exact div_le_div_of_nonneg_right hsq (by norm_num)
  have hxpos : 0 < x := lt_of_lt_of_le (by norm_num) hx1
  have e1 := toDouble_error x (tiny_le x (le_trans (by norm_num) hx1))
  rw [abs_of_pos hxpos, eps_val, abs_le] at e1
  set v := toDouble x with hv
  have hv1 : x * (1 - 1 / 9007199254740992) ≤ v := by linarith [e1.1]
  have hv2 : v ≤ x * (1 + 1 / 9007199254740992) := by linarith [e1.2]
  have hvlow : 1 / 4294967296 ≤ v := by
    have : (1 / 2147483647 : ℚ) * (1 - 1 / 9007199254740992) ≤ x * (1 - 1 / 9007199254740992) :=
      mul_le_mul_of_nonneg_right hx1 (by norm_num)
    have h3 : (1 / 4294967296 : ℚ) ≤ (1 / 2147483647 : ℚ) * (1 - 1 / 9007199254740992) := by
      norm_num
    linarith
  have hvpos : 0 < v := lt_of_lt_of_le (by norm_num) hvlow
  have hy1 : 1 / 4294967296 ≤ v * (n : ℚ) := by
    calc (1 / 4294967296 : ℚ) ≤ v := hvlow
      _ = v * 1 := (mul_one v).symm
      _ ≤ v * (n : ℚ) := mul_le_mul_of_nonneg_left hnq hvpos.le
  have hypos : 0 < v * (n : ℚ) := lt_of_lt_of_le (by norm_num) hy1
  have e2 := toDouble_error (v * (n : ℚ)) (tiny_le _ hy1)
  rw [abs_of_pos hypos, eps_val, abs_le] at e2
  have hnpos : (0 : ℚ) < (n : ℚ) := lt_of_lt_of_le one_pos hnq
  have hexact : (s : ℚ) * (n : ℚ) / 2147483647 = x * (n : ℚ) := by
    rw [hx]
    ring
  rw [hexact]
  constructor
  · have h4 : x * (1 - 1 / 9007199254740992) * (n : ℚ) ≤ v * (n : ℚ) :=
      mul_le_mul_of_nonneg_right hv1 hnpos.le
    have h5 : v * (n : ℚ) * (1 - 1 / 9007199254740992) ≤ toDouble (v * (n : ℚ)) := by
      linarith [e2.1]
    have h6 : x * (1 - 1 / 9007199254740992) * (n : ℚ) * (1 - 1 / 9007199254740992)
        ≤ v * (n : ℚ) * (1 - 1 / 9007199254740992) :=
      mul_le_mul_of_nonneg_right h4 (by norm_num)
    calc x * (n : ℚ) * ((1 - 1 / 9007199254740992) * (1 - 1 / 9007199254740992))
        = x * (1 - 1 / 9007199254740992) * (n : ℚ) * (1 - 1 / 9007199254740992) := by ring
      _ ≤ v * (n : ℚ) * (1 - 1 / 9007199254740992) := h6
      _ ≤ toDouble (v * (n : ℚ)) := h5
  · have h4 : v * (n : ℚ) ≤ x * (1 + 1 / 9007199254740992) * (n : ℚ) :=
      mul_le_mul_of_nonneg_right hv2 hnpos.le
    have h5 : toDouble (v * (n : ℚ)) ≤ v * (n : ℚ) * (1 + 1 / 9007199254740992) := by
      linarith [e2.2]
    have h6 : v * (n : ℚ) * (1 + 1 / 9007199254740992)
        ≤ x * (1 + 1 / 9007199254740992) * (n : ℚ) * (1 + 1 / 9007199254740992) :=
      mul_le_mul_of_nonneg_right h4 (by norm_num)
    calc toDouble (v * (n : ℚ)) ≤ v * (n : ℚ) * (1 + 1 / 9007199254740992) := h5
      _ ≤ x * (1 + 1 / 9007199254740992) * (n : ℚ) * (1 + 1 / 9007199254740992) := h6
      _ = x * (n : ℚ) * ((1 + 1 / 9007199254740992) * (1 + 1 / 9007199254740992)) := by ring

theorem scaledFloor_zero (n : Int) : scaledFloor 0 n = 0 := by
  unfold scaledFloor
  simp [toDouble_zero]

/-- The integer that `unifSupplied` adds to `low` lies in `[0, span - 1]`. -/
theorem scaledFloor_range (s n : Int) (hs0 : 0 ≤ s) (hs1 : s < 2147483647) (hn : 1 ≤ n) :
    0 ≤ scaledFloor s n ∧ scaledFloor s n ≤ n - 1 := by
  rcases eq_or_lt_of_le hs0 with h0 | hpos
  · rw [← h0, scaledFloor_zero]
    omega
  have hb := scaled_bounds s n (by omega) hn
  have hsq : (1 : ℚ) ≤ (s : ℚ) := by exact_mod_cast (by omega : (1 : Int) ≤ s)
  have hs1q : (s : ℚ) ≤ 2147483646 := by exact_mod_cast (by omega : s ≤ 2147483646)
  have hnq : (1 : ℚ) ≤ (n : ℚ) := by exact_mod_cast hn
  have hnpos : (0 : ℚ) < (n : ℚ) := lt_of_lt_of_le one_pos hnq
  unfold scaledFloor
  constructor
  · apply Int.floor_nonneg.mpr
    refine le_trans ?_ hb.1
    positivity
  · have hlt : toDouble (toDouble ((s : ℚ) / 2147483647) * (n : ℚ)) < (n : ℚ) := by
      refine lt_of_le_of_lt hb.2 ?_
      have h1 : (s : ℚ) * (n : ℚ) / 2147483647
            * ((1 + 1 / 9007199254740992) * (1 + 1 / 9007199254740992))
          ≤ 2147483646 * (n : ℚ) / 2147483647
            * ((1 + 1 / 9007199254740992) * (1 + 1 / 9007199254740992)) := by
        apply mul_le_mul_of_nonneg_right _ (by norm_num)
        apply div_le_div_of_nonneg_right _ (by norm_num)
        exact mul_le_mul_of_nonneg_right hs1q hnpos.le
      have h2 : 2147483646 * (n : ℚ) / 2147483647
            * ((1 + 1 / 9007199254740992) * (1 + 1 / 9007199254740992))
          = (n : ℚ) * (2147483646 / 2147483647
            * ((1 + 1 / 9007199254740992) * (1 + 1 / 9007199254740992))) := by ring
      have h3 : (2147483646 / 2147483647
            * ((1 + 1 / 9007199254740992) * (1 + 1 / 9007199254740992)) : ℚ) < 1 := by
        norm_num
      calc (s : ℚ) * (n : ℚ) / 2147483647
            * ((1 + 1 / 9007199254740992) * (1 + 1 / 9007199254740992))
          ≤ (n : ℚ) * (2147483646 / 2147483647
            * ((1 + 1 / 9007199254740992) * (1 + 1 / 9007199254740992))) := by
            rw [← h2]
            exact h1
        _ < (n : ℚ) * 1 := mul_lt_mul_of_pos_left h3 hnpos
        _ = (n : ℚ) := mul_one _
    have : Int.floor (toDouble (toDouble ((s : ℚ) / 2147483647) * (n : ℚ))) < n :=
      Int.floor_lt.mpr hlt
    omega

theorem modulus_not_dvd_mul (s n : Int) (hs0 : 1 ≤ s) (hs1 : s < 2147483647) (hn0 : 1 ≤ n)
    (hn1 : n < 2147483647) : ¬ (2147483647 : Int) ∣ s * n := by
  intro h
  have hp : Prime (2147483647 : Int) := by
    have := Nat.prime_iff_prime_int.mp prime_modulus
    exact_mod_cast this
  rcases hp.dvd_or_dvd h with h1 | h1
  · have := Int.le_of_dvd (by omega) h1
    omega
  · have := Int.le_of_dvd (by omega) h1
    omega

/-- For a span of at most `2^21` the two roundings do not change the floor. -/
theorem scaledFloor_exact (s n : Int) (hs0 : 0 ≤ s) (hs1 : s < 2147483647) (hn0 : 1 ≤ n)
    (hn1 : n ≤ 2097152) : scaledFloor s n = s * n / 2147483647 := by
  rcases eq_or_lt_of_le hs0 with h0 | hpos
  · rw [← h0, scaledFloor_zero]
    simp
  have hb := scaled_bounds s n (by omega) hn0
  have hnd := modulus_not_dvd_mul s n (by omega) hs1 hn0 (by omega)
  have hsq : (1 : ℚ) ≤ (s : ℚ) := by exact_mod_cast (by omega : (1 : Int) ≤ s)
  have hs1q : (s : ℚ) ≤ 2147483646 := by exact_mod_cast (by omega : s ≤ 2147483646)
  have hnq : (1 : ℚ) ≤ (n : ℚ) := by exact_mod_cast hn0
  have hn1q : (n : ℚ) ≤ 2097152 := by exact_mod_cast hn1
  have hdm := Int.emod_add_ediv (s * n) 2147483647
  have hr0 : 0 ≤ (s * n) % 2147483647 := Int.emod_nonneg _ (by norm_num)
  have hr1 : (s * n) % 2147483647 < 2147483647 := Int.emod_lt_of_pos _ (by norm_num)
  have hrne : (s * n) % 2147483647 ≠ 0 := fun h => hnd (Int.dvd_of_emod_eq_zero h)
  generalize hq : s * n / 2147483647 = q at hdm ⊢
  generalize hr : (s * n) % 2147483647 = r at hdm hr0 hr1 hrne
  have hrq1 : (1 : ℚ) ≤ (r : ℚ) := by exact_mod_cast (by omega : (1 : Int) ≤ r)
  have hrq2 : (r : ℚ) ≤ 2147483646 := by exact_mod_cast (by omega : r ≤ 2147483646)
  have hexq : (s : ℚ) * (n : ℚ) = (r : ℚ) + 2147483647 * (q : ℚ) := by exact_mod_cast hdm.symm
  have he : (s : ℚ) * (n : ℚ) / 2147483647 = (q : ℚ) + (r : ℚ) / 2147483647 := by
    rw [hexq]
    field_simp
    ring
  have hele : (s : ℚ) * (n : ℚ) / 2147483647 ≤ 2097152 := by
    rw [div_le_iff₀ (by norm_num)]
    calc (s : ℚ) * (n : ℚ) ≤ 2147483646 * 2097152 :=
          mul_le_mul hs1q hn1q (by linarith) (by norm_num)
      _ ≤ 2097152 * 2147483647 := by norm_num
  have hepos : 0 ≤ (s : ℚ) * (n : ℚ) / 2147483647 := by positivity
  unfold scaledFloor
  rw [Int.floor_eq_iff]
  set e := (s : ℚ) * (n : ℚ) / 2147483647 with hedef
  set p := toDouble (toDouble ((s : ℚ) / 2147483647) * (n : ℚ)) with hpdef
  have hlo : e - 1 / 2147483647 < p := by
    have h1 : e * ((1 - 1 / 9007199254740992) * (1 - 1 / 9007199254740992)) ≤ p := hb.1
    have h2 : e * (1 - (1 - 1 / 9007199254740992) * (1 - 1 / 9007199254740992))
        ≤ 2097152 * (1 - (1 - 1 / 9007199254740992) * (1 - 1 / 9007199254740992)) :=
      mul_le_mul_of_nonneg_right hele (by norm_num)
    have h3 : (2097152 * (1 - (1 - 1 / 9007199254740992) * (1 - 1 / 9007199254740992)) : ℚ)
        < 1 / 2147483647 := by norm_num
    linarith
  have hhi : p < e + 1 / 2147483647 := by
    have h1 : p ≤ e * ((1 + 1 / 9007199254740992) * (1 + 1 / 9007199254740992)) := hb.2
    have h2 : e * ((1 + 1 / 9007199254740992) * (1 + 1 / 9007199254740992) - 1)
        ≤ 2097152 * ((1 + 1 / 9007199254740992) * (1 + 1 / 9007199254740992) - 1) :=
      mul_le_mul_of_nonneg_right hele (by norm_num)
    have h3 : (2097152 * ((1 + 1 / 9007199254740992) * (1 + 1 / 9007199254740992) - 1) : ℚ)
        < 1 / 2147483647 := by norm_num
    linarith
  have hr3 : (1 : ℚ) / 2147483647 ≤ (r : ℚ) / 2147483647 :=
    div_le_div_of_nonneg_right hrq1 (by norm_num)
  have hr4 : (r : ℚ) / 2147483647 ≤ 1 - 1 / 2147483647 := by
    rw [div_le_iff₀ (by norm_num)]
    norm_num
    linarith
  constructor
  · linarith
  · linarith

/-- For a seed in `[0, 2147483646]` and `int` arguments `low ≤ high` with `high - low + 1`
representable, no assertion of `unifSupplied` fails and no `int` operation overflows. -/
theorem unifSupplied_eq (st : RNG) (low high : Int) (h0 : 0 ≤ st.seed)
    (h1 : st.seed < 2147483647) (hlo : INT_MIN ≤ low) (hlh : low ≤ high)
    (hhi : high ≤ INT_MAX) (hrep : high - low + 1 ≤ INT_MAX) :
    unifSupplied st low high =
      some (low + scaledFloor (seedUpdate st.seed) (high - low + 1),
        { st with seed := seedUpdate st.seed }) := by
  have hu := unifZeroOne_eq st h0 (by omega)
  obtain ⟨ha, hb⟩ := seedUpdate_range st.seed h0 (by omega)
  obtain ⟨hk0, hk1⟩ := scaledFloor_range (seedUpdate st.seed) (high - low + 1) ha hb (by omega)
  have hw1 : wrapInt (high - low) = high - low := by
    unfold INT_MIN at hlo
    unfold INT_MAX at hhi hrep
    unfold wrapInt
    omega
  have hw2 : wrapInt (high - low + 1) = high - low + 1 := by
    unfold INT_MIN at hlo
    unfold INT_MAX at hhi hrep
    unfold wrapInt
    omega
  have hk : toInt (scaledFloor (seedUpdate st.seed) (high - low + 1))
      = scaledFloor (seedUpdate st.seed) (high - low + 1) := by
    apply toInt_eq
    · unfold INT_MIN
      omega
    · omega
  have hw3 : wrapInt (low + scaledFloor (seedUpdate st.seed) (high - low + 1))
      = low + scaledFloor (seedUpdate st.seed) (high - low + 1) := by
    apply wrapInt_eq <;> omega
  unfold scaledFloor at hk hw3 hk0 hk1 ⊢
  unfold unifSupplied
  rw [if_pos hlh, hu]
  dsimp only
  rw [hw1, hw2, hk, hw3, if_pos ⟨by omega, by omega⟩]

theorem unifSupplied_returns (st : RNG) (low high : Int) (h0 : 0 ≤ st.seed)
    (h1 : st.seed < 2147483647) (hlo : INT_MIN ≤ low) (hlh : low ≤ high)
    (hhi : high ≤ INT_MAX) (hrep : high - low + 1 ≤ INT_MAX) :
    ∃ x st2, unifSupplied st low high = some (x, st2) ∧ 0 ≤ st2.seed ∧
      st2.seed < 2147483647 := by
  obtain ⟨ha, hb⟩ := seedUpdate_range st.seed h0 (by omega)
  exact ⟨_, _, unifSupplied_eq st low high h0 h1 hlo hlh hhi hrep, ha, hb⟩

theorem toDouble_quotient_example : toDouble ((1981264762 : ℚ) / 2147483647)
    = 4155013360092653 / 4503599627370496 := by
  rw [toDouble_of_bounds _ (-1) (by norm_num [abs_of_pos]) (by norm_num [abs_of_pos])
    (by norm_num)]
  rw [rint_eq_of_abs_lt _ 8310026720185306 (by norm_num [abs_lt])]
  norm_num

theorem toDouble_product_example : toDouble ((4155013360092653 / 4503599627370496 : ℚ) * ((10000000 : Int) : ℚ))
    = 9225983 := by
  rw [toDouble_of_bounds _ 23 (by norm_num [abs_of_pos]) (by norm_num [abs_of_pos])
    (by norm_num)]
  rw [rint_eq_of_abs_lt _ 4953161907306496 (by norm_num [abs_lt])]
  norm_num

/-- The two roundings at the seed `1981264762` and the span `10000000`: the floor is
`9225983`, one more than the floor `9225982` of the exact product. -/
theorem scaledFloor_example : scaledFloor 1981264762 (10000000 - 1 + 1) = 9225983 := by
  unfold scaledFloor
  have h7 : ((10000000 - 1 + 1 : Int) : ℚ) = ((10000000 : Int) : ℚ) := by norm_num
  have h8 : ((1981264762 : Int) : ℚ) = (1981264762 : ℚ) := by norm_num
  rw [h7, h8, toDouble_quotient_example, toDouble_product_example]
  norm_num

theorem toDouble_quotient_example2 : toDouble ((282475249 : ℚ) / 2147483647)
    = 2369574134666811 / 18014398509481984 := by
  rw [toDouble_of_bounds _ (-3) (by norm_num [abs_of_pos]) (by norm_num [abs_of_pos])
    (by norm_num)]
  rw [rint_eq_of_abs_lt _ 4739148269333622 (by norm_num [abs_lt])]
  norm_num

/-- The bounds `[0, 2147483647]`, whose span `high - low + 1` is not representable: the
`int` span wraps to `INT_MIN`, the scaled draw is negative and the range assertion fails
(seed `16807`, which the draw turns into `282475249`). -/
theorem unifSupplied_full_range_aborts :
    wrapInt (wrapInt (2147483647 - 0) + 1) = INT_MIN ∧
      unifSupplied (RNG.mk 16807 0 0) 0 2147483647 = none := by
  have hw : wrapInt (wrapInt (2147483647 - 0) + 1) = -2147483648 := by decide
  refine ⟨hw, ?_⟩
  have hu := unifZeroOne_eq (RNG.mk 16807 0 0) (by decide) (by decide)
  have hs : seedUpdate (RNG.mk 16807 0 0).seed = 282475249 := by decide
  rw [hs] at hu
  have h8 : ((282475249 : Int) : ℚ) = (282475249 : ℚ) := by norm_num
  rw [h8] at hu
  have hp : toDouble ((2369574134666811 / 18014398509481984 : ℚ) * ((-2147483648 : Int) : ℚ))
      = -2369574134666811 / 8388608 := by
    have h := toDouble_exact (-2369574134666811) (-23) (by norm_num) (by norm_num)
    have e : ((-2369574134666811 : Int) : ℚ) * (2 : ℚ) ^ (-23 : Int)
        = (2369574134666811 / 18014398509481984 : ℚ) * ((-2147483648 : Int) : ℚ) := by
      norm_num
    rw [e] at h
    rw [h]
    norm_num
  have hf : Int.floor (-2369574134666811 / 8388608 : ℚ) = -282475250 := by
    rw [Int.floor_eq_iff]
    constructor <;> norm_num
  unfold unifSupplied
  rw [if_pos (by decide), hu]
  dsimp only
  rw [hw, toDouble_quotient_example2, hp, hf]
  decide

/-! ## Theorems on `unifSupplied` -/

/-- C4, counterexample: from the seed `320189671` the draw leaves the seed `1981264762`,
and `unifSupplied(1, 10000000)` returns `9225984`: the quotient `1981264762/2147483647`
rounds to the `double` `4155013360092653/2^52`, whose product with `10000000` rounds up to
`9225983.0`. The floor of the exact product `1981264762*10000000/2147483647` is `9225982`,
which would give `9225983`. -/
theorem unifSupplied_not_exact_floor :
    (1 : Int) ≤ 10000000 ∧ (10000000 : Int) - 1 + 1 ≤ INT_MAX ∧
      seedUpdate 320189671 = 1981264762 ∧
      unifSupplied (RNG.mk 320189671 0 0) 1 10000000
        = some (9225984, RNG.mk 1981264762 0 0) ∧
      (1 : Int) + 1981264762 * (10000000 - 1 + 1) / 2147483647 = 9225983 := by
  have hs : seedUpdate 320189671 = 1981264762 := by decide
  have hk := scaledFloor_example
  refine ⟨by decide, by decide, hs, ?_, by decide⟩
  rw [unifSupplied_eq (RNG.mk 320189671 0 0) 1 10000000 (by decide) (by decide) (by decide)
    (by decide) (by decide) (by decide)]
  show some ((1 : Int) + scaledFloor (seedUpdate 320189671) (10000000 - 1 + 1),
    RNG.mk (seedUpdate 320189671) 0 0) = _
  rw [hs, hk]
  rfl

/-- C4, amended: for `int` arguments `low ≤ high` with `high - low + 1` representable and a
seed in `[1, 2147483646]`, `unifSupplied(low, high)` leaves the state that one call of
`unifZeroOne` leaves and returns `low + floor(fl(fl(newSeed/2147483647) * (high-low+1)))`
for the new seed `newSeed`, where `fl` rounds to the nearest `double`; the value returned
lies in `[low, high]`; and when `high - low + 1 ≤ 2^21` it equals
`low + floor(newSeed * (high - low + 1) / 2147483647)`. -/
theorem unifSupplied_value (st : RNG) (low high : Int) (hlo : INT_MIN ≤ low)
    (hlh : low ≤ high) (hhi : high ≤ INT_MAX) (hrep : high - low + 1 ≤ INT_MAX)
    (h1 : 1 ≤ st.seed) (h2 : st.seed ≤ 2147483646) :
    unifZeroOne st =
        some ((seedUpdate st.seed : ℚ) / 2147483647, { st with seed := seedUpdate st.seed }) ∧
      unifSupplied st low high =
        some (low + scaledFloor (seedUpdate st.seed) (high - low + 1),
          { st with seed := seedUpdate st.seed }) ∧
      scaledFloor (seedUpdate st.seed) (high - low + 1) =
        Int.floor (toDouble (toDouble ((seedUpdate st.seed : ℚ) / 2147483647)
          * ((high - low + 1 : Int) : ℚ))) ∧
      low ≤ low + scaledFloor (seedUpdate st.seed) (high - low + 1) ∧
      low + scaledFloor (seedUpdate st.seed) (high - low + 1) ≤ high ∧
      (high - low + 1 ≤ 2097152 →
        scaledFloor (seedUpdate st.seed) (high - low + 1)
          = seedUpdate st.seed * (high - low + 1) / 2147483647) := by
  have hu := unifZeroOne_eq st (by omega) (by omega)
  obtain ⟨ha, hb⟩ := seedUpdate_range st.seed (by omega) (by omega)
  obtain ⟨hk0, hk1⟩ := scaledFloor_range (seedUpdate st.seed) (high - low + 1) ha hb (by omega)
  refine ⟨hu, unifSupplied_eq st low high (by omega) (by omega) hlo hlh hhi hrep, rfl,
    by omega, by omega, ?_⟩
  intro hsmall
  exact scaledFloor_exact (seedUpdate st.seed) (high - low + 1) ha hb (by omega) hsmall

/-- Witness for C4: seed `1`, `low = 1`, `high = 6`; the new seed is `16807` and the
value returned is `1 + floor(16807*6/2147483647) = 1`. -/
theorem unifSupplied_value_witness :
    INT_MIN ≤ 1 ∧ (1 : Int) ≤ 6 ∧ (6 : Int) ≤ INT_MAX ∧ (6 : Int) - 1 + 1 ≤ INT_MAX ∧
      (1 : Int) ≤ (RNG.mk 1 0 0).seed ∧ (RNG.mk 1 0 0).seed ≤ 2147483646 ∧
      unifSupplied (RNG.mk 1 0 0) 1 6 =
        some (1 + scaledFloor (seedUpdate (RNG.mk 1 0 0).seed) (6 - 1 + 1),
          { RNG.mk 1 0 0 with seed := seedUpdate (RNG.mk 1 0 0).seed }) ∧
      ((6 : Int) - 1 + 1 ≤ 2097152 →
        scaledFloor (seedUpdate (RNG.mk 1 0 0).seed) (6 - 1 + 1)
          = seedUpdate (RNG.mk 1 0 0).seed * (6 - 1 + 1) / 2147483647) ∧
      seedUpdate (RNG.mk 1 0 0).seed = 16807 ∧
      (1 : Int) + 16807 * (6 - 1 + 1) / 2147483647 = 1 :=
  ⟨by decide, by decide, by decide, by decide, by decide, by decide,
    (unifSupplied_value (RNG.mk 1 0 0) 1 6 (by decide) (by decide) (by decide) (by decide)
      (by decide) (by decide)).2.1,
    (unifSupplied_value (RNG.mk 1 0 0) 1 6 (by decide) (by decide) (by decide) (by decide)
      (by decide) (by decide)).2.2.2.2.2,
    by decide, by decide⟩

/-! ## Lemmas on `normal` -/

theorem unifZeroOne_some (st : RNG) (u : ℚ) (st2 : RNG) (h : unifZeroOne st = some (u, st2)) :
    u = (seedUpdate st.seed : ℚ) / 2147483647 ∧ st2 = { st with seed := seedUpdate st.seed } ∧
      0 ≤ u ∧ u < 1 := by
  unfold unifZeroOne at h
  dsimp only at h
  split_ifs at h with hc
  injection h with h
  injection h with hu hst
  subst hu
  exact ⟨rfl, hst.symm, hc.1, hc.2⟩

theorem pairRadius_succ (seed : Int) (k : Nat) :
    pairRadius seed (k + 1) = pairRadius (seedUpdate (seedUpdate seed)) k := by
  unfold pairRadius
  have e1 : seedUpdate^[2 * (k + 1) + 1] seed = seedUpdate^[2 * k + 1] (seedUpdate (seedUpdate seed)) := by
    rw [show 2 * (k + 1) + 1 = (2 * k + 1) + 2 by ring, Function.iterate_add_apply]
    rfl
  have e2 : seedUpdate^[2 * (k + 1) + 2] seed = seedUpdate^[2 * k + 2] (seedUpdate (seedUpdate seed)) := by
    rw [show 2 * (k + 1) + 2 = (2 * k + 2) + 2 by ring, Function.iterate_add_apply]
    rfl
  rw [e1, e2]

theorem pairRadius_zero (seed : Int) :
    pairRadius seed 0 =
      (2 * ((seedUpdate seed : Int) / 2147483647 : ℚ) - 1) *
          (2 * ((seedUpdate seed : Int) / 2147483647 : ℚ) - 1) +
        (2 * ((seedUpdate (seedUpdate seed) : Int) / 2147483647 : ℚ) - 1) *
          (2 * ((seedUpdate (seedUpdate seed) : Int) / 2147483647 : ℚ) - 1) := rfl

theorem normalPair_some (fuel : Nat) : ∀ (st : RNG) (v1 v2 r : ℚ) (st2 : RNG),
    normalPair fuel st = some (v1, v2, r, st2) →
    ∃ n : Nat, n < fuel ∧
      st2 = { st with seed := seedUpdate^[2 * n + 2] st.seed } ∧
      v1 = 2 * ((seedUpdate^[2 * n + 1] st.seed : Int) / 2147483647 : ℚ) - 1 ∧
      v2 = 2 * ((seedUpdate^[2 * n + 2] st.seed : Int) / 2147483647 : ℚ) - 1 ∧
      r = v1 * v1 + v2 * v2 ∧ r < 1 ∧ ∀ k, k < n → pairRadius st.seed k ≥ 1 := by
  induction fuel with
  | zero =>
    intro st v1 v2 r st2 h
    simp [normalPair] at h
  | succ fuel ih =>
    intro st v1 v2 r st2 h
    unfold normalPair at h
    cases h1 : unifZeroOne st with
    | none => rw [h1] at h; simp at h
    | some p1 =>
      obtain ⟨u1, s1⟩ := p1
      rw [h1] at h
      dsimp only at h
      cases h2 : unifZeroOne s1 with
      | none => rw [h2] at h; simp at h
      | some p2 =>
        obtain ⟨u2, s2⟩ := p2
        rw [h2] at h
        dsimp only at h
        obtain ⟨hu1, hs1, _, _⟩ := unifZeroOne_some st u1 s1 h1
        obtain ⟨hu2, hs2, _, _⟩ := unifZeroOne_some s1 u2 s2 h2
        have hseed1 : s1.seed = seedUpdate st.seed := by rw [hs1]
        have hseed2 : s2.seed = seedUpdate (seedUpdate st.seed) := by rw [hs2, hseed1]
        have hs2' : s2 = { st with seed := seedUpdate (seedUpdate st.seed) } := by
          rw [hs2, hs1]
        have hr0 : (2 * u1 - 1) * (2 * u1 - 1) + (2 * u2 - 1) * (2 * u2 - 1)
            = pairRadius st.seed 0 := by
          rw [pairRadius_zero, hu1, hu2, hseed1]
        split_ifs at h with hge
        · obtain ⟨n, hn, e1, e2, e3, e4, e5, e6⟩ := ih s2 v1 v2 r st2 h
          refine ⟨n + 1, by omega, ?_, ?_, ?_, e4, e5, ?_⟩
          · rw [e1, hs2']
            have : seedUpdate^[2 * (n + 1) + 2] st.seed
                = seedUpdate^[2 * n + 2] (seedUpdate (seedUpdate st.seed)) := by
              rw [show 2 * (n + 1) + 2 = (2 * n + 2) + 2 by ring, Function.iterate_add_apply]
              rfl
            rw [this]
          · rw [e2, hseed2]
            have : seedUpdate^[2 * (n + 1) + 1] st.seed
                = seedUpdate^[2 * n + 1] (seedUpdate (seedUpdate st.seed)) := by
              rw [show 2 * (n + 1) + 1 = (2 * n + 1) + 2 by ring, Function.iterate_add_apply]
              rfl
            rw [this]
          · rw [e3, hseed2]
            have : seedUpdate^[2 * (n + 1) + 2] st.seed
                = seedUpdate^[2 * n + 2] (seedUpdate (seedUpdate st.seed)) := by
              rw [show 2 * (n + 1) + 2 = (2 * n + 2) + 2 by ring, Function.iterate_add_apply]
              rfl
            rw [this]
          · intro k hk
            cases k with
            | zero => rw [← hr0]; exact hge
            | succ k =>
              rw [pairRadius_succ, ← hseed2]
              exact e6 k (by omega)
        · injection h with h
          injection h with hv1 h
          injection h with hv2 h
          injection h with hr hst
          refine ⟨0, by omega, ?_, ?_, ?_, ?_, ?_, ?_⟩
          · rw [← hst, hs2']
            rfl
          · rw [← hv1, hu1]
            rfl
          · rw [← hv2, hu2, hseed1]
            rfl
          · rw [← hr, ← hv1, ← hv2]
          · rw [← hr]
            exact not_le.mp hge
          · intro k hk
            omega

theorem normalPair_returns (fuel : Nat) : ∀ (st : RNG) (n : Nat),
    0 ≤ st.seed → st.seed < 2147483647 → n < fuel → pairRadius st.seed n < 1 →
    ∃ res, normalPair fuel st = some res := by
  induction fuel with
  | zero => intro st n _ _ hn _; omega
  | succ fuel ih =>
    intro st n h0 h1 hn hr
    unfold normalPair
    have hu1 := unifZeroOne_eq st h0 (by omega)
    obtain ⟨ha0, ha1⟩ := seedUpdate_range st.seed h0 (by omega)
    have hu2 := unifZeroOne_eq { st with seed := seedUpdate st.seed } ha0 (by show seedUpdate st.seed ≤ _; omega)
    obtain ⟨hb0, hb1⟩ := seedUpdate_range (seedUpdate st.seed) ha0 (by omega)
    rw [hu1]
    dsimp only
    rw [hu2]
    dsimp only
    split_ifs with hge
    · cases n with
      | zero =>
        rw [pairRadius_zero] at hr
        exact absurd hge (not_le.mpr hr)
      | succ n =>
        rw [pairRadius_succ] at hr
        exact ih _ n hb0 hb1 (by omega) hr
    · exact ⟨_, rfl⟩

theorem exists_accepted_pair (seed : Int) (h0 : 1 ≤ seed) (h1 : seed ≤ 2147483646) :
    ∃ n : Nat, n < 2147483646 ∧ pairRadius seed n < 1 := by
  obtain ⟨n0, hn0, hval⟩ := seedUpdate_reaches seed 16807 h0 h1 (by norm_num) (by norm_num)
  have e1 : seedUpdate 16807 = 282475249 := by decide
  have e2 : seedUpdate 282475249 = 1622650073 := by decide
  have e3 : seedUpdate 1622650073 = 984943658 := by decide
  rcases Nat.even_or_odd' n0 with ⟨j, hj | hj⟩
  · refine ⟨j, by omega, ?_⟩
    unfold pairRadius
    rw [show 2 * j + 2 = (2 * j + 1) + 1 by ring, Function.iterate_succ_apply' seedUpdate (2 * j + 1),
      Function.iterate_succ_apply' seedUpdate (2 * j), ← hj, hval, e1, e2]
    norm_num
  · refine ⟨j + 1, by omega, ?_⟩
    unfold pairRadius
    rw [show 2 * (j + 1) + 2 = (2 * j + 1 + 2) + 1 by ring,
      show 2 * (j + 1) + 1 = (2 * j + 1 + 1) + 1 by ring,
      Function.iterate_succ_apply' seedUpdate (2 * j + 1 + 2),
      Function.iterate_succ_apply' seedUpdate (2 * j + 1 + 1),
      Function.iterate_succ_apply' seedUpdate (2 * j + 1), ← hj, hval, e1, e2, e3]
    norm_num

theorem normal_flag_set (fac : ℚ → ℚ) (fuel : Nat) (st : RNG) (mean stdDev : ℚ)
    (h : st.iset ≠ 0) :
    normal fac fuel st mean stdDev = some (st.gset * stdDev + mean, { st with iset := 0 }) := by
  unfold normal
  rw [if_neg h]

theorem normal_flag_clear_returns (fac : ℚ → ℚ) (st : RNG) (mean stdDev : ℚ)
    (hi : st.iset = 0) (h0 : 1 ≤ st.seed) (h1 : st.seed ≤ 2147483646) (fuel : Nat)
    (hf : 2147483646 ≤ fuel) : ∃ x st2, normal fac fuel st mean stdDev = some (x, st2) := by
  obtain ⟨n, hn, hr⟩ := exists_accepted_pair st.seed h0 h1
  obtain ⟨res, hres⟩ := normalPair_returns fuel st n (by omega) (by omega) (by omega) hr
  obtain ⟨v1, v2, r, s2⟩ := res
  unfold normal
  rw [if_pos hi, hres]
  exact ⟨_, _, rfl⟩

/-! ## Theorems on `normal` -/

/-- C20: the two modes of `normal`. A call made with the flag `iset` set draws nothing: it
returns `gset*stdDev+mean` for its own `mean` and `stdDev`, leaves the seed unchanged and
clears the flag. A call made with the flag clear that returns has drawn pairs of uniform
values until the first pair with `r < 1` (all pairs before it had `r ≥ 1`), returns
`v2*fac*stdDev+mean`, stores the spare deviate `v1*fac` in `gset` and sets the flag, so the
call that follows it returns `v1*fac` times its own `stdDev` plus its own `mean` without
changing the seed, and clears the flag. For a seed in `[1, 2147483646]` the call with the
flag clear does return, for every bound of at least `2147483646` rounds on the loop. -/
theorem normal_pairing (fac : ℚ → ℚ) (st : RNG) (mean stdDev : ℚ) :
    (st.iset ≠ 0 → ∀ fuel : Nat,
      normal fac fuel st mean stdDev =
        some (st.gset * stdDev + mean, { st with iset := 0 })) ∧
    (st.iset = 0 → ∀ (fuel : Nat) (x : ℚ) (st2 : RNG),
      normal fac fuel st mean stdDev = some (x, st2) →
      ∃ (n : Nat) (v1 v2 r : ℚ),
        v1 = 2 * ((seedUpdate^[2 * n + 1] st.seed : Int) / 2147483647 : ℚ) - 1 ∧
        v2 = 2 * ((seedUpdate^[2 * n + 2] st.seed : Int) / 2147483647 : ℚ) - 1 ∧
        r = v1 * v1 + v2 * v2 ∧ r < 1 ∧ (∀ k, k < n → pairRadius st.seed k ≥ 1) ∧
        x = (v2 * fac r) * stdDev + mean ∧
        st2 = { seed := seedUpdate^[2 * n + 2] st.seed, iset := 1, gset := v1 * fac r } ∧
        ∀ (fuel2 : Nat) (mean2 stdDev2 : ℚ),
          normal fac fuel2 st2 mean2 stdDev2 =
            some ((v1 * fac r) * stdDev2 + mean2,
              { seed := st2.seed, iset := 0, gset := st2.gset })) ∧
    (st.iset = 0 → 1 ≤ st.seed → st.seed ≤ 2147483646 → ∀ fuel : Nat, 2147483646 ≤ fuel →
      ∃ x st2, normal fac fuel st mean stdDev = some (x, st2)) := by
  refine ⟨fun h fuel => normal_flag_set fac fuel st mean stdDev h, ?_,
    fun hi h0 h1 fuel hf => normal_flag_clear_returns fac st mean stdDev hi h0 h1 fuel hf⟩
  intro hi fuel x st2 h
  unfold normal at h
  rw [if_pos hi] at h
  cases hp : normalPair fuel st with
  | none => rw [hp] at h; simp at h
  | some res =>
    obtain ⟨v1, v2, r, s2⟩ := res
    rw [hp] at h
    dsimp only at h
    injection h with h
    injection h with hx hst
    obtain ⟨n, _, e1, e2, e3, e4, e5, e6⟩ := normalPair_some fuel st v1 v2 r s2 hp
    have hst2 : st2 = { seed := seedUpdate^[2 * n + 2] st.seed, iset := 1, gset := v1 * fac r } := by
      rw [← hst, e1]
    refine ⟨n, v1, v2, r, e2, e3, e4, e5, e6, hx.symm, hst2, ?_⟩
    intro fuel2 mean2 stdDev2
    rw [normal_flag_set fac fuel2 st2 mean2 stdDev2 (by rw [hst2]; exact one_ne_zero)]
    rw [hst2]

/-- An instance of C20: from the state with seed `1` and the flag clear, `normal(0, 1)`
returns when the loop is allowed `2147483646` rounds, and the call that follows returns
the cached deviate of a state with the flag set, here `1/2` scaled by `3` and shifted
by `4`. -/
theorem normal_pairing_witness :
    (∃ x st2, normal (fun r => r) 2147483646 (RNG.mk 1 0 0) 0 1 = some (x, st2)) ∧
      normal (fun r => r) 0 (RNG.mk 984943658 1 (1 / 2)) 4 3 =
        some (1 / 2 * 3 + 4, { RNG.mk 984943658 1 (1 / 2) with iset := 0 }) :=
  ⟨(normal_pairing (fun r => r) (RNG.mk 1 0 0) 0 1).2.2 rfl (by decide) (by decide)
      2147483646 (le_refl _),
    (normal_pairing (fun r => r) (RNG.mk 984943658 1 (1 / 2)) 4 3).1 (by decide) 0⟩


/-! ## Lemmas on the loops of the generators -/

theorem forLoopOpt_succ {σ : Type} (n : Nat) (body : Nat → σ → Option σ) (s : σ) :
    forLoopOpt (n + 1) body s =
      match forLoopOpt n body s with
      | none => none
      | some s => body n s := rfl

theorem forLoopOpt_succ_some {σ : Type} (n : Nat) (body : Nat → σ → Option σ) (s r : σ)
    (h : forLoopOpt (n + 1) body s = some r) :
    ∃ mid, forLoopOpt n body s = some mid ∧ body n mid = some r := by
  rw [forLoopOpt_succ] at h
  cases hm : forLoopOpt n body s with
  | none => rw [hm] at h; simp at h
  | some mid => rw [hm] at h; exact ⟨mid, rfl, h⟩

/-- A loop whose rounds all keep an invariant and cannot abort under it returns, and its
result satisfies the invariant. -/
theorem forLoopOpt_returns {σ : Type} (P : σ → Prop) (n : Nat) (body : Nat → σ → Option σ)
    (s : σ) (h0 : P s) (hstep : ∀ i x, i < n → P x → ∃ y, body i x = some y ∧ P y) :
    ∃ r, forLoopOpt n body s = some r ∧ P r := by
  induction n with
  | zero => exact ⟨s, rfl, h0⟩
  | succ n ih =>
    obtain ⟨mid, hm, hP⟩ := ih (fun i x hi hx => hstep i x (by omega) hx)
    obtain ⟨y, hy, hPy⟩ := hstep n mid (by omega) hP
    exact ⟨y, by rw [forLoopOpt_succ, hm]; exact hy, hPy⟩

theorem unifSupplied_some (st : RNG) (low high x : Int) (st2 : RNG)
    (h : unifSupplied st low high = some (x, st2)) :
    low ≤ high ∧ low ≤ x ∧ x ≤ high := by
  unfold unifSupplied at h
  split_ifs at h with hlh
  cases hu : unifZeroOne st with
  | none => rw [hu] at h; simp at h
  | some p =>
    obtain ⟨u, s1⟩ := p
    rw [hu] at h
    dsimp only at h
    split_ifs at h with hc
    injection h with h
    injection h with hx _
    rw [← hx]
    exact ⟨hlh, hc.1, hc.2⟩

theorem fillRow_some (nJ : Nat) (i : Nat)
    (cell : Nat → Matrix × RNG → Option (Matrix × RNG)) (Q : Nat → Int → Prop)
    (hcell : ∀ j p q, cell j p = some q → ∃ x, q.1 = setCell p.1 i j x ∧ Q j x)
    (p q : Matrix × RNG) (h : forLoopOpt nJ cell p = some q) :
    (∀ j, j < nJ → Q j (q.1 i j)) ∧ (∀ a b, a ≠ i → q.1 a b = p.1 a b) := by
  induction nJ generalizing q with
  | zero =>
    have : q = p := by
      have h2 : some p = some q := h
      injection h2 with h2
      exact h2.symm
    subst this
    exact ⟨fun j hj => absurd hj (Nat.not_lt_zero j), fun _ _ _ => rfl⟩
  | succ n ih =>
    obtain ⟨mid, hm, hb⟩ := forLoopOpt_succ_some _ _ _ _ h
    obtain ⟨ih1, ih2⟩ := ih mid hm
    obtain ⟨x, hq, hQ⟩ := hcell n mid q hb
    constructor
    · intro j hj
      rw [hq]
      by_cases hjn : j = n
      · subst hjn
        have : setCell mid.1 i j x i j = x := by
          unfold setCell
          rw [if_pos ⟨rfl, rfl⟩]
        rw [this]
        exact hQ
      · rw [setCell_other _ _ _ _ _ _ (by rintro ⟨_, h2⟩; exact hjn h2)]
        exact ih1 j (by omega)
    · intro a b ha
      rw [hq, setCell_other _ _ _ _ _ _ (by rintro ⟨h2, _⟩; exact ha h2)]
      exact ih2 a b ha

theorem fillMatrix_some (nM nJ : Nat)
    (cell : Nat → Nat → Matrix × RNG → Option (Matrix × RNG)) (Q : Nat → Nat → Int → Prop)
    (hcell : ∀ i j p q, cell i j p = some q → ∃ x, q.1 = setCell p.1 i j x ∧ Q i j x)
    (p q : Matrix × RNG)
    (h : forLoopOpt nM (fun i p => forLoopOpt nJ (fun j p => cell i j p) p) p = some q) :
    ∀ i j, i < nM → j < nJ → Q i j (q.1 i j) := by
  induction nM generalizing q with
  | zero => intro i j hi; omega
  | succ n ih =>
    obtain ⟨mid, hm, hb⟩ := forLoopOpt_succ_some _ _ _ _ h
    obtain ⟨h1, h2⟩ := fillRow_some nJ n (fun j p => cell n j p) (Q n)
      (fun j p q hc => hcell n j p q hc) mid q hb
    intro i j hi hj
    by_cases hin : i = n
    · subst hin
      exact h1 j hj
    · rw [h2 i j hin]
      exact ih mid hm i j (by omega) hj

theorem fillMatrix_returns (P : RNG → Prop) (nM nJ : Nat)
    (cell : Nat → Nat → Matrix × RNG → Option (Matrix × RNG))
    (hcell : ∀ i j p, i < nM → j < nJ → P p.2 → ∃ q, cell i j p = some q ∧ P q.2)
    (p : Matrix × RNG) (h0 : P p.2) :
    ∃ q, forLoopOpt nM (fun i p => forLoopOpt nJ (fun j p => cell i j p) p) p = some q ∧
      P q.2 :=
  forLoopOpt_returns (fun p : Matrix × RNG => P p.2) nM _ p h0
    (fun i x hi hx =>
      forLoopOpt_returns (fun p : Matrix × RNG => P p.2) nJ _ x hx
        (fun j y hj hy => hcell i j y hi hj hy))

theorem drawMatrix_some (nM nJ : Nat) (low high : Nat → Nat → Int) (st : RNG) (F : Matrix)
    (F2 : Matrix) (st2 : RNG) (h : drawMatrix nM nJ low high st F = some (F2, st2)) :
    ∀ i j, i < nM → j < nJ → low i j ≤ F2 i j ∧ F2 i j ≤ high i j := by
  unfold drawMatrix at h
  refine fillMatrix_some nM nJ
    (fun i j p =>
      match unifSupplied p.2 (low i j) (high i j) with
      | none => none
      | some (x, st) => some (setCell p.1 i j x, st))
    (fun i j x => low i j ≤ x ∧ x ≤ high i j) ?_ (F, st) (F2, st2) h
  intro i j p q hc
  dsimp only at hc
  cases hu : unifSupplied p.2 (low i j) (high i j) with
  | none => rw [hu] at hc; simp at hc
  | some r =>
    obtain ⟨x, s2⟩ := r
    rw [hu] at hc
    dsimp only at hc
    injection hc with hc
    obtain ⟨_, hx1, hx2⟩ := unifSupplied_some _ _ _ _ _ hu
    exact ⟨x, by rw [← hc], hx1, hx2⟩

theorem drawMatrix_returns (nM nJ : Nat) (low high : Nat → Nat → Int) (st : RNG) (F : Matrix)
    (h0 : 0 ≤ st.seed) (h1 : st.seed < 2147483647)
    (hlh : ∀ i j, i < nM → j < nJ → INT_MIN ≤ low i j ∧ low i j ≤ high i j ∧
      high i j ≤ INT_MAX ∧ high i j - low i j + 1 ≤ INT_MAX) :
    ∃ F2 st2, drawMatrix nM nJ low high st F = some (F2, st2) ∧ 0 ≤ st2.seed ∧
      st2.seed < 2147483647 := by
  unfold drawMatrix
  obtain ⟨q, hq, hP⟩ := fillMatrix_returns
    (fun s : RNG => 0 ≤ s.seed ∧ s.seed < 2147483647) nM nJ
    (fun i j p =>
      match unifSupplied p.2 (low i j) (high i j) with
      | none => none
      | some (x, st) => some (setCell p.1 i j x, st))
    (by
      intro i j p hi hj hp
      obtain ⟨x, s2, hx, hs⟩ := unifSupplied_returns p.2 (low i j) (high i j) hp.1 hp.2
        (hlh i j hi hj).1 (hlh i j hi hj).2.1 (hlh i j hi hj).2.2.1 (hlh i j hi hj).2.2.2
      exact ⟨(setCell p.1 i j x, s2), by dsimp only; rw [hx], hs⟩)
    (F, st) ⟨h0, h1⟩
  exact ⟨q.1, q.2, hq, hP⟩

/-! ## Lemmas on the effective interval width -/

/-- The effective interval width when the width of the duration interval is representable
and the rounded product is in the range of `int`. -/
theorem effectiveIntervalWidth_eq (lb ub : Int) (alpha : ℚ) (_hlo : INT_MIN ≤ lb)
    (hb : lb ≤ ub) (_hhi : ub ≤ INT_MAX) (hw : ub - lb ≤ INT_MAX) (ha : 0 ≤ alpha)
    (hfit : rint (toDouble (alpha * ((ub - lb : Int) : ℚ))) ≤ INT_MAX) :
    effectiveIntervalWidth lb ub alpha = rint (toDouble (alpha * ((ub - lb : Int) : ℚ))) := by
  have hwq : (0 : ℚ) ≤ ((ub - lb : Int) : ℚ) := by exact_mod_cast (by omega : 0 ≤ ub - lb)
  have h0 : 0 ≤ rint (toDouble (alpha * ((ub - lb : Int) : ℚ))) :=
    rint_nonneg _ (toDouble_nonneg _ (mul_nonneg ha hwq))
  unfold effectiveIntervalWidth
  dsimp only
  rw [wrapInt_eq (ub - lb) (by unfold INT_MIN; omega) hw]
  apply toInt_eq _ _ hfit
  unfold INT_MIN
  omega

theorem toDouble_half_of_five : toDouble ((1 / 2 : ℚ) * ((5 : Int) : ℚ)) = 5 / 2 := by
  have h := toDouble_exact 5 (-1) (by norm_num) (by norm_num)
  have e : ((5 : Int) : ℚ) * (2 : ℚ) ^ (-1 : Int) = (1 / 2 : ℚ) * ((5 : Int) : ℚ) := by
    norm_num
  rw [e] at h
  rw [h]
  norm_num

theorem toDouble_seven_tenths_of_five :
    toDouble ((3152519739159347 / 4503599627370496 : ℚ) * ((5 : Int) : ℚ)) = 7 / 2 := by
  rw [toDouble_of_bounds _ 1 (by norm_num [abs_of_pos]) (by norm_num [abs_of_pos])
    (by norm_num)]
  have h : (3152519739159347 / 4503599627370496 : ℚ) * ((5 : Int) : ℚ)
      / (2 : ℚ) ^ ((1 : Int) - 52) = ((7881299347898367 : Int) : ℚ) + 1 / 2 := by
    norm_num
  rw [h, rint_tie]
  norm_num

theorem rint_five_halves : rint (5 / 2 : ℚ) = 2 := by
  have h := rint_tie 2
  norm_num at h
  exact h

theorem rint_seven_halves : rint (7 / 2 : ℚ) = 4 := by
  have h := rint_tie 3
  norm_num at h
  exact h

/-! ## Theorems on the effective interval width -/

/-- C17, counterexample: with `alpha = 0.5` and `durationUB - durationLB = 5` the product is
`2.5`, a `double`; `rint` gives the even neighbour `2`, and rounding half away from zero
gives `3`. -/
theorem effectiveIntervalWidth_not_half_away :
    effectiveIntervalWidth 0 5 (1 / 2) = 2 ∧
      roundHalfAway ((1 / 2 : ℚ) * ((5 - 0 : Int) : ℚ)) = 3 := by
  constructor
  · unfold effectiveIntervalWidth
    have hw : wrapInt (5 - 0) = 5 := by decide
    dsimp only
    rw [hw, toDouble_half_of_five, rint_five_halves]
    decide
  · unfold roundHalfAway
    norm_num

/-- C17, amended: for `int` bounds `durationLB ≤ durationUB` with a representable width,
`alpha ≥ 0` and a product `alpha*(durationUB-durationLB)` of at most `INT_MAX`,
`effectiveIntervalWidth` is `rint` of the `double` product `alpha*double(width)`, which is
the exact product rounded to the nearest `double`: it differs from the `double` product by
at most `1/2`, it is even when it differs from it by exactly `1/2`, and the `double`
product differs from the exact one by at most `2^-53` of it (plus `2^-1075`). -/
theorem effectiveIntervalWidth_nearest_even (durationLB durationUB : Int) (alpha : ℚ)
    (hlo : INT_MIN ≤ durationLB) (hb : durationLB ≤ durationUB)
    (hhi : durationUB ≤ INT_MAX) (hw : durationUB - durationLB ≤ INT_MAX) (ha : 0 ≤ alpha)
    (hp : alpha * ((durationUB - durationLB : Int) : ℚ) ≤ 2147483647) :
    effectiveIntervalWidth durationLB durationUB alpha
        = rint (toDouble (alpha * ((durationUB - durationLB : Int) : ℚ))) ∧
      |(effectiveIntervalWidth durationLB durationUB alpha : ℚ)
          - toDouble (alpha * ((durationUB - durationLB : Int) : ℚ))| ≤ 1 / 2 ∧
      (|(effectiveIntervalWidth durationLB durationUB alpha : ℚ)
            - toDouble (alpha * ((durationUB - durationLB : Int) : ℚ))| = 1 / 2 →
        Even (effectiveIntervalWidth durationLB durationUB alpha)) ∧
      |toDouble (alpha * ((durationUB - durationLB : Int) : ℚ))
          - alpha * ((durationUB - durationLB : Int) : ℚ)|
        ≤ |alpha * ((durationUB - durationLB : Int) : ℚ)| * (2 : ℚ) ^ (-53 : Int)
          + (2 : ℚ) ^ (-1075 : Int) := by
  have hwq : (0 : ℚ) ≤ ((durationUB - durationLB : Int) : ℚ) := by
    exact_mod_cast (by omega : 0 ≤ durationUB - durationLB)
  have hr := rint_toDouble_range _ 2147483647 (mul_nonneg ha hwq) (by exact_mod_cast hp)
    (le_refl _)
  have he := effectiveIntervalWidth_eq durationLB durationUB alpha hlo hb hhi hw ha hr.2
  have hn := rint_near (toDouble (alpha * ((durationUB - durationLB : Int) : ℚ)))
  rw [he]
  refine ⟨rfl, ?_, ?_, toDouble_abs_error _⟩
  · rw [abs_le]
    constructor <;> linarith [hn.1, hn.2]
  · intro h
    rw [Int.even_iff]
    apply rint_tie_even
    rcases abs_cases ((rint (toDouble (alpha * ((durationUB - durationLB : Int) : ℚ))) : ℚ)
        - toDouble (alpha * ((durationUB - durationLB : Int) : ℚ))) with ⟨h1, _⟩ | ⟨h1, _⟩
    · right
      rw [← h1]
      exact h
    · left
      rw [h1] at h
      linarith

/-- Witness for C17, amended: bounds `[0, 5]` and `alpha = 0.5` give `rint(2.5) = 2`. With
the `double` nearest to `0.7` for `alpha`, the exact product is below `3.5` and would round
to `3`, the `double` product is `3.5`, and the width is `rint(3.5) = 4`. -/
theorem effectiveIntervalWidth_nearest_even_witness :
    INT_MIN ≤ 0 ∧ (0 : Int) ≤ 5 ∧ (5 : Int) ≤ INT_MAX ∧ (5 : Int) - 0 ≤ INT_MAX ∧
      (0 : ℚ) ≤ 1 / 2 ∧ (1 / 2 : ℚ) * ((5 - 0 : Int) : ℚ) ≤ 2147483647 ∧
      effectiveIntervalWidth 0 5 (1 / 2)
        = rint (toDouble ((1 / 2 : ℚ) * ((5 - 0 : Int) : ℚ))) ∧
      effectiveIntervalWidth 0 5 (1 / 2) = 2 ∧
      effectiveIntervalWidth 0 5 (3152519739159347 / 4503599627370496) = 4 ∧
      rint ((3152519739159347 / 4503599627370496 : ℚ) * ((5 - 0 : Int) : ℚ)) = 3 :=
  ⟨by decide, by decide, by decide, by decide, by norm_num, by norm_num,
    (effectiveIntervalWidth_nearest_even 0 5 (1 / 2) (by decide) (by decide) (by decide)
      (by decide) (by norm_num) (by norm_num)).1,
    by
      unfold effectiveIntervalWidth
      have hw : wrapInt (5 - 0) = 5 := by decide
      dsimp only
      rw [hw, toDouble_half_of_five, rint_five_halves]
      decide,
    by
      unfold effectiveIntervalWidth
      have hw : wrapInt (5 - 0) = 5 := by decide
      dsimp only
      rw [hw, toDouble_seven_tenths_of_five, rint_seven_halves]
      decide,
    by
      apply rint_eq_of_abs_lt
      norm_num [abs_lt]⟩

/-! ## Lemmas on the validation of the generators -/

theorem generateJobCorrelatedFlowShop_cases (opts : OptionalParameters) (lb ub : Int)
    (nJ nM : Nat) (st : RNG) (F : Matrix) :
    ((opts.distHalfWidthLB.getD 1 > opts.distHalfWidthUB.getD 5 ∨
          opts.distHalfWidthLB.getD 1 ≤ 0 ∨ opts.distHalfWidthUB.getD 5 ≤ 0 ∨
          opts.alpha.getD (1 / 2) < 0) ∧
        generateJobCorrelatedFlowShop opts lb ub nJ nM st F = some (false, st, F)) ∨
      (¬ (opts.distHalfWidthLB.getD 1 > opts.distHalfWidthUB.getD 5 ∨
          opts.distHalfWidthLB.getD 1 ≤ 0 ∨ opts.distHalfWidthUB.getD 5 ≤ 0 ∨
          opts.alpha.getD (1 / 2) < 0) ∧
        (generateJobCorrelatedFlowShop opts lb ub nJ nM st F = none ∨
          ∃ st2 F2, generateJobCorrelatedFlowShop opts lb ub nJ nM st F
            = some (true, st2, F2))) := by
  unfold generateJobCorrelatedFlowShop
  dsimp only
  split_ifs with h1 h2
  · left
    refine ⟨?_, rfl⟩
    rcases h1 with h | h | h
    · exact Or.inl h
    · exact Or.inr (Or.inl h)
    · exact Or.inr (Or.inr (Or.inl h))
  · left
    exact ⟨Or.inr (Or.inr (Or.inr h2)), rfl⟩
  · right
    constructor
    · rintro (h | h | h | h)
      · exact h1 (Or.inl h)
      · exact h1 (Or.inr (Or.inl h))
      · exact h1 (Or.inr (Or.inr h))
      · exact h2 h
    · split
      · exact Or.inl rfl
      · split
        · exact Or.inl rfl
        · split
          · exact Or.inl rfl
          · split
            · exact Or.inl rfl
            · exact Or.inr ⟨_, _, rfl⟩

theorem generateMachineCorrelatedFlowShop_cases (opts : OptionalParameters) (lb ub : Int)
    (nJ nM : Nat) (st : RNG) (F : Matrix) :
    ((opts.distHalfWidthLB.getD 1 > opts.distHalfWidthUB.getD 5 ∨
          opts.distHalfWidthLB.getD 1 ≤ 0 ∨ opts.distHalfWidthUB.getD 5 ≤ 0 ∨
          opts.alpha.getD (1 / 2) < 0) ∧
        generateMachineCorrelatedFlowShop opts lb ub nJ nM st F = some (false, st, F)) ∨
      (¬ (opts.distHalfWidthLB.getD 1 > opts.distHalfWidthUB.getD 5 ∨
          opts.distHalfWidthLB.getD 1 ≤ 0 ∨ opts.distHalfWidthUB.getD 5 ≤ 0 ∨
          opts.alpha.getD (1 / 2) < 0) ∧
        (generateMachineCorrelatedFlowShop opts lb ub nJ nM st F = none ∨
          ∃ st2 F2, generateMachineCorrelatedFlowShop opts lb ub nJ nM st F
            = some (true, st2, F2))) := by
  unfold generateMachineCorrelatedFlowShop
  dsimp only
  split_ifs with h1 h2
  · left
    refine ⟨?_, rfl⟩
    rcases h1 with h | h | h
    · exact Or.inl h
    · exact Or.inr (Or.inl h)
    · exact Or.inr (Or.inr (Or.inl h))
  · left
    exact ⟨Or.inr (Or.inr (Or.inr h2)), rfl⟩
  · right
    constructor
    · rintro (h | h | h | h)
      · exact h1 (Or.inl h)
      · exact h1 (Or.inr (Or.inl h))
      · exact h1 (Or.inr (Or.inr h))
      · exact h2 h
    · split
      · exact Or.inl rfl
      · split
        · exact Or.inl rfl
        · split
          · exact Or.inl rfl
          · split
            · exact Or.inl rfl
            · exact Or.inr ⟨_, _, rfl⟩

theorem generateMixedCorrelatedFlowShop_cases (opts : OptionalParameters) (lb ub : Int)
    (nJ nM : Nat) (st : RNG) (F : Matrix) :
    ((opts.distHalfWidthLB.getD 1 > opts.distHalfWidthUB.getD 5 ∨
          opts.distHalfWidthLB.getD 1 ≤ 0 ∨ opts.distHalfWidthUB.getD 5 ≤ 0 ∨
          opts.alpha.getD (1 / 2) < 0 ∨ opts.durationNoise.getD 0 < 0) ∧
        generateMixedCorrelatedFlowShop opts lb ub nJ nM st F = some (false, st, F)) ∨
      (¬ (opts.distHalfWidthLB.getD 1 > opts.distHalfWidthUB.getD 5 ∨
          opts.distHalfWidthLB.getD 1 ≤ 0 ∨ opts.distHalfWidthUB.getD 5 ≤ 0 ∨
          opts.alpha.getD (1 / 2) < 0 ∨ opts.durationNoise.getD 0 < 0) ∧
        (generateMixedCorrelatedFlowShop opts lb ub nJ nM st F = none ∨
          ∃ st2 F2, generateMixedCorrelatedFlowShop opts lb ub nJ nM st F
            = some (true, st2, F2))) := by
  unfold generateMixedCorrelatedFlowShop
  dsimp only
  split_ifs with h1 h2 h3
  · left
    refine ⟨?_, rfl⟩
    rcases h1 with h | h | h
    · exact Or.inl h
    · exact Or.inr (Or.inl h)
    · exact Or.inr (Or.inr (Or.inl h))
  · left
    exact ⟨Or.inr (Or.inr (Or.inr (Or.inl h2))), rfl⟩
  · left
    exact ⟨Or.inr (Or.inr (Or.inr (Or.inr h3))), rfl⟩
  · right
    constructor
    · rintro (h | h | h | h | h)
      · exact h1 (Or.inl h)
      · exact h1 (Or.inr (Or.inl h))
      · exact h1 (Or.inr (Or.inr h))
      · exact h2 h
      · exact h3 h
    · split
      · exact Or.inl rfl
      · split
        · exact Or.inl rfl
        · split
          · exact Or.inl rfl
          · split
            · exact Or.inl rfl
            · split
              · exact Or.inl rfl
              · exact Or.inr ⟨_, _, rfl⟩

theorem failure_iff_of_cases (G : Option (Bool × RNG × Matrix)) (cond : Prop) (st : RNG)
    (F : Matrix)
    (h : (cond ∧ G = some (false, st, F)) ∨
      (¬ cond ∧ (G = none ∨ ∃ st2 F2, G = some (true, st2, F2)))) :
    ((∃ st2 F2, G = some (false, st2, F2)) ↔ cond) ∧
      ∀ st2 F2, G = some (false, st2, F2) → st2 = st ∧ F2 = F := by
  rcases h with ⟨hc, hG⟩ | ⟨hc, hG | ⟨s3, F3, hG⟩⟩
  · refine ⟨⟨fun _ => hc, fun _ => ⟨st, F, hG⟩⟩, ?_⟩
    intro st2 F2 h2
    rw [hG] at h2
    injection h2 with h2
    injection h2 with _ h2
    injection h2 with h3 h4
    exact ⟨h3.symm, h4.symm⟩
  · refine ⟨⟨?_, fun h2 => absurd h2 hc⟩, ?_⟩
    · rintro ⟨st2, F2, h2⟩
      rw [hG] at h2
      simp at h2
    · intro st2 F2 h2
      rw [hG] at h2
      simp at h2
  · refine ⟨⟨?_, fun h2 => absurd h2 hc⟩, ?_⟩
    · rintro ⟨st2, F2, h2⟩
      rw [hG] at h2
      simp at h2
    · intro st2 F2 h2
      rw [hG] at h2
      simp at h2

/-! ## Theorems on the validation of the generators -/

/-- C15: each correlated generator returns `false` exactly when
`distHalfWidthLB > distHalfWidthUB`, or `distHalfWidthLB ≤ 0`, or `distHalfWidthUB ≤ 0`, or
`alpha < 0`, or (for the mixed-correlated generator only) `durationNoise < 0`, the values
being the options given or else the defaults `1`, `5`, `0.5` and `0`; and when it returns
`false` the state of the random number generators and the matrix are the ones on entry. -/
theorem generators_failure_iff (opts : OptionalParameters) (durationLB durationUB : Int)
    (numJobs numMachines : Nat) (st : RNG) (FSP : Matrix) :
    (((∃ st2 F2, generateJobCorrelatedFlowShop opts durationLB durationUB numJobs numMachines
            st FSP = some (false, st2, F2)) ↔
        (opts.distHalfWidthLB.getD 1 > opts.distHalfWidthUB.getD 5 ∨
          opts.distHalfWidthLB.getD 1 ≤ 0 ∨ opts.distHalfWidthUB.getD 5 ≤ 0 ∨
          opts.alpha.getD (1 / 2) < 0)) ∧
      ∀ st2 F2, generateJobCorrelatedFlowShop opts durationLB durationUB numJobs numMachines
          st FSP = some (false, st2, F2) → st2 = st ∧ F2 = FSP) ∧
    (((∃ st2 F2, generateMachineCorrelatedFlowShop opts durationLB durationUB numJobs
            numMachines st FSP = some (false, st2, F2)) ↔
        (opts.distHalfWidthLB.getD 1 > opts.distHalfWidthUB.getD 5 ∨
          opts.distHalfWidthLB.getD 1 ≤ 0 ∨ opts.distHalfWidthUB.getD 5 ≤ 0 ∨
          opts.alpha.getD (1 / 2) < 0)) ∧
      ∀ st2 F2, generateMachineCorrelatedFlowShop opts durationLB durationUB numJobs
          numMachines st FSP = some (false, st2, F2) → st2 = st ∧ F2 = FSP) ∧
    (((∃ st2 F2, generateMixedCorrelatedFlowShop opts durationLB durationUB numJobs
            numMachines st FSP = some (false, st2, F2)) ↔
        (opts.distHalfWidthLB.getD 1 > opts.distHalfWidthUB.getD 5 ∨
          opts.distHalfWidthLB.getD 1 ≤ 0 ∨ opts.distHalfWidthUB.getD 5 ≤ 0 ∨
          opts.alpha.getD (1 / 2) < 0 ∨ opts.durationNoise.getD 0 < 0)) ∧
      ∀ st2 F2, generateMixedCorrelatedFlowShop opts durationLB durationUB numJobs
          numMachines st FSP = some (false, st2, F2) → st2 = st ∧ F2 = FSP) :=
  ⟨failure_iff_of_cases _ _ st FSP
      (generateJobCorrelatedFlowShop_cases opts durationLB durationUB numJobs numMachines
        st FSP),
    failure_iff_of_cases _ _ st FSP
      (generateMachineCorrelatedFlowShop_cases opts durationLB durationUB numJobs numMachines
        st FSP),
    failure_iff_of_cases _ _ st FSP
      (generateMixedCorrelatedFlowShop_cases opts durationLB durationUB numJobs numMachines
        st FSP)⟩

/-! ## Lemmas on the runs of the generators -/

theorem afterDraws_zero (st : RNG) : afterDraws st 0 = st := rfl

theorem afterDraws_add (st : RNG) (a b : Nat) :
    afterDraws (afterDraws st a) b = afterDraws st (a + b) := by
  unfold afterDraws
  dsimp only
  rw [Nat.add_comm a b, Function.iterate_add_apply]

theorem afterDraws_seed_range (st : RNG) (h0 : 0 ≤ st.seed) (h1 : st.seed < 2147483647)
    (k : Nat) : 0 ≤ (afterDraws st k).seed ∧ (afterDraws st k).seed < 2147483647 :=
  seedUpdate_iterate_range0 st.seed h0 h1 k

/-- A call of `unifSupplied` that returns has made one draw. -/
theorem unifSupplied_state (st : RNG) (low high x : Int) (st2 : RNG)
    (h : unifSupplied st low high = some (x, st2)) : st2 = afterDraws st 1 := by
  unfold unifSupplied at h
  split_ifs at h with hlh
  cases hu : unifZeroOne st with
  | none => rw [hu] at h; simp at h
  | some p =>
    obtain ⟨u, s1⟩ := p
    rw [hu] at h
    dsimp only at h
    split_ifs at h with hc
    injection h with h
    injection h with _ hs
    rw [← hs, (unifZeroOne_some st u s1 hu).2.1]
    rfl

/-- One row of a nested loop over the cells whose body makes one draw per cell. -/
theorem fillRow_trace (nJ i : Nat) (cell : Nat → Matrix × RNG → Option (Matrix × RNG))
    (Q : Nat → RNG → Int → Prop)
    (hcell : ∀ j p q, cell j p = some q →
      q.2 = afterDraws p.2 1 ∧ ∃ x, q.1 = setCell p.1 i j x ∧ Q j p.2 x)
    (p q : Matrix × RNG) (h : forLoopOpt nJ cell p = some q) :
    q.2 = afterDraws p.2 nJ ∧ (∀ j, j < nJ → Q j (afterDraws p.2 j) (q.1 i j)) ∧
      (∀ a b, ¬ (a = i ∧ b < nJ) → q.1 a b = p.1 a b) := by
  induction nJ generalizing q with
  | zero =>
    have h2 : some p = some q := h
    injection h2 with h2
    subst h2
    exact ⟨rfl, fun j hj => absurd hj (Nat.not_lt_zero j), fun _ _ _ => rfl⟩
  | succ n ih =>
    obtain ⟨mid, hm, hb⟩ := forLoopOpt_succ_some _ _ _ _ h
    obtain ⟨ih1, ih2, ih3⟩ := ih mid hm
    obtain ⟨hq2, x, hq, hQ⟩ := hcell n mid q hb
    rw [ih1] at hq2 hQ
    rw [afterDraws_add] at hq2
    refine ⟨hq2, ?_, ?_⟩
    · intro j hj
      rw [hq]
      by_cases hjn : j = n
      · rw [hjn]
        have : setCell mid.1 i n x i n = x := by
          unfold setCell
          rw [if_pos ⟨rfl, rfl⟩]
        rw [this]
        exact hQ
      · rw [setCell_other _ _ _ _ _ _ (by rintro ⟨_, h2⟩; exact hjn h2)]
        exact ih2 j (by omega)
    · intro a b hab
      rw [hq, setCell_other _ _ _ _ _ _ (by rintro ⟨h2, h3⟩; exact hab ⟨h2, by omega⟩)]
      exact ih3 a b (by rintro ⟨h2, h3⟩; exact hab ⟨h2, by omega⟩)

/-- A nested loop over the cells whose body makes one draw per cell, when it returns: the
cell `(i, j)` was computed on the state after `i * nJ + j` draws, the cells outside the
window are untouched and the loop has made `nM * nJ` draws. -/
theorem fillMatrix_trace (nM nJ : Nat)
    (cell : Nat → Nat → Matrix × RNG → Option (Matrix × RNG))
    (Q : Nat → Nat → RNG → Int → Prop)
    (hcell : ∀ i j p q, cell i j p = some q →
      q.2 = afterDraws p.2 1 ∧ ∃ x, q.1 = setCell p.1 i j x ∧ Q i j p.2 x)
    (p q : Matrix × RNG)
    (h : forLoopOpt nM (fun i p => forLoopOpt nJ (fun j p => cell i j p) p) p = some q) :
    q.2 = afterDraws p.2 (nM * nJ) ∧
      (∀ i j, i < nM → j < nJ → Q i j (afterDraws p.2 (i * nJ + j)) (q.1 i j)) ∧
      (∀ a b, ¬ (a < nM ∧ b < nJ) → q.1 a b = p.1 a b) := by
  induction nM generalizing q with
  | zero =>
    have h2 : some p = some q := h
    injection h2 with h2
    subst h2
    refine ⟨?_, fun i j hi => absurd hi (Nat.not_lt_zero i), fun _ _ _ => rfl⟩
    rw [Nat.zero_mul]
    rfl
  | succ n ih =>
    obtain ⟨mid, hm, hb⟩ := forLoopOpt_succ_some _ _ _ _ h
    obtain ⟨ih1, ih2, ih3⟩ := ih mid hm
    obtain ⟨h1, h2, h3⟩ := fillRow_trace nJ n (fun j p => cell n j p) (Q n)
      (fun j p q hc => hcell n j p q hc) mid q hb
    rw [ih1] at h1 h2
    rw [afterDraws_add] at h1
    refine ⟨by rw [h1, Nat.succ_mul], ?_, ?_⟩
    · intro i j hi hj
      by_cases hin : i = n
      · rw [hin]
        have := h2 j hj
        rw [afterDraws_add] at this
        exact this
      · rw [h3 i j (by rintro ⟨h4, _⟩; exact hin h4)]
        exact ih2 i j (by omega) hj
    · intro a b hab
      rw [h3 a b (by rintro ⟨h4, h5⟩; exact hab ⟨by omega, h5⟩)]
      exact ih3 a b (by rintro ⟨h4, h5⟩; exact hab ⟨by omega, h5⟩)

/-- The nested loop of `drawMatrix`, when it returns: the cell `(i, j)` is the value that
`unifSupplied` returns on the state after `i * nJ + j` draws. -/
theorem drawMatrix_trace (nM nJ : Nat) (low high : Nat → Nat → Int) (st : RNG) (F : Matrix)
    (F2 : Matrix) (st2 : RNG) (h : drawMatrix nM nJ low high st F = some (F2, st2)) :
    st2 = afterDraws st (nM * nJ) ∧
      (∀ i j, i < nM → j < nJ →
        unifSupplied (afterDraws st (i * nJ + j)) (low i j) (high i j)
          = some (F2 i j, afterDraws st (i * nJ + j + 1))) ∧
      (∀ a b, ¬ (a < nM ∧ b < nJ) → F2 a b = F a b) := by
  unfold drawMatrix at h
  refine fillMatrix_trace nM nJ
    (fun i j p =>
      match unifSupplied p.2 (low i j) (high i j) with
      | none => none
      | some (x, st) => some (setCell p.1 i j x, st))
    (fun i j s x => unifSupplied s (low i j) (high i j) = some (x, afterDraws s 1)) ?_
    (F, st) (F2, st2) h |>.imp id (fun h2 => ⟨fun i j hi hj => by
      have := h2.1 i j hi hj
      dsimp only at this
      rw [afterDraws_add] at this
      exact this, h2.2⟩)
  intro i j p q hc
  dsimp only at hc
  cases hu : unifSupplied p.2 (low i j) (high i j) with
  | none => rw [hu] at hc; simp at hc
  | some r =>
    obtain ⟨x, s2⟩ := r
    rw [hu] at hc
    dsimp only at hc
    injection hc with hc
    have hs := unifSupplied_state _ _ _ _ _ hu
    refine ⟨by rw [← hc]; exact hs, x, by rw [← hc], ?_⟩
    dsimp only
    rw [← hs]
    exact hu

theorem unifZeroOne_zero_seed (i : Int) (g : ℚ) :
    unifZeroOne ⟨0, i, g⟩ = some (0, ⟨0, i, g⟩) := by
  have h := unifZeroOne_eq ⟨0, i, g⟩ (le_refl (0 : Int)) (by show (0 : Int) ≤ 2147483647; norm_num)
  have e : seedUpdate 0 = 0 := by decide
  rw [h]
  simp [e]

/-- From the seed `0`, which `setSeed(2147483647)` followed by one `unifZeroOne` leaves,
every uniform draw is `0`, every pair has `r = 2`, and the rejection loop of `normal`
accepts no pair, whatever the number of rounds. -/
theorem normalPair_zero_seed (fuel : Nat) (i : Int) (g : ℚ) :
    normalPair fuel ⟨0, i, g⟩ = none := by
  induction fuel with
  | zero => rfl
  | succ n ih =>
    unfold normalPair
    rw [unifZeroOne_zero_seed]
    dsimp only
    rw [unifZeroOne_zero_seed]
    dsimp only
    rw [if_pos (by norm_num)]
    exact ih

/-- C14: evaluation at a configuration that passes validation and for which sampling
fails. With the option `alpha=2`, the other options at their defaults and the duration
bounds `[1, 99]`, `effectiveIntervalWidth` is `rint(2*98) = 196`, the first draw is
`unifSupplied(1, 99 - 196)`, and its `assert(low<=high)` fails in each of the three
correlated generators. -/
theorem generators_abort_for_alpha_two :
    (¬ ((1 : Int) > 5 ∨ (1 : Int) ≤ 0 ∨ (5 : Int) ≤ 0) ∧ ¬ ((2 : ℚ) < 0) ∧ ¬ ((0 : Int) < 0)) ∧
      effectiveIntervalWidth 1 99 2 = 196 ∧
      unifSupplied (RNG.mk 1 0 0) 1 (99 - 196) = none ∧
      generateJobCorrelatedFlowShop ⟨none, none, some 2, none⟩ 1 99 2 3 (RNG.mk 1 0 0)
        (fun _ _ => 0) = none ∧
      generateMachineCorrelatedFlowShop ⟨none, none, some 2, none⟩ 1 99 2 3 (RNG.mk 1 0 0)
        (fun _ _ => 0) = none ∧
      generateMixedCorrelatedFlowShop ⟨none, none, some 2, none⟩ 1 99 2 3 (RNG.mk 1 0 0)
        (fun _ _ => 0) = none := by
  have he : effectiveIntervalWidth 1 99 2 = 196 := by
    have hw : wrapInt (99 - 1) = 98 := by decide
    have hd : toDouble ((2 : ℚ) * ((98 : Int) : ℚ)) = ((196 : Int) : ℚ) := by
      have e : (2 : ℚ) * ((98 : Int) : ℚ) = ((196 : Int) : ℚ) := by norm_num
      rw [e]
      exact toDouble_intCast 196 (by norm_num)
    unfold effectiveIntervalWidth
    dsimp only
    rw [hw, hd, rint_intCast]
    decide
  have hu : unifSupplied (RNG.mk 1 0 0) 1 (99 - 196) = none := by
    unfold unifSupplied
    rw [if_neg (by decide)]
  have hwr : wrapInt (99 - 196) = 99 - 196 := by decide
  refine ⟨⟨by decide, by norm_num, by decide⟩, he, hu, ?_, ?_, ?_⟩
  · unfold generateJobCorrelatedFlowShop
    dsimp only [Option.getD]
    rw [if_neg (by decide), if_neg (by norm_num), he, hwr, hu]
  · unfold generateMachineCorrelatedFlowShop
    dsimp only [Option.getD]
    rw [if_neg (by decide), if_neg (by norm_num), he, hwr, hu]
  · unfold generateMixedCorrelatedFlowShop
    dsimp only [Option.getD]
    rw [if_neg (by decide), if_neg (by norm_num), if_neg (by decide), he, hwr, hu]

/-- C11: evaluation at a corrected matrix on which `proportionateLowerBound` reads out of
range. With `durationLB = durationUB = 0`, one machine and one job, the corrected matrix
holds `0`; no job has a positive total, the search leaves `largestDuration = 0` and
`omega = -1`, and `minOps[omega]` is read at index `-1`. `taillardLowerBound` returns `0`
on the same matrix. -/
theorem proportionateLowerBound_out_of_range :
    (0 : Int) ≤ 0 ∧
      verifyAndCorrectDurations 0 0 1 1 (fun _ _ => 0) 0 0 = 0 ∧
      largestJob (verifyAndCorrectDurations 0 0 1 1 (fun _ _ => 0)) 1 1 = (0, -1) ∧
      proportionateLowerBound (verifyAndCorrectDurations 0 0 1 1 (fun _ _ => 0)) 1 1 = none ∧
      taillardLowerBound (verifyAndCorrectDurations 0 0 1 1 (fun _ _ => 0)) 1 1 = 0 := by
  decide

/-! ## Lemmas on the Taillard generator -/

theorem seedUpdate_iterate_eq_lehmerStep (seed : Int) (h0 : 0 ≤ seed)
    (h1 : seed < 2147483647) (n : Nat) : seedUpdate^[n] seed = lehmerStep^[n] seed := by
  induction n with
  | zero => rfl
  | succ n ih =>
    obtain ⟨ha, hb⟩ := seedUpdate_iterate_range0 seed h0 h1 n
    rw [Function.iterate_succ_apply', Function.iterate_succ_apply', ← ih,
      seedUpdate_eq_lehmerStep _ ha hb]

theorem floor_product_div (s n : Int) :
    Int.floor ((s : ℚ) * (n : ℚ) / 2147483647) = s * n / 2147483647 := by
  have h : (s : ℚ) * (n : ℚ) / 2147483647 = ((s : ℚ) / 2147483647) * (n : ℚ) := by ring
  rw [h, floor_scaled]

/-- The run of `generateTaillardFlowShop` for `int` bounds `lb ≤ ub` with a representable
span and a seed in `[0, 2147483646]`: the call returns `true`, the cell `(i, j)` holds
`lb` plus the scaled floor of the seed after `i * nJ + j + 1` updates, the cells outside
the window are untouched and the seed has been updated `nM * nJ` times. -/
theorem generateTaillardFlowShop_run (lb ub : Int) (nJ nM : Nat) (st : RNG) (F : Matrix)
    (hlo : INT_MIN ≤ lb) (hb : lb ≤ ub) (hhi : ub ≤ INT_MAX) (hrep : ub - lb + 1 ≤ INT_MAX)
    (h0 : 0 ≤ st.seed) (h1 : st.seed < 2147483647) :
    ∃ F2 : Matrix,
      generateTaillardFlowShop lb ub nJ nM st F = some (true, afterDraws st (nM * nJ), F2) ∧
      (∀ i j, i < nM → j < nJ →
        F2 i j = lb + scaledFloor (seedUpdate^[i * nJ + j + 1] st.seed) (ub - lb + 1) ∧
          lb ≤ F2 i j ∧ F2 i j ≤ ub) ∧
      (∀ a b, ¬ (a < nM ∧ b < nJ) → F2 a b = F a b) := by
  obtain ⟨F2, st2, hrun, _, _⟩ := drawMatrix_returns nM nJ (fun _ _ => lb) (fun _ _ => ub)
    st F h0 h1 (fun _ _ _ _ => ⟨hlo, hb, hhi, hrep⟩)
  obtain ⟨hs2, hcells, hframe⟩ := drawMatrix_trace _ _ _ _ _ _ _ _ hrun
  refine ⟨F2, ?_, ?_, hframe⟩
  · unfold generateTaillardFlowShop
    rw [hrun, hs2]
  · intro i j hi hj
    have hc := hcells i j hi hj
    obtain ⟨hk0, hk1⟩ := afterDraws_seed_range st h0 h1 (i * nJ + j)
    have he := unifSupplied_eq (afterDraws st (i * nJ + j)) lb ub hk0 hk1 hlo hb hhi hrep
    obtain ⟨_, hr1, hr2⟩ := unifSupplied_some _ _ _ _ _ hc
    rw [he] at hc
    injection hc with hc
    injection hc with hc _
    refine ⟨?_, hr1, hr2⟩
    rw [← hc, Function.iterate_succ_apply']
    rfl

/-! ## Theorems on the Taillard generator -/

/-- C21, counterexample: one job on one machine, bounds `[1, 10000000]`, seed `320189671`
at entry (the run `fspgen taillard 1 1 916280444 -durationUB=10000000`). The seed after
one Lehmer step is `1981264762`; the cell is `9225984`, and
`1 + floor(1981264762 * 10000000 / 2147483647)` is `9225983`. -/
theorem generateTaillardFlowShop_not_exact_floor :
    (1 : Int) ≤ 10000000 ∧ seedUpdate 916280444 = 320189671 ∧
      lehmerStep^[0 * 1 + 0 + 1] 320189671 = 1981264762 ∧
      (∃ FSP2 : Matrix,
        generateTaillardFlowShop 1 10000000 1 1 (RNG.mk 320189671 0 0) (fun _ _ => 0)
          = some (true, RNG.mk 1981264762 0 0, FSP2) ∧ FSP2 0 0 = 9225984) ∧
      (1 : Int) + Int.floor (((1981264762 : Int) : ℚ)
          * ((10000000 - 1 + 1 : Int) : ℚ) / 2147483647) = 9225983 := by
  have hs : seedUpdate^[0 * 1 + 0 + 1] 320189671 = 1981264762 := by decide
  refine ⟨by decide, by decide, by decide, ?_, ?_⟩
  · obtain ⟨F2, hrun, hcells, _⟩ := generateTaillardFlowShop_run 1 10000000 1 1
      (RNG.mk 320189671 0 0) (fun _ _ => 0) (by decide) (by decide) (by decide) (by decide)
      (by decide) (by decide)
    refine ⟨F2, ?_, ?_⟩
    · rw [hrun]
      have : afterDraws (RNG.mk 320189671 0 0) (1 * 1) = RNG.mk 1981264762 0 0 := by decide
      rw [this]
    · have h1 := (hcells 0 0 (by decide) (by decide)).1
      have hs2 : seedUpdate^[0 * 1 + 0 + 1] (RNG.mk 320189671 0 0).seed = 1981264762 := hs
      rw [hs2, scaledFloor_example] at h1
      rw [h1]
      rfl
  · have h : ((1981264762 : Int) : ℚ) * ((10000000 - 1 + 1 : Int) : ℚ) / 2147483647
        = ((19812647620000000 : Int) : ℚ) / ((2147483647 : ℕ) : ℚ) := by norm_num
    rw [h, Rat.floor_intCast_div_natCast]
    decide

/-- C21, amended: `generateTaillardFlowShop` fills the matrix in machine-major order with
one draw per cell. For `int` bounds `durationLB ≤ durationUB` with
`durationUB - durationLB + 1` representable and a seed in `[1, 2147483646]` at entry the
call returns `true`; the seeds it goes through are the Lehmer steps of the entry seed; cell
`FSP[i][j]` equals `durationLB + floor(fl(fl(s_k/2147483647) * (durationUB-durationLB+1)))`
for the seed `s_k` after `k = i*numJobs + j + 1` Lehmer steps, where `fl` rounds to the
nearest `double`, and lies in `[durationLB, durationUB]`; when
`durationUB - durationLB + 1 ≤ 2^21` it equals
`durationLB + floor(s_k * (durationUB - durationLB + 1) / 2147483647)`; the seed left
behind is the one after `numMachines*numJobs` steps and the state of `normal` is
untouched; the cells outside the window keep their values; and
`verifyAndCorrectDurations` leaves the generated matrix unchanged. -/
theorem generateTaillardFlowShop_cells (durationLB durationUB : Int)
    (numJobs numMachines : Nat) (st : RNG) (FSP : Matrix)
    (hlo : INT_MIN ≤ durationLB) (hb : durationLB ≤ durationUB)
    (hhi : durationUB ≤ INT_MAX) (hrep : durationUB - durationLB + 1 ≤ INT_MAX)
    (h0 : 1 ≤ st.seed) (h1 : st.seed ≤ 2147483646) :
    ∃ FSP2 : Matrix,
      generateTaillardFlowShop durationLB durationUB numJobs numMachines st FSP
        = some (true, { st with seed := lehmerStep^[numMachines * numJobs] st.seed }, FSP2) ∧
      (∀ k : Nat, seedUpdate^[k] st.seed = lehmerStep^[k] st.seed) ∧
      (∀ i j, i < numMachines → j < numJobs →
        FSP2 i j = durationLB
          + Int.floor (toDouble
              (toDouble (((lehmerStep^[i * numJobs + j + 1] st.seed : Int) : ℚ) / 2147483647)
                * ((durationUB - durationLB + 1 : Int) : ℚ))) ∧
        durationLB ≤ FSP2 i j ∧ FSP2 i j ≤ durationUB ∧
        (durationUB - durationLB + 1 ≤ 2097152 →
          FSP2 i j = durationLB
            + Int.floor (((lehmerStep^[i * numJobs + j + 1] st.seed : Int) : ℚ)
                * ((durationUB - durationLB + 1 : Int) : ℚ) / 2147483647))) ∧
      (∀ i j, ¬ (i < numMachines ∧ j < numJobs) → FSP2 i j = FSP i j) ∧
      verifyAndCorrectDurations durationLB durationUB numJobs numMachines FSP2 = FSP2 := by
  have hs0 : 0 ≤ st.seed := by omega
  have hs1 : st.seed < 2147483647 := by omega
  have hstep := seedUpdate_iterate_eq_lehmerStep st.seed hs0 hs1
  obtain ⟨F2, hrun, hcells, hframe⟩ := generateTaillardFlowShop_run durationLB durationUB
    numJobs numMachines st FSP hlo hb hhi hrep hs0 hs1
  refine ⟨F2, ?_, hstep, ?_, hframe, ?_⟩
  · rw [hrun]
    unfold afterDraws
    rw [hstep]
  · intro i j hi hj
    obtain ⟨hv, hr1, hr2⟩ := hcells i j hi hj
    rw [hstep] at hv
    refine ⟨hv, hr1, hr2, ?_⟩
    intro hsmall
    obtain ⟨hq0, hq1⟩ := seedUpdate_iterate_range0 st.seed hs0 hs1 (i * numJobs + j + 1)
    rw [hstep] at hq0 hq1
    rw [hv, scaledFloor_exact _ _ hq0 hq1 (by omega) hsmall, floor_product_div]
  · funext a b
    rw [correct_cell_eq]
    by_cases hw : a < numMachines ∧ b < numJobs
    · obtain ⟨_, hlow, hhigh⟩ := hcells a b hw.1 hw.2
      rw [if_pos hw, if_neg (by omega), if_neg (by omega)]
    · rw [if_neg hw]

/-- Witness for C21, amended: the run `fspgen taillard 3 2 1`, which enters the generator
with bounds `[1, 99]`, three jobs, two machines and the seed `16807` that the draw
discarded by `main` leaves from seed `1`. The seeds after one and after five steps are
`282475249` and `470211272`, so `FSP[0][0]` is `1 + floor(282475249*99/2147483647) = 14`
and `FSP[1][1]` is `1 + floor(470211272*99/2147483647) = 22`. -/
theorem generateTaillardFlowShop_cells_witness :
    INT_MIN ≤ 1 ∧ (1 : Int) ≤ 99 ∧ (99 : Int) ≤ INT_MAX ∧ (99 : Int) - 1 + 1 ≤ INT_MAX ∧
      (1 : Int) ≤ (RNG.mk 16807 0 0).seed ∧ (RNG.mk 16807 0 0).seed ≤ 2147483646 ∧
      (∃ FSP2 : Matrix,
        generateTaillardFlowShop 1 99 3 2 (RNG.mk 16807 0 0) (fun _ _ => 0)
          = some (true,
              { RNG.mk 16807 0 0 with seed := lehmerStep^[2 * 3] (RNG.mk 16807 0 0).seed },
              FSP2) ∧
        (∀ i j, i < 2 → j < 3 →
          FSP2 i j = 1
            + Int.floor (((lehmerStep^[i * 3 + j + 1] (RNG.mk 16807 0 0).seed : Int) : ℚ)
                * ((99 - 1 + 1 : Int) : ℚ) / 2147483647) ∧
          1 ≤ FSP2 i j ∧ FSP2 i j ≤ 99) ∧
        (∀ i j, ¬ (i < 2 ∧ j < 3) → FSP2 i j = (fun _ _ => (0 : Int)) i j) ∧
        verifyAndCorrectDurations 1 99 3 2 FSP2 = FSP2) ∧
      seedUpdate 1 = 16807 ∧
      lehmerStep^[0 * 3 + 0 + 1] 16807 = 282475249 ∧
      lehmerStep^[1 * 3 + 1 + 1] 16807 = 470211272 ∧
      (1 : Int) + 282475249 * (99 - 1 + 1) / 2147483647 = 14 ∧
      (1 : Int) + 470211272 * (99 - 1 + 1) / 2147483647 = 22 :=
  ⟨by decide, by decide, by decide, by decide, by decide, by decide,
    (generateTaillardFlowShop_cells 1 99 3 2 (RNG.mk 16807 0 0) (fun _ _ => 0) (by decide)
      (by decide) (by decide) (by decide) (by decide) (by decide)).elim
      fun F2 hF => ⟨F2, hF.1, fun i j hi hj =>
        ⟨(hF.2.2.1 i j hi hj).2.2.2 (by decide), (hF.2.2.1 i j hi hj).2.1,
          (hF.2.2.1 i j hi hj).2.2.1⟩, hF.2.2.2.1, hF.2.2.2.2⟩,
    by decide, by decide, by decide, by decide, by decide⟩

end FspGen
